import Mathlib

/-!
zMayaTools: the curve-construction node (zCreateCurve) and its helpers.

A shallow embedding of `src/zCreateCurve/zCreateCurve.cpp` and of the status
aggregator `src/zNativeMayaTools/MStatusHandler.cpp` (namespace
`zCreateCurve`), of `MakeUniqueName` and `TimeUnitToRational` from
`src/zNativeMayaTools/MayaUtils.cpp` (namespace `MayaUtils`) and of
`SubstituteString`, `split` and `escapeMel` from
`src/zNativeMayaTools/Helpers.cpp` (namespace `Helpers`). The definitions of
the three namespaces come first, the theorems after them.

Modelling conventions:

* C++ `int` values are `Int`.  Signed overflow is undefined behaviour in C++,
  so there is no wrap-around to model; for a degree in the range of the
  attribute every quantity computed here is at most three times the number of
  input points, and the development is about point counts for which that fits
  a 32-bit `int`.
* C++ `double` and `float` values are exact rationals (`ℚ`).  No division by
  zero is modelled: for two or more points the divisor `cnt` is positive.
* The host SDK is a parameter: `Host` gives the outcome of the two NURBS
  constructors, and `MDataBlock` holds what the data block returned.
* A run produces a trace of `Event`s: data-block reads, host constructor
  calls with their arguments, and logged errors, in program order.
* A `std::string` is a list of characters; a `std::map` is the list of its
  entries in iteration order; a loop that may not end takes a bound on its
  iterations and returns `none` when the bound is reached.
-/

namespace zCreateCurve

/-! ## Host value types -/

/-- MPoint: a homogeneous point of doubles. `MPoint(x, y, z)` sets `w = 1`. -/
structure MPoint where
  x : ℚ
  y : ℚ
  z : ℚ
  w : ℚ
  deriving DecidableEq, Repr

/-- The default-constructed point `MPoint::origin`. -/
def MPoint.origin : MPoint := ⟨0, 0, 0, 1⟩

/-- Three-argument constructor `MPoint(x, y, z)`. -/
def MPoint.mk3 (x y z : ℚ) : MPoint := ⟨x, y, z, 1⟩

/-- MMatrix: a 4x4 matrix of doubles, `mat(r, c)`. -/
abbrev MMatrix := Fin 4 → Fin 4 → ℚ

/-- MStatus: a status code (0 is `kSuccess`) and the error string of the host. -/
structure MStatus where
  code : Nat
  errorString : String
  deriving DecidableEq, Repr

/-- The status `MStatus::kSuccess`. -/
def MStatus.kSuccess : MStatus := ⟨0, ""⟩

/-- The conversion `operator bool` of MStatus: true exactly for `kSuccess`. -/
def MStatus.isSuccess (s : MStatus) : Bool := s.code == 0

/-- The curve form `MFnNurbsCurve::Form` (the two values used by the node). -/
inductive Form where
  | kOpen
  | kPeriodic
  deriving DecidableEq, Repr

/-- Arguments of `MFnNurbsCurve::create`. -/
structure CreateArgs where
  cvs : List MPoint
  knots : List ℚ
  degree : Int
  form : Form
  create2D : Bool
  createRational : Bool
  deriving DecidableEq, Repr

/-- Arguments of `MFnNurbsCurve::createWithEditPoints`. -/
structure CreateEPArgs where
  eps : List MPoint
  degree : Int
  form : Form
  create2D : Bool
  createRational : Bool
  uniformParam : Bool
  deriving DecidableEq, Repr

/-- The scalar attributes of the node read through `dataBlock.inputValue`. -/
inductive Attr where
  | epCurve
  | degree
  | periodic
  | parameterRange
  deriving DecidableEq, Repr

/-- What a run does that is visible outside it, in program order. -/
inductive Event where
  | inputArrayValue
  | inputValue (a : Attr)
  | create (a : CreateArgs)
  | createWithEditPoints (a : CreateEPArgs)
  | logError (msg : String)
  deriving DecidableEq, Repr

/-- The host constructors. `Obj` is the content of the curve data object that
`outputCurve` refers to; each constructor returns its status and the new
content of that object. -/
structure Host (Obj : Type) where
  create : CreateArgs → Obj → MStatus × Obj
  createWithEditPoints : CreateEPArgs → Obj → MStatus × Obj

/-- What iteration `i` of the extraction loop got back from the array handle:
the status of `jumpToArrayElement(i)`, the status of `inputValue` and the
matrix returned by `asMatrix()`. -/
structure ArrayElement where
  logicalIndex : Nat
  jumpStatus : MStatus
  valueStatus : MStatus
  matrix : MMatrix

/-- The data block of one compute: the physical elements of the `input` array
in stored order and the four settings. -/
structure MDataBlock where
  inputTransforms : List ArrayElement
  degree : Int
  periodic : Bool
  epCurve : Bool
  parameterRange : ℚ

/-! ## MStatusHandler -/

/-- MStatusHandler: the first recorded failure and the label of its call. -/
structure MStatusHandler where
  status : MStatus
  errorString : String
  deriving DecidableEq, Repr

/-- A default-constructed handler. -/
def MStatusHandler.fresh : MStatusHandler := ⟨MStatus.kSuccess, ""⟩

/-- `MStatusHandler::instanceFinished`: called when the temporary made by
`status("name")` goes out of scope, with the status the call stored in it. -/
def MStatusHandler.instanceFinished (h : MStatusHandler) (name : String) (st : MStatus) :
    MStatusHandler :=
  if h.status.code == 0 && st.code != 0 then ⟨st, name⟩ else h

/-- `MStatusHandler::get`. -/
def MStatusHandler.get (h : MStatusHandler) : MStatus := h.status

/-- `MStatusHandler::getError`. -/
def MStatusHandler.getError (h : MStatusHandler) : String :=
  if h.status.isSuccess then ""
  else
    let errorMessage := h.status.errorString
    if errorMessage.length > 0 then h.errorString ++ ": " ++ errorMessage
    else h.errorString ++ " failed"

/-- `MStatusHandler::perror`: logs the first error, if any, and says whether
there was one. -/
def MStatusHandler.perror (h : MStatusHandler) : Bool × List Event :=
  if h.status.isSuccess then (false, [])
  else (true, [Event.logError h.getError])

/-! ## zCreateCurve -/

/-- The result of a run: returned status, content of the output curve object,
and the trace. -/
structure Outcome (Obj : Type) where
  status : MStatus
  outputCurve : Obj
  events : List Event

/-- A counted loop `for(int i = 0; i < n; ++i) body`. -/
def forLoop {σ : Type} (n : Int) (body : Int → σ → σ) (s : σ) : σ :=
  (List.range n.toNat).foldl (fun acc (i : Nat) => body (i : Int) acc) s

/-- `zCreateCurve::createPlaceholderCurve`. -/
def createPlaceholderCurve {Obj : Type} (host : Host Obj) (outputCurve : Obj) : Outcome Obj :=
  let status := MStatusHandler.fresh
  let cvs : List MPoint := List.replicate 2 MPoint.origin
  let knots : List ℚ := []
  let knots := knots ++ [0]
  let knots := knots ++ [1]
  let args : CreateArgs := ⟨cvs, knots, 1, Form.kOpen, false, false⟩
  let r := host.create args outputCurve
  let status := status.instanceFinished "MFnNurbsCurve::create" r.1
  let p := status.perror
  ⟨status.get, r.2, [Event.create args] ++ p.2⟩

/-- The extraction loop of `computeCurve`: one point per physical element,
from row 3 of its matrix; both statuses are recorded. -/
def extractPoints (elems : List ArrayElement) (status : MStatusHandler) :
    MStatusHandler × List MPoint :=
  elems.foldl
    (fun acc e =>
      let status := acc.1.instanceFinished "inputTransformsHandle.jumpToElement" e.jumpStatus
      let status := status.instanceFinished "inputTransformsHandle.inputValue" e.valueStatus
      let mat := e.matrix
      (status, acc.2 ++ [MPoint.mk3 (mat 3 0) (mat 3 1) (mat 3 2)]))
    (status, [])

/-- The local state of `computeCurve` when the knot layout is complete and
before the knots are scaled: the CV list, the periodic flag, the clamped
degree and the knots. -/
structure Layout where
  cvs : List MPoint
  periodic : Bool
  degree : Int
  knots : List ℚ
  deriving DecidableEq, Repr

/-- The CV-mode block of `computeCurve` from the degree clamp to the end of the
knot layout: clamp, periodic wrap, knot count and the two layouts. The wrap
loop reads `cvs[i]` with `i < degree < cvs.length()`, always in range; the
default of `getD` is never used. -/
def cvLayout (cvs : List MPoint) (degree : Int) (periodic : Bool) : Layout :=
  let degree := min degree ((cvs.length : Int) - 1)
  let wrapped : List MPoint × Bool :=
    if periodic then
      if (cvs.length : Int) ≥ degree + 1 then
        (forLoop degree (fun i cvs => cvs ++ [cvs.getD i.toNat MPoint.origin]) cvs, periodic)
      else
        (cvs, false)
    else (cvs, periodic)
  let cvs := wrapped.1
  let periodic := wrapped.2
  let numSpans : Int := (cvs.length : Int) - degree
  let numKnots : Int := numSpans + 2 * degree - 1
  let knots : List ℚ := []
  let knots : List ℚ :=
    if periodic then
      let cnt : Int := numKnots - 2 * (degree - 1) - 1
      forLoop numKnots
        (fun i knots =>
          let knotIdx : Int := i - degree + 1
          let knot : ℚ := (knotIdx : ℚ) / (cnt : ℚ)
          knots ++ [knot])
        knots
    else
      let knots := forLoop (degree - 1) (fun _ knots => knots ++ [0]) knots
      let cnt : Int := numKnots - 2 * (degree - 1) - 1
      let knots := forLoop (cnt + 1)
        (fun i knots =>
          let knot : ℚ := (i : ℚ) / (cnt : ℚ)
          knots ++ [knot])
        knots
      forLoop (degree - 1) (fun _ knots => knots ++ [1]) knots
  ⟨cvs, periodic, degree, knots⟩

/-- The scaling step of `computeCurve`: when the parameter range is not 1,
every knot is multiplied by it in place. -/
def scaleKnots (parameterRange : ℚ) (knots : List ℚ) : List ℚ :=
  if parameterRange ≠ 1 then
    forLoop (knots.length : Int)
      (fun i knots => List.modify (fun k => k * parameterRange) i.toNat knots) knots
  else knots

/-- The CV-mode block of `computeCurve` up to the call of the constructor:
layout, then scaling. The result is the argument list of
`MFnNurbsCurve::create`. -/
def cvCurveArgs (cvs : List MPoint) (degree : Int) (periodic : Bool) (parameterRange : ℚ) :
    CreateArgs :=
  let lay := cvLayout cvs degree periodic
  let knots := scaleKnots parameterRange lay.knots
  ⟨lay.cvs, knots, lay.degree, if lay.periodic then Form.kPeriodic else Form.kOpen, false, false⟩

/-- `zCreateCurve::computeCurve`. -/
def computeCurve {Obj : Type} (host : Host Obj) (dataBlock : MDataBlock) (outputCurve : Obj) :
    Outcome Obj :=
  let status := MStatusHandler.fresh
  let p0 := status.perror
  if p0.1 then ⟨status.get, outputCurve, p0.2⟩
  else
    let ext := extractPoints dataBlock.inputTransforms status
    let status := ext.1
    let cvs := ext.2
    let ev := p0.2 ++ [Event.inputArrayValue]
    if cvs.length < 2 then
      let r := createPlaceholderCurve host outputCurve
      ⟨r.status, r.outputCurve, ev ++ r.events⟩
    else
      let degree := dataBlock.degree
      let periodic := dataBlock.periodic
      let epCurve := dataBlock.epCurve
      let ev := ev ++ [Event.inputValue Attr.degree, Event.inputValue Attr.periodic,
        Event.inputValue Attr.epCurve]
      if epCurve then
        let degree := min degree 10
        let cvs := if periodic && decide (cvs.length ≥ 1) then cvs ++ [cvs.getD 0 MPoint.origin]
          else cvs
        let args : CreateEPArgs :=
          ⟨cvs, degree, if periodic then Form.kPeriodic else Form.kOpen, false, false, true⟩
        let r := host.createWithEditPoints args outputCurve
        let status := status.instanceFinished "MFnNurbsCurve::createWithEditPoints" r.1
        let p := status.perror
        ⟨status.get, r.2, ev ++ [Event.createWithEditPoints args] ++ p.2⟩
      else
        let args := cvCurveArgs cvs degree periodic dataBlock.parameterRange
        let r := host.create args outputCurve
        let status := status.instanceFinished "MFnNurbsCurve::create" r.1
        let ev := ev ++ [Event.inputValue Attr.parameterRange, Event.create args]
        let p := status.perror
        if p.1 then
          let r2 := createPlaceholderCurve host r.2
          ⟨r2.status, r2.outputCurve, ev ++ p.2 ++ r2.events⟩
        else ⟨status.get, r.2, ev ++ p.2⟩

/-- The arguments of the calls of `MFnNurbsCurve::create` in a trace, in order. -/
def createCalls (evs : List Event) : List CreateArgs :=
  evs.filterMap (fun e => match e with
    | Event.create a => some a
    | _ => none)

/-- The attributes read through `dataBlock.inputValue` in a trace, in order. -/
def attrReads (evs : List Event) : List Attr :=
  evs.filterMap (fun e => match e with
    | Event.inputValue a => some a
    | _ => none)

/-- The points `computeCurve` extracts from a data block. -/
def inputPoints (dataBlock : MDataBlock) : List MPoint :=
  (extractPoints dataBlock.inputTransforms MStatusHandler.fresh).2

/-- The argument list of the first call of `MFnNurbsCurve::create` in a run,
if there is one. -/
def requestedCurve {Obj : Type} (o : Outcome Obj) : Option CreateArgs :=
  (createCalls o.events).head?

/-- The argument list `createPlaceholderCurve` passes to the constructor. -/
def placeholderArgs : CreateArgs :=
  ⟨[MPoint.origin, MPoint.origin], [0, 1], 1, Form.kOpen, false, false⟩

/-! ## Reference layouts

The knot layouts as the specification words them, to compare with the loops
of `cvLayout`. -/

/-- Open layout: `d - 1` zeros, then `i / cnt` for `i = 0 .. cnt`, then
`d - 1` ones. -/
def openLayout (d cnt : Int) : List ℚ :=
  List.replicate (d - 1).toNat (0 : ℚ)
    ++ (List.range (cnt + 1).toNat).map (fun (i : Nat) => (i : ℚ) / (cnt : ℚ))
    ++ List.replicate (d - 1).toNat (1 : ℚ)

/-- Periodic layout: `numKnots` values, the `i`-th being `(i - (d - 1)) / cnt`. -/
def periodicLayout (d numKnots cnt : Int) : List ℚ :=
  (List.range numKnots.toNat).map (fun (i : Nat) => ((i : ℚ) - ((d : ℚ) - 1)) / (cnt : ℚ))

/-- Knot count in the words of the specification: `spans = n - d` and
`numKnots = spans + 2 d - 1`, for `n` CVs (after any wrap) and degree `d`. -/
def specNumKnots (n d : Int) : Int := (n - d) + 2 * d - 1

/-- The divisor of both layouts: `cnt = numKnots - 2 (d - 1) - 1`. -/
def specCnt (numKnots d : Int) : Int := numKnots - 2 * (d - 1) - 1

/-- The same data block with another value of `parameterRange`. -/
def MDataBlock.withParameterRange (dataBlock : MDataBlock) (r : ℚ) : MDataBlock :=
  ⟨dataBlock.inputTransforms, dataBlock.degree, dataBlock.periodic, dataBlock.epCurve, r⟩

/-- The arguments of the calls of `MFnNurbsCurve::createWithEditPoints` in a
trace, in order. -/
def editPointCalls (evs : List Event) : List CreateEPArgs :=
  evs.filterMap (fun e => match e with
    | Event.createWithEditPoints a => some a
    | _ => none)

/-- The calls of either host constructor in a trace, in order. -/
def hostCalls (evs : List Event) : List Event :=
  evs.filter (fun e => match e with
    | Event.create _ => true
    | Event.createWithEditPoints _ => true
    | _ => false)

/-- The messages passed to `Log::Error` in a trace, in order. -/
def loggedErrors (evs : List Event) : List String :=
  evs.filterMap (fun e => match e with
    | Event.logError msg => some msg
    | _ => none)

/-- The translation row `(M[3,0], M[3,1], M[3,2])` of a physical element. -/
def translationRow (e : ArrayElement) : ℚ × ℚ × ℚ :=
  (e.matrix 3 0, e.matrix 3 1, e.matrix 3 2)

/-- The two read statuses of a physical element. -/
def readStatuses (e : ArrayElement) : MStatus × MStatus :=
  (e.jumpStatus, e.valueStatus)

/-- A sequence of `status("label")` uses folded into a handler: each pair is
the label and the status the call stored in the temporary. -/
def MStatusHandler.recordAll (h : MStatusHandler) (calls : List (String × MStatus)) :
    MStatusHandler :=
  calls.foldl (fun acc c => acc.instanceFinished c.1 c.2) h

/-- The first constructor call of `computeCurve`, as a function of the
extracted points and the configuration. -/
def firstRequest (cvs : List MPoint) (degree : Int) (periodic epCurve : Bool)
    (parameterRange : ℚ) : Event :=
  if cvs.length < 2 then Event.create placeholderArgs
  else if epCurve then
    Event.createWithEditPoints
      ⟨if periodic then cvs ++ [cvs.getD 0 MPoint.origin] else cvs, min degree 10,
        if periodic then Form.kPeriodic else Form.kOpen, false, false, true⟩
  else Event.create (cvCurveArgs cvs degree periodic parameterRange)

/-- The divisor `cnt` of the knot layout as `computeCurve` computes it: degree
clamp, periodic wrap, `numSpans`, `numKnots`, then
`cnt = numKnots - 2*(degree-1) - 1` (the same expression in both layouts). -/
def knotDivisor (cvs : List MPoint) (degree : Int) (periodic : Bool) : Int :=
  let degree := min degree ((cvs.length : Int) - 1)
  let wrapped : List MPoint × Bool :=
    if periodic then
      if (cvs.length : Int) ≥ degree + 1 then
        (forLoop degree (fun i cvs => cvs ++ [cvs.getD i.toNat MPoint.origin]) cvs, periodic)
      else
        (cvs, false)
    else (cvs, periodic)
  let cvs := wrapped.1
  let numSpans : Int := (cvs.length : Int) - degree
  let numKnots : Int := numSpans + 2 * degree - 1
  numKnots - 2 * (degree - 1) - 1

/-! ## zCreateCurve::compute -/

/-- What the output handle answers during one `compute(outputCurve)`: the
status of `dataBlock.outputValue`, the object `asNurbsCurve()` returns (`none`
when it is null), the object `MFnNurbsCurveData().create()` returns, and the
status of `outputCurveHandle.set`. -/
structure OutputHandle (Obj : Type) where
  outputValueStatus : MStatus
  current : Option Obj
  newCurveData : Obj
  setStatus : MStatus

/-- The result of `compute`: the returned status, the object passed to
`outputCurveHandle.set` if it was called, whether `setClean` was called, and
the trace. -/
structure ComputeOutcome (Obj : Type) where
  status : MStatus
  setCall : Option Obj
  setClean : Bool
  events : List Event

/-- `zCreateCurve::compute` for the plug `outputCurve` when it is not an array
plug (the second branch of the source function). -/
def compute {Obj : Type} (host : Host Obj) (handle : OutputHandle Obj) (dataBlock : MDataBlock) :
    ComputeOutcome Obj :=
  let status := MStatusHandler.fresh
  let status := status.instanceFinished "dataBlock.outputValue" handle.outputValueStatus
  let outputCurve : Obj :=
    match handle.current with
    | some o => o
    | none => handle.newCurveData
  let r := computeCurve host dataBlock outputCurve
  let status := status.instanceFinished "computeCurve" r.status
  let p := status.perror
  if p.1 then ⟨status.get, none, false, r.events ++ p.2⟩
  else
    let status := status.instanceFinished "outputCurveHandle.set" handle.setStatus
    let p2 := status.perror
    ⟨status.get, some r.outputCurve, true, r.events ++ p.2 ++ p2.2⟩

/-- The object `compute` hands to `computeCurve`. -/
def OutputHandle.object {Obj : Type} (handle : OutputHandle Obj) : Obj :=
  match handle.current with
  | some o => o
  | none => handle.newCurveData

/-! ## Sample inputs

The scenarios of the specification, as concrete data blocks. -/

/-- A host whose constructors accept every request. -/
def acceptAll : Host Unit :=
  ⟨fun _ o => (MStatus.kSuccess, o), fun _ o => (MStatus.kSuccess, o)⟩

/-- A host whose constructors reject every request. -/
def rejectAll : Host Unit :=
  ⟨fun _ o => (⟨1, "rejected"⟩, o), fun _ o => (⟨1, "rejected"⟩, o)⟩

/-- A transform with identity rotation and translation `(x, y, z)`. -/
def translation (x y z : ℚ) : MMatrix :=
  ![![1, 0, 0, 0], ![0, 1, 0, 0], ![0, 0, 1, 0], ![x, y, z, 1]]

/-- A physical array element that is read without error. -/
def element (logicalIndex : Nat) (x y z : ℚ) : ArrayElement :=
  ⟨logicalIndex, MStatus.kSuccess, MStatus.kSuccess, translation x y z⟩

/-- The five transforms of scenarios S1 and S2. -/
def fiveTransforms : List ArrayElement :=
  [element 0 0 0 0, element 1 1 0 0, element 2 2 1 0, element 3 3 0 0, element 4 4 0 0]

/-- The five points the transforms of S1 and S2 carry. -/
def fivePoints : List MPoint :=
  [MPoint.mk3 0 0 0, MPoint.mk3 1 0 0, MPoint.mk3 2 1 0, MPoint.mk3 3 0 0, MPoint.mk3 4 0 0]

/-- Scenario S1: open cubic from 5 CVs, parameter range 1. -/
def scenarioS1 : MDataBlock := ⟨fiveTransforms, 3, false, false, 1⟩

/-- Scenario S2: periodic cubic from 5 CVs, parameter range 1. -/
def scenarioS2 : MDataBlock := ⟨fiveTransforms, 3, true, false, 1⟩

/-- Scenario S3: 2 points, degree 5, open. -/
def scenarioS3 : MDataBlock := ⟨[element 0 0 0 0, element 1 1 0 0], 5, false, false, 1⟩

/-- Three points, degree 3, open. -/
def threePointCubic : MDataBlock :=
  ⟨[element 0 0 0 0, element 2 1 0 0, element 7 2 1 0], 3, false, false, 1⟩

/-- Scenario S5: no input point. -/
def scenarioS5 : MDataBlock := ⟨[], 3, false, false, 1⟩

/-- Scenario S2 with parameter range 2. -/
def scenarioS2Scaled : MDataBlock := ⟨fiveTransforms, 3, true, false, 2⟩

/-- Scenario S4: 4 edit points, degree 3, periodic. -/
def scenarioS4 : MDataBlock :=
  ⟨[element 0 0 0 0, element 1 1 0 0, element 2 1 1 0, element 3 0 1 0], 3, true, true, 1⟩

/-- Two edit points, degree 5, open. -/
def twoPointEP : MDataBlock := ⟨[element 0 0 0 0, element 1 1 0 0], 5, false, true, 1⟩

/-- A failure status of the host. -/
def hostFailure : MStatus := ⟨1, "rejected"⟩

/-- A physical array element whose `jumpToArrayElement` fails. -/
def unreadable (logicalIndex : Nat) (x y z : ℚ) : ArrayElement :=
  ⟨logicalIndex, hostFailure, MStatus.kSuccess, translation x y z⟩

/-- One input element, and its read fails. -/
def oneUnreadable : MDataBlock := ⟨[unreadable 0 0 0 0], 3, false, false, 1⟩

/-- Scenario S4 with an unreadable second element. -/
def scenarioS4Unreadable : MDataBlock :=
  ⟨[element 0 0 0 0, unreadable 1 1 0 0, element 2 1 1 0, element 3 0 1 0], 3, true, true, 1⟩

/-- An output handle on an empty slot; acquiring and setting succeed. -/
def emptySlot : OutputHandle Unit := ⟨MStatus.kSuccess, none, (), MStatus.kSuccess⟩

/-- A transform with translation `(x, y, z)` whose other entries are not those
of the identity. -/
def skewed (x y z : ℚ) : MMatrix :=
  ![![0, 1, 0, 0], ![1, 0, 0, 0], ![0, 0, 2, 5], ![x, y, z, 1]]

/-- The three transforms of scenario S6 at logical indices 0, 2 and 7, the
first with a rotation part that is not the identity. -/
def scenarioS6Sparse : MDataBlock :=
  ⟨[⟨0, MStatus.kSuccess, MStatus.kSuccess, skewed 0 0 0⟩, element 2 1 0 0, element 7 2 1 0],
    3, false, false, 1⟩

/-- The dense input with the same three translations. -/
def scenarioS6Dense : MDataBlock :=
  ⟨[element 0 0 0 0, element 1 1 0 0, element 2 2 1 0], 3, false, false, 1⟩

end zCreateCurve

/-! # MayaUtils -/

namespace MayaUtils

/-- The text `ssprintf("%i", v)` produces for a 32-bit unsigned `v`: the value
is read as a signed 32-bit `int`. -/
def formatInt (v : Nat) : String :=
  toString (if v < 2 ^ 31 then (v : Int) else (v : Int) - 2 ^ 32)

/-- `MayaUtils::MakeUniqueName`. The static `uint32_t sequence` is passed in
and its new value is returned with the name. -/
def MakeUniqueName (stem : String) (sequence : Nat) : String × Nat :=
  let result := stem ++ formatInt sequence
  let sequence := (sequence + 1) % 2 ^ 32
  (result, sequence)

/-- The names returned by successive calls, given the stems passed and the
value of `sequence` before the first of them. -/
def namesFrom (sequence : Nat) : List String → List String
  | [] => []
  | stem :: rest =>
    (MakeUniqueName stem sequence).1 :: namesFrom (MakeUniqueName stem sequence).2 rest

/-- The names returned by the calls made since plugin load, where `sequence`
is 1. -/
def namesSinceLoad (stems : List String) : List String := namesFrom 1 stems

/-- Eleven calls: the first with the stem `a1`, the last with the stem `a`. -/
def collidingStems : List String :=
  ["a1", "b", "b", "b", "b", "b", "b", "b", "b", "b", "a"]

/-- The values of `MTime::Unit` that the switch of `TimeUnitToRational` names,
and `other` for every value it does not name (its `default` branch). The enum
itself is declared by the host SDK. -/
inductive MTimeUnit where
  | kHours
  | kMinutes
  | kSeconds
  | kMilliseconds
  | k15FPS
  | k24FPS
  | k25FPS
  | k30FPS
  | k48FPS
  | k50FPS
  | k60FPS
  | k2FPS
  | k3FPS
  | k4FPS
  | k5FPS
  | k6FPS
  | k8FPS
  | k10FPS
  | k12FPS
  | k16FPS
  | k20FPS
  | k40FPS
  | k75FPS
  | k80FPS
  | k100FPS
  | k120FPS
  | k125FPS
  | k150FPS
  | k200FPS
  | k240FPS
  | k250FPS
  | k300FPS
  | k375FPS
  | k400FPS
  | k500FPS
  | k600FPS
  | k750FPS
  | k1200FPS
  | k1500FPS
  | k2000FPS
  | k3000FPS
  | k6000FPS
  | k23_976FPS
  | k29_97FPS
  | k29_97DF
  | k47_952FPS
  | k59_94FPS
  | k44100FPS
  | k48000FPS
  | k90FPS
  | other (value : Int)

/-- `MayaUtils::TimeUnitToRational`: the pair `(numerator, denominator)` written
to the two reference parameters. -/
def TimeUnitToRational (unit : MTimeUnit) : Int × Int :=
  match unit with
  | MTimeUnit.kHours => (3600, 1)
  | MTimeUnit.kMinutes => (60, 1)
  | MTimeUnit.kSeconds => (1, 1)
  | MTimeUnit.kMilliseconds => (1, 1000)
  | MTimeUnit.k15FPS => (1, 15)
  | MTimeUnit.k24FPS => (1, 24)
  | MTimeUnit.k25FPS => (1, 25)
  | MTimeUnit.k30FPS => (1, 30)
  | MTimeUnit.k48FPS => (1, 48)
  | MTimeUnit.k50FPS => (1, 50)
  | MTimeUnit.k60FPS => (1, 60)
  | MTimeUnit.k2FPS => (1, 2)
  | MTimeUnit.k3FPS => (1, 3)
  | MTimeUnit.k4FPS => (1, 4)
  | MTimeUnit.k5FPS => (1, 5)
  | MTimeUnit.k6FPS => (1, 6)
  | MTimeUnit.k8FPS => (1, 8)
  | MTimeUnit.k10FPS => (1, 10)
  | MTimeUnit.k12FPS => (1, 12)
  | MTimeUnit.k16FPS => (1, 16)
  | MTimeUnit.k20FPS => (1, 20)
  | MTimeUnit.k40FPS => (1, 40)
  | MTimeUnit.k75FPS => (1, 75)
  | MTimeUnit.k80FPS => (1, 80)
  | MTimeUnit.k100FPS => (1, 100)
  | MTimeUnit.k120FPS => (1, 120)
  | MTimeUnit.k125FPS => (1, 125)
  | MTimeUnit.k150FPS => (1, 150)
  | MTimeUnit.k200FPS => (1, 200)
  | MTimeUnit.k240FPS => (1, 240)
  | MTimeUnit.k250FPS => (1, 250)
  | MTimeUnit.k300FPS => (1, 300)
  | MTimeUnit.k375FPS => (1, 375)
  | MTimeUnit.k400FPS => (1, 400)
  | MTimeUnit.k500FPS => (1, 500)
  | MTimeUnit.k600FPS => (1, 600)
  | MTimeUnit.k750FPS => (1, 750)
  | MTimeUnit.k1200FPS => (1, 1200)
  | MTimeUnit.k1500FPS => (1, 1500)
  | MTimeUnit.k2000FPS => (1, 2000)
  | MTimeUnit.k3000FPS => (1, 3000)
  | MTimeUnit.k6000FPS => (1, 6000)
  | MTimeUnit.k23_976FPS => (24000, 1001)
  | MTimeUnit.k29_97FPS => (30000, 1001)
  | MTimeUnit.k29_97DF => (30, 1)
  | MTimeUnit.k47_952FPS => (48000, 1001)
  | MTimeUnit.k59_94FPS => (60000, 1001)
  | MTimeUnit.k44100FPS => (1, 44100)
  | MTimeUnit.k48000FPS => (1, 48000)
  | MTimeUnit.k90FPS => (1, 90)
  | MTimeUnit.other _ => (1, 1)

/-- The warning `TimeUnitToRational` logs: only in the `default` branch. -/
def TimeUnitToRationalWarning (unit : MTimeUnit) : Option String :=
  match unit with
  | MTimeUnit.other value => some ("Unknown time unit " ++ toString value)
  | _ => none

end MayaUtils

/-! # Helpers -/

namespace Helpers

/-- `Helpers::lowercase`: `tolower` on every character (only the letters `A`
to `Z` change). A `std::string` is a list of characters. -/
def lowercase (s : List Char) : List Char := s.map Char.toLower

/-- `std::string::find(needle)` from position 0: the index of the first
occurrence of `needle`, `none` for `npos`. -/
def find : List Char → List Char → Option Nat
  | [], needle => if needle.isPrefixOf [] then some 0 else none
  | c :: rest, needle =>
    if needle.isPrefixOf (c :: rest) then some 0 else (find rest needle).map (fun i => i + 1)

/-- The `while(1)` loop of `SubstituteString` for one map entry: replace the
first case-insensitive occurrence of `lowercasePattern` by `value` until none
is left. `none` when `fuel` iterations were not enough. -/
def substituteLoop (fuel : Nat) (filenamePattern value lowercasePattern : List Char) :
    Option (List Char) :=
  match fuel with
  | 0 => none
  | fuel + 1 =>
    match find (lowercase filenamePattern) lowercasePattern with
    | none => some filenamePattern
    | some pos =>
      let newPattern : List Char := []
      let newPattern := newPattern ++ filenamePattern.take pos
      let newPattern := newPattern ++ value
      let newPattern := newPattern ++ filenamePattern.drop (pos + lowercasePattern.length)
      substituteLoop fuel newPattern value lowercasePattern

/-- `Helpers::SubstituteString`. `replacements` lists the entries of the map in
iteration order (ascending keys); `fuel` bounds the iterations of the inner
loop for each entry. -/
def SubstituteString (fuel : Nat) (filenamePattern : List Char)
    (replacements : List (List Char × List Char)) : Option (List Char) :=
  match replacements with
  | [] => some filenamePattern
  | it :: rest =>
    let keyword := lowercase it.1
    let lowercasePattern := "<".toList ++ lowercase keyword ++ ">".toList
    match substituteLoop fuel filenamePattern it.2 lowercasePattern with
    | none => none
    | some newFilenamePattern => SubstituteString fuel newFilenamePattern rest

/-- `std::string::find(c, startpos)` for a character: the index of the first
occurrence of `c` at or after `startpos`, `none` for `npos`. -/
def findChar (source : List Char) (c : Char) (startpos : Nat) : Option Nat :=
  let rest := source.drop startpos
  let skipped := (rest.takeWhile (fun x => x != c)).length
  if skipped < rest.length then some (startpos + skipped) else none

/-- The `do ... while` loop of `Helpers::split`. `none` when `fuel` iterations
were not enough. -/
def splitLoop (fuel : Nat) (source : List Char) (delimitor : Char) (startpos : Nat)
    (result : List (List Char)) : Option (List (List Char)) :=
  match fuel with
  | 0 => none
  | fuel + 1 =>
    let pos : Nat :=
      match findChar source delimitor startpos with
      | some p => p
      | none => source.length
    let result :=
      if pos - startpos > 0 then result ++ [(source.drop startpos).take (pos - startpos)]
      else result
    let startpos := pos + 1
    if startpos ≤ source.length then splitLoop fuel source delimitor startpos result
    else some result

/-- `std::vector::clear`: whatever the vector held, it is empty afterwards. -/
def clear (_ : List (List Char)) : List (List Char) := []

/-- `Helpers::split`: `result` is what the vector holds before the call, the
value returned is what it holds after it. -/
def split (fuel : Nat) (source : List Char) (delimitor : Char) (result : List (List Char)) :
    Option (List (List Char)) :=
  let result := clear result
  if source.isEmpty then some result
  else splitLoop fuel source delimitor 0 result

/-- A run put in front of a list of runs, unless it is empty. -/
def consRun (r : List Char) (rs : List (List Char)) : List (List Char) :=
  if r = [] then rs else r :: rs

/-- The maximal non-empty delimiter-free substrings of a string, in order: the
string is cut at every delimiter, and the pieces that are not empty are
listed. -/
inductive Runs (delim : Char) : List Char → List (List Char) → Prop where
  | last (t : List Char) : delim ∉ t → Runs delim t (consRun t [])
  | cut (r rest : List Char) (rs : List (List Char)) : delim ∉ r → Runs delim rest rs →
      Runs delim (r ++ delim :: rest) (consRun r rs)

/-- The double quote, ASCII 34. -/
def quoteChar : Char := Char.ofNat 34

/-- The backslash, ASCII 92. -/
def backslashChar : Char := Char.ofNat 92

/-- The newline, ASCII 10. -/
def newlineChar : Char := Char.ofNat 10

/-- The tab, ASCII 9. -/
def tabChar : Char := Char.ofNat 9

/-- What `escapeMel` appends for one character. -/
def escapeChar (c : Char) : List Char :=
  if c = quoteChar then [backslashChar, quoteChar]
  else if c = backslashChar then [backslashChar, backslashChar]
  else if c = newlineChar then [backslashChar, 'n']
  else if c = tabChar then [backslashChar, 't']
  else [c]

/-- `Helpers::escapeMel`. -/
def escapeMel (s : List Char) : List Char :=
  s.foldl (fun result c => result ++ escapeChar c) []

/-- Unescaping left to right: a backslash followed by a double quote, a
backslash, `n` or `t` stands for the double quote, the backslash, the newline
or the tab; every other character stands for itself. -/
def unescapeMel : List Char → List Char
  | [] => []
  | [c] => [c]
  | c :: d :: rest =>
    if c = backslashChar ∧ d = quoteChar then quoteChar :: unescapeMel rest
    else if c = backslashChar ∧ d = backslashChar then backslashChar :: unescapeMel rest
    else if c = backslashChar ∧ d = 'n' then newlineChar :: unescapeMel rest
    else if c = backslashChar ∧ d = 't' then tabChar :: unescapeMel rest
    else c :: unescapeMel (d :: rest)

end Helpers

namespace zCreateCurve

/-! ## Loop lemmas -/

theorem forLoop_append {α : Type} (n : Int) (f : Int → α) (s : List α) :
    forLoop n (fun i acc => acc ++ [f i]) s
      = s ++ (List.range n.toNat).map (fun (i : Nat) => f (i : Int)) := by
  unfold forLoop
  generalize n.toNat = k
  induction k with
  | zero => simp
  | succ k ih => simp [List.range_succ, List.foldl_append, ih]

theorem forLoop_const {α : Type} (n : Int) (a : α) (s : List α) :
    forLoop n (fun _ acc => acc ++ [a]) s = s ++ List.replicate n.toNat a := by
  rw [forLoop_append n (fun _ => a) s]
  congr 1
  induction n.toNat with
  | zero => rfl
  | succ k ih => rw [List.range_succ, List.map_append, ih, List.replicate_succ']; rfl

theorem forLoop_wrap (cvs : List MPoint) (d : Int) (h : d.toNat ≤ cvs.length) :
    forLoop d (fun i acc => acc ++ [acc.getD i.toNat MPoint.origin]) cvs
      = cvs ++ cvs.take d.toNat := by
  unfold forLoop
  generalize d.toNat = k at h
  induction k with
  | zero => simp
  | succ k ih =>
    have hk : k < cvs.length := h
    rw [List.range_succ, List.foldl_append, ih (Nat.le_of_lt hk)]
    simp only [List.foldl_cons, List.foldl_nil, Int.toNat_ofNat]
    rw [List.getD_eq_getElem?_getD, List.getElem?_append_left hk, List.take_succ,
      List.getElem?_eq_getElem hk]
    simp

theorem modify_length_append (f : ℚ → ℚ) (A B : List ℚ) (x : ℚ) :
    List.modify f A.length (A ++ x :: B) = A ++ f x :: B := by
  induction A with
  | nil => rfl
  | cons a A ih => simpa [List.modify_succ_cons] using ih

theorem forLoop_scale (r : ℚ) (l : List ℚ) :
    forLoop (l.length : Int) (fun i acc => List.modify (fun k => k * r) i.toNat acc) l
      = l.map (fun k => k * r) := by
  unfold forLoop
  have key : ∀ k, k ≤ l.length →
      (List.range k).foldl (fun acc (i : Nat) => List.modify (fun k => k * r) (i : Int).toNat acc) l
        = (l.take k).map (fun k => k * r) ++ l.drop k := by
    intro k
    induction k with
    | zero => simp
    | succ k ih =>
      intro hk
      have hk1 : k < l.length := hk
      rw [List.range_succ, List.foldl_append, ih (Nat.le_of_lt hk1)]
      simp only [List.foldl_cons, List.foldl_nil, Int.toNat_ofNat]
      have hlen : ((l.take k).map (fun k => k * r)).length = k := by
        simp [Nat.min_eq_left (Nat.le_of_lt hk1)]
      rw [List.drop_eq_getElem_cons hk1]
      nth_rewrite 1 [← hlen]
      rw [modify_length_append, List.take_succ, List.getElem?_eq_getElem hk1]
      simp only [Option.toList, List.map_append, List.map_cons, List.map_nil, List.append_assoc,
        List.singleton_append]
  have := key l.length (Nat.le_refl _)
  simpa using this

/-! ## Closed forms of the CV-mode block -/

theorem scaleKnots_eq_map (r : ℚ) (l : List ℚ) :
    scaleKnots r l = l.map (fun k => k * r) := by
  unfold scaleKnots
  split
  · exact forLoop_scale r l
  · next h =>
    have hr : r = 1 := not_not.mp h
    subst hr
    simp

theorem extractPoints_snd (elems : List ArrayElement) (status : MStatusHandler) (acc : List MPoint) :
    (elems.foldl
      (fun (acc : MStatusHandler × List MPoint) e =>
        let status := acc.1.instanceFinished "inputTransformsHandle.jumpToElement" e.jumpStatus
        let status := status.instanceFinished "inputTransformsHandle.inputValue" e.valueStatus
        let mat := e.matrix
        (status, acc.2 ++ [MPoint.mk3 (mat 3 0) (mat 3 1) (mat 3 2)]))
      (status, acc)).2
      = acc ++ elems.map (fun e => MPoint.mk3 (e.matrix 3 0) (e.matrix 3 1) (e.matrix 3 2)) := by
  induction elems generalizing status acc with
  | nil => simp
  | cons e es ih => simp [List.foldl_cons, ih]

theorem inputPoints_eq_map (db : MDataBlock) :
    inputPoints db
      = db.inputTransforms.map (fun e => MPoint.mk3 (e.matrix 3 0) (e.matrix 3 1) (e.matrix 3 2)) := by
  unfold inputPoints extractPoints
  rw [extractPoints_snd]
  simp

theorem inputPoints_length (db : MDataBlock) :
    (inputPoints db).length = db.inputTransforms.length := by
  rw [inputPoints_eq_map, List.length_map]

theorem cvLayout_open (cvs : List MPoint) (degree : Int) :
    cvLayout cvs degree false
      = ⟨cvs, false, min degree ((cvs.length : Int) - 1),
          openLayout (min degree ((cvs.length : Int) - 1))
            ((cvs.length : Int) - min degree ((cvs.length : Int) - 1))⟩ := by
  unfold cvLayout openLayout
  simp only [Bool.false_eq_true, if_false]
  rw [forLoop_const, forLoop_append, forLoop_const]
  have hc : (cvs.length : Int) - min degree ((cvs.length : Int) - 1)
      + 2 * min degree ((cvs.length : Int) - 1) - 1
      - 2 * (min degree ((cvs.length : Int) - 1) - 1) - 1
      = (cvs.length : Int) - min degree ((cvs.length : Int) - 1) := by ring
  rw [hc]
  simp

theorem cvLayout_periodic (cvs : List MPoint) (degree : Int) :
    cvLayout cvs degree true
      = ⟨cvs ++ cvs.take (min degree ((cvs.length : Int) - 1)).toNat, true,
          min degree ((cvs.length : Int) - 1),
          periodicLayout (min degree ((cvs.length : Int) - 1))
            (((cvs ++ cvs.take (min degree ((cvs.length : Int) - 1)).toNat).length : Int)
              + min degree ((cvs.length : Int) - 1) - 1)
            (((cvs ++ cvs.take (min degree ((cvs.length : Int) - 1)).toNat).length : Int)
              - min degree ((cvs.length : Int) - 1))⟩ := by
  unfold cvLayout periodicLayout
  generalize hd : min degree ((cvs.length : Int) - 1) = d
  have hle : d ≤ (cvs.length : Int) - 1 := by rw [← hd]; exact min_le_right _ _
  have hge : (cvs.length : Int) ≥ d + 1 := by omega
  have hnat : d.toNat ≤ cvs.length := by omega
  simp only [if_true, hge]
  rw [forLoop_wrap cvs d hnat, forLoop_append]
  generalize hm : ((cvs ++ cvs.take d.toNat).length : Int) = m
  have h1 : m - d + 2 * d - 1 = m + d - 1 := by ring
  have h2 : m + d - 1 - 2 * (d - 1) - 1 = m - d := by ring
  rw [h1, h2]
  simp only [List.nil_append]
  congr 1
  apply List.map_congr_left
  intro i _
  push_cast
  ring

/-! ## What `computeCurve` asks of the host -/

theorem fresh_perror : MStatusHandler.fresh.perror = (false, []) := rfl

theorem computeCurve_cv_request {Obj : Type} (host : Host Obj) (db : MDataBlock) (out : Obj)
    (hcv : db.epCurve = false) (hn : 2 ≤ db.inputTransforms.length) :
    requestedCurve (computeCurve host db out)
      = some (cvCurveArgs (inputPoints db) db.degree db.periodic db.parameterRange) := by
  have hlen : ¬ (extractPoints db.inputTransforms MStatusHandler.fresh).2.length < 2 := by
    have := inputPoints_length db
    unfold inputPoints at this
    omega
  unfold requestedCurve computeCurve
  simp only [fresh_perror, Bool.false_eq_true, if_false, hlen, hcv, List.nil_append]
  split <;> simp [createCalls, inputPoints]

theorem computeCurve_placeholder {Obj : Type} (host : Host Obj) (db : MDataBlock) (out : Obj)
    (hn : db.inputTransforms.length < 2) :
    computeCurve host db out
      = ⟨(createPlaceholderCurve host out).status, (createPlaceholderCurve host out).outputCurve,
          [Event.inputArrayValue] ++ (createPlaceholderCurve host out).events⟩ := by
  have hlen : (extractPoints db.inputTransforms MStatusHandler.fresh).2.length < 2 := by
    have := inputPoints_length db
    unfold inputPoints at this
    omega
  unfold computeCurve
  simp only [fresh_perror, Bool.false_eq_true, if_false, hlen, if_true, List.nil_append]

theorem createPlaceholderCurve_events {Obj : Type} (host : Host Obj) (out : Obj) :
    (createPlaceholderCurve host out).events
      = [Event.create placeholderArgs]
        ++ ((MStatusHandler.fresh.instanceFinished "MFnNurbsCurve::create"
              (host.create placeholderArgs out).1).perror).2 := rfl

theorem cvCurveArgs_open (cvs : List MPoint) (degree : Int) (r : ℚ) :
    cvCurveArgs cvs degree false r
      = ⟨cvs,
          (openLayout (min degree ((cvs.length : Int) - 1))
            ((cvs.length : Int) - min degree ((cvs.length : Int) - 1))).map (fun k => k * r),
          min degree ((cvs.length : Int) - 1), Form.kOpen, false, false⟩ := by
  unfold cvCurveArgs
  rw [cvLayout_open]
  simp [scaleKnots_eq_map]

theorem cvCurveArgs_periodic (cvs : List MPoint) (degree : Int) (r : ℚ) :
    cvCurveArgs cvs degree true r
      = ⟨cvs ++ cvs.take (min degree ((cvs.length : Int) - 1)).toNat,
          (periodicLayout (min degree ((cvs.length : Int) - 1))
            (((cvs ++ cvs.take (min degree ((cvs.length : Int) - 1)).toNat).length : Int)
              + min degree ((cvs.length : Int) - 1) - 1)
            (((cvs ++ cvs.take (min degree ((cvs.length : Int) - 1)).toNat).length : Int)
              - min degree ((cvs.length : Int) - 1))).map (fun k => k * r),
          min degree ((cvs.length : Int) - 1), Form.kPeriodic, false, false⟩ := by
  unfold cvCurveArgs
  rw [cvLayout_periodic]
  simp [scaleKnots_eq_map]

theorem openLayout_length (d cnt : Int) :
    (openLayout d cnt).length = (d - 1).toNat + (cnt + 1).toNat + (d - 1).toNat := by
  simp only [openLayout, List.length_append, List.length_replicate, List.length_map,
    List.length_range]

theorem periodicLayout_length (d numKnots cnt : Int) :
    (periodicLayout d numKnots cnt).length = numKnots.toNat := by
  simp [periodicLayout]

theorem wrapped_length (cvs : List MPoint) (d : Int) (hd : d ≤ (cvs.length : Int) - 1) :
    (cvs ++ cvs.take d.toNat).length = cvs.length + d.toNat := by
  rw [List.length_append, List.length_take]
  omega

theorem createPlaceholderCurve_request {Obj : Type} (host : Host Obj) (out : Obj) :
    requestedCurve (createPlaceholderCurve host out) = some placeholderArgs := by
  unfold requestedCurve
  rw [createPlaceholderCurve_events]
  simp [createCalls]

/-! ## Claims -/

/-- C1 (knot length law): in CV mode with at least two extracted points and a
requested degree of at least 1, the constructor is called with degree
`min degree (n - 1)` and with exactly (number of CVs) + degree - 1 knots, whatever
the periodic flag and the parameter range: `n + d - 1` knots on `n` CVs for an
open curve, `(n + d) + d - 1` knots on `n + d` CVs for a periodic one. The
placeholder request (2 CVs, degree 1, 2 knots) satisfies the same equality. -/
theorem knot_length_law {Obj : Type} (host : Host Obj) (db : MDataBlock) (out : Obj)
    (hcv : db.epCurve = false) (hn : 2 ≤ db.inputTransforms.length) (hdeg : 1 ≤ db.degree) :
    (∃ a : CreateArgs, requestedCurve (computeCurve host db out) = some a
      ∧ a.degree = min db.degree ((db.inputTransforms.length : Int) - 1)
      ∧ (a.knots.length : Int) = (a.cvs.length : Int) + a.degree - 1
      ∧ (db.periodic = false → a.cvs.length = db.inputTransforms.length
          ∧ (a.knots.length : Int) = (db.inputTransforms.length : Int) + a.degree - 1)
      ∧ (db.periodic = true → (a.cvs.length : Int) = (db.inputTransforms.length : Int) + a.degree
          ∧ (a.knots.length : Int)
              = ((db.inputTransforms.length : Int) + a.degree) + a.degree - 1))
    ∧ (∃ p : CreateArgs, requestedCurve (createPlaceholderCurve host out) = some p
      ∧ p.cvs.length = 2 ∧ p.degree = 1 ∧ p.knots.length = 2
      ∧ (p.knots.length : Int) = (p.cvs.length : Int) + p.degree - 1) := by
  refine ⟨⟨_, computeCurve_cv_request host db out hcv hn, ?_⟩,
    ⟨_, createPlaceholderCurve_request host out, rfl, rfl, rfl, rfl⟩⟩
  have hlen := inputPoints_length db
  generalize inputPoints db = cvs at hlen
  rw [← hlen]
  have hn2 : 2 ≤ cvs.length := by omega
  cases hp : db.periodic with
  | false =>
    rw [cvCurveArgs_open]
    simp only [List.length_map, openLayout_length]
    refine ⟨trivial, ?_, fun _ => ⟨trivial, ?_⟩, fun h => absurd h (by simp)⟩ <;> omega
  | true =>
    rw [cvCurveArgs_periodic]
    have hd : min db.degree ((cvs.length : Int) - 1) ≤ (cvs.length : Int) - 1 := min_le_right _ _
    simp only [List.length_map, periodicLayout_length, wrapped_length cvs _ hd]
    refine ⟨trivial, ?_, fun h => absurd h (by simp), fun _ => ⟨?_, ?_⟩⟩ <;> omega

/-- Witness of C1: the open cubic of scenario S1 on an accepting host. -/
theorem knot_length_law_witness :
    scenarioS1.epCurve = false ∧ 2 ≤ scenarioS1.inputTransforms.length ∧ 1 ≤ scenarioS1.degree
    ∧ ∃ a : CreateArgs, requestedCurve (computeCurve acceptAll scenarioS1 ()) = some a
      ∧ (a.knots.length : Int) = (a.cvs.length : Int) + a.degree - 1 :=
  ⟨rfl, by decide, by decide,
    match (knot_length_law acceptAll scenarioS1 () rfl (by decide) (by decide)).1 with
    | ⟨a, h, _, hk, _⟩ => ⟨a, h, hk⟩⟩

theorem adjacent_of_pairwise {R : ℚ → ℚ → Prop} {l : List ℚ} (h : l.Pairwise R)
    (i : Nat) (x y : ℚ) (hx : l[i]? = some x) (hy : l[i + 1]? = some y) : R x y := by
  rw [List.pairwise_iff_getElem] at h
  obtain ⟨hi, rfl⟩ := List.getElem?_eq_some.mp hx
  obtain ⟨hj, rfl⟩ := List.getElem?_eq_some.mp hy
  exact h i (i + 1) hi hj (Nat.lt_succ_self i)

theorem openLayout_pairwise (d cnt : Int) (hc : 0 < cnt) :
    (openLayout d cnt).Pairwise (fun a b => a ≤ b) := by
  have hcq : (0 : ℚ) < (cnt : ℚ) := by exact_mod_cast hc
  unfold openLayout
  rw [List.pairwise_append, List.pairwise_append]
  refine ⟨⟨by simp, ?_, ?_⟩, by simp, ?_⟩
  · refine List.Pairwise.map _ ?_ (List.pairwise_lt_range _)
    intro a b hab
    have : (a : ℚ) ≤ (b : ℚ) := by exact_mod_cast Nat.le_of_lt hab
    exact div_le_div_of_nonneg_right this (le_of_lt hcq)
  · intro a ha b hb
    rw [List.eq_of_mem_replicate ha]
    obtain ⟨j, _, rfl⟩ := List.mem_map.mp hb
    exact div_nonneg (Nat.cast_nonneg j) (le_of_lt hcq)
  · intro a ha b hb
    rw [List.eq_of_mem_replicate hb]
    rcases List.mem_append.mp ha with h | h
    · rw [List.eq_of_mem_replicate h]; exact zero_le_one
    · obtain ⟨j, hj, rfl⟩ := List.mem_map.mp h
      rw [List.mem_range] at hj
      rw [div_le_one hcq]
      have : (j : Int) ≤ cnt := by omega
      exact_mod_cast this

theorem periodicLayout_pairwise (d numKnots cnt : Int) (hc : 0 < cnt) :
    (periodicLayout d numKnots cnt).Pairwise (fun a b => a < b) := by
  have hcq : (0 : ℚ) < (cnt : ℚ) := by exact_mod_cast hc
  unfold periodicLayout
  refine List.Pairwise.map _ ?_ (List.pairwise_lt_range _)
  intro a b hab
  have : (a : ℚ) < (b : ℚ) := by exact_mod_cast hab
  exact div_lt_div_of_pos_right (by linarith) hcq

theorem pairwise_scale_le {l : List ℚ} (r : ℚ) (hr : 0 < r) (h : l.Pairwise (fun a b => a ≤ b)) :
    (l.map (fun k => k * r)).Pairwise (fun a b => a ≤ b) :=
  List.Pairwise.map _ (fun _ _ hab => mul_le_mul_of_nonneg_right hab (le_of_lt hr)) h

theorem pairwise_scale_lt {l : List ℚ} (r : ℚ) (hr : 0 < r) (h : l.Pairwise (fun a b => a < b)) :
    (l.map (fun k => k * r)).Pairwise (fun a b => a < b) :=
  List.Pairwise.map _ (fun _ _ hab => mul_lt_mul_of_pos_right hab hr) h

/-- C2 (knot monotonicity): in CV mode with at least two points, a requested
degree of at least 1 and a positive parameter range, the knots handed to the
constructor are the laid-out knots multiplied by the parameter range; both the
laid-out knots (before scaling) and the knots handed over (after scaling) are
non-decreasing, and for a periodic build both are strictly increasing. -/
theorem knot_monotonicity {Obj : Type} (host : Host Obj) (db : MDataBlock) (out : Obj)
    (hcv : db.epCurve = false) (hn : 2 ≤ db.inputTransforms.length) (_hdeg : 1 ≤ db.degree)
    (hR : 0 < db.parameterRange) :
    ∃ a : CreateArgs, requestedCurve (computeCurve host db out) = some a
      ∧ a.knots = (cvLayout (inputPoints db) db.degree db.periodic).knots.map
          (fun k => k * db.parameterRange)
      ∧ (∀ (i : Nat) (x y : ℚ),
          (cvLayout (inputPoints db) db.degree db.periodic).knots[i]? = some x →
          (cvLayout (inputPoints db) db.degree db.periodic).knots[i + 1]? = some y → x ≤ y)
      ∧ (∀ (i : Nat) (x y : ℚ), a.knots[i]? = some x → a.knots[i + 1]? = some y → x ≤ y)
      ∧ (db.periodic = true →
          (∀ (i : Nat) (x y : ℚ),
            (cvLayout (inputPoints db) db.degree db.periodic).knots[i]? = some x →
            (cvLayout (inputPoints db) db.degree db.periodic).knots[i + 1]? = some y → x < y)
          ∧ (∀ (i : Nat) (x y : ℚ),
            a.knots[i]? = some x → a.knots[i + 1]? = some y → x < y)) := by
  refine ⟨_, computeCurve_cv_request host db out hcv hn, ?_⟩
  have hlen := inputPoints_length db
  generalize inputPoints db = cvs at hlen
  have hn2 : 2 ≤ cvs.length := by omega
  have hd : min db.degree ((cvs.length : Int) - 1) ≤ (cvs.length : Int) - 1 := min_le_right _ _
  cases hp : db.periodic with
  | false =>
    rw [cvCurveArgs_open, cvLayout_open]
    have hpw := openLayout_pairwise (min db.degree ((cvs.length : Int) - 1))
      ((cvs.length : Int) - min db.degree ((cvs.length : Int) - 1)) (by omega)
    exact ⟨rfl, adjacent_of_pairwise hpw,
      adjacent_of_pairwise (pairwise_scale_le _ hR hpw), fun h => absurd h (by simp)⟩
  | true =>
    rw [cvCurveArgs_periodic, cvLayout_periodic]
    have hpw := periodicLayout_pairwise (min db.degree ((cvs.length : Int) - 1))
      (((cvs ++ cvs.take (min db.degree ((cvs.length : Int) - 1)).toNat).length : Int)
        + min db.degree ((cvs.length : Int) - 1) - 1)
      (((cvs ++ cvs.take (min db.degree ((cvs.length : Int) - 1)).toNat).length : Int)
        - min db.degree ((cvs.length : Int) - 1))
      (by rw [wrapped_length cvs _ hd]; omega)
    have hle := hpw.imp (fun {a b} (h : a < b) => le_of_lt h)
    exact ⟨rfl, adjacent_of_pairwise hle,
      adjacent_of_pairwise (pairwise_scale_le _ hR hle),
      fun _ => ⟨adjacent_of_pairwise hpw, adjacent_of_pairwise (pairwise_scale_lt _ hR hpw)⟩⟩

/-- Witness of C2: the periodic cubic of scenario S2 on an accepting host. -/
theorem knot_monotonicity_witness :
    scenarioS2.epCurve = false ∧ 2 ≤ scenarioS2.inputTransforms.length ∧ 1 ≤ scenarioS2.degree
    ∧ 0 < scenarioS2.parameterRange
    ∧ ∃ a : CreateArgs, requestedCurve (computeCurve acceptAll scenarioS2 ()) = some a
      ∧ (∀ (i : Nat) (x y : ℚ), a.knots[i]? = some x → a.knots[i + 1]? = some y → x ≤ y) :=
  ⟨rfl, by decide, by decide, by decide,
    match knot_monotonicity acceptAll scenarioS2 () rfl (by decide) (by decide) (by decide) with
    | ⟨a, h, _, _, hk, _⟩ => ⟨a, h, hk⟩⟩

theorem inputPoints_scenarioS1 : inputPoints scenarioS1 = fivePoints := by
  rfl

/-- C3 (open layout against its reference): in an open CV-mode build with at
least two points and effective degree `d = min degree (n - 1)` at least 1, the
CVs are handed over unchanged with degree `d` and form Open; the knots before
scaling are exactly `d - 1` zeros, then `i / cnt` for `i = 0 .. cnt`, then
`d - 1` ones, with `cnt = numKnots - 2 (d - 1) - 1`, and there are `numKnots`
of them; the knots handed over are these times the parameter range. For the
5 points of scenario S1 and degree 3 the knots are `[0, 0, 0, 1/2, 1, 1, 1]`
on the 5 unchanged CVs. -/
theorem open_layout_reference {Obj : Type} (host : Host Obj) (db : MDataBlock) (out : Obj)
    (hcv : db.epCurve = false) (hn : 2 ≤ db.inputTransforms.length)
    (hper : db.periodic = false)
    (hd : 1 ≤ min db.degree ((db.inputTransforms.length : Int) - 1)) :
    (∃ a : CreateArgs, requestedCurve (computeCurve host db out) = some a
      ∧ a.cvs = inputPoints db
      ∧ a.degree = min db.degree ((db.inputTransforms.length : Int) - 1)
      ∧ a.form = Form.kOpen
      ∧ (cvLayout (inputPoints db) db.degree db.periodic).knots
          = openLayout a.degree
              (specCnt (specNumKnots (db.inputTransforms.length : Int) a.degree) a.degree)
      ∧ ((cvLayout (inputPoints db) db.degree db.periodic).knots.length : Int)
          = specNumKnots (db.inputTransforms.length : Int) a.degree
      ∧ a.knots = (cvLayout (inputPoints db) db.degree db.periodic).knots.map
          (fun k => k * db.parameterRange)
      ∧ (db.parameterRange = 1 →
          a.knots = (cvLayout (inputPoints db) db.degree db.periodic).knots))
    ∧ requestedCurve (computeCurve acceptAll scenarioS1 ())
        = some ⟨fivePoints, [0, 0, 0, 1 / 2, 1, 1, 1], 3, Form.kOpen, false, false⟩ := by
  constructor
  · refine ⟨_, computeCurve_cv_request host db out hcv hn, ?_⟩
    have hlen := inputPoints_length db
    generalize inputPoints db = cvs at hlen
    rw [← hlen] at hd ⊢
    rw [hper, cvCurveArgs_open, cvLayout_open]
    have hc : specCnt (specNumKnots (cvs.length : Int) (min db.degree ((cvs.length : Int) - 1)))
        (min db.degree ((cvs.length : Int) - 1))
        = (cvs.length : Int) - min db.degree ((cvs.length : Int) - 1) := by
      unfold specCnt specNumKnots; ring
    have hle : min db.degree ((cvs.length : Int) - 1) ≤ (cvs.length : Int) - 1 := min_le_right _ _
    refine ⟨rfl, rfl, rfl, by rw [hc], ?_, rfl, ?_⟩
    · simp only [openLayout_length, specNumKnots]
      omega
    · intro h1
      simp [h1]
  · rw [computeCurve_cv_request acceptAll scenarioS1 () rfl (by decide), inputPoints_scenarioS1]
    have h5 : fivePoints.length = 5 := rfl
    rw [show scenarioS1.degree = 3 from rfl, show scenarioS1.periodic = false from rfl,
      show scenarioS1.parameterRange = 1 from rfl, cvCurveArgs_open, h5]
    have h3 : (3 : Int).toNat = 3 := rfl
    norm_num [openLayout, List.range_succ, List.replicate, h3]

/-- Witness of C3: scenario S1 on an accepting host. -/
theorem open_layout_reference_witness :
    scenarioS1.epCurve = false ∧ 2 ≤ scenarioS1.inputTransforms.length
    ∧ scenarioS1.periodic = false
    ∧ 1 ≤ min scenarioS1.degree ((scenarioS1.inputTransforms.length : Int) - 1)
    ∧ ∃ a : CreateArgs, requestedCurve (computeCurve acceptAll scenarioS1 ()) = some a
      ∧ a.cvs = inputPoints scenarioS1
      ∧ (cvLayout (inputPoints scenarioS1) scenarioS1.degree scenarioS1.periodic).knots
          = openLayout a.degree
              (specCnt (specNumKnots (scenarioS1.inputTransforms.length : Int) a.degree)
                a.degree) :=
  ⟨rfl, by decide, rfl, by decide,
    match (open_layout_reference acceptAll scenarioS1 () rfl (by decide) rfl (by decide)).1 with
    | ⟨a, h, hc, _, _, hk, _⟩ => ⟨a, h, hc, hk⟩⟩

theorem inputPoints_scenarioS2 : inputPoints scenarioS2 = fivePoints := by
  rfl

theorem periodicLayout_getElem? (d numKnots cnt : Int) (i : Nat) (hi : (i : Int) < numKnots) :
    (periodicLayout d numKnots cnt)[i]? = some (((i : ℚ) - ((d : ℚ) - 1)) / (cnt : ℚ)) := by
  have hlt : i < numKnots.toNat := by omega
  simp [periodicLayout, List.getElem?_range hlt]

/-- C4 (periodic layout against its reference): in a periodic CV-mode build
with at least two points and effective degree `d = min degree (n - 1)` at least
1, the constructor is called with degree `d` and form Periodic; with
`numKnots` the knot count for the `n + d` wrapped CVs and
`cnt = numKnots - 2 (d - 1) - 1`, the knots before scaling are `numKnots`
values, the `i`-th being `(i - (d - 1)) / cnt`; the first is `-(d - 1) / cnt`
and the last `1 + (d - 1) / cnt`; the knots handed over are these times the
parameter range. For the 5 points of scenario S2 and degree 3 the 10 knots are
`[-2/5, -1/5, 0, 1/5, 2/5, 3/5, 4/5, 1, 6/5, 7/5]`. -/
theorem periodic_layout_reference {Obj : Type} (host : Host Obj) (db : MDataBlock) (out : Obj)
    (hcv : db.epCurve = false) (hn : 2 ≤ db.inputTransforms.length)
    (hper : db.periodic = true)
    (hd : 1 ≤ min db.degree ((db.inputTransforms.length : Int) - 1)) :
    (∃ a : CreateArgs, requestedCurve (computeCurve host db out) = some a
      ∧ a.degree = min db.degree ((db.inputTransforms.length : Int) - 1)
      ∧ a.form = Form.kPeriodic
      ∧ (cvLayout (inputPoints db) db.degree db.periodic).knots
          = periodicLayout a.degree
              (specNumKnots ((db.inputTransforms.length : Int) + a.degree) a.degree)
              (specCnt (specNumKnots ((db.inputTransforms.length : Int) + a.degree) a.degree)
                a.degree)
      ∧ ((cvLayout (inputPoints db) db.degree db.periodic).knots.length : Int)
          = specNumKnots ((db.inputTransforms.length : Int) + a.degree) a.degree
      ∧ (∀ i : Nat,
          (i : Int) < specNumKnots ((db.inputTransforms.length : Int) + a.degree) a.degree →
          (cvLayout (inputPoints db) db.degree db.periodic).knots[i]?
            = some (((i : ℚ) - ((a.degree : ℚ) - 1))
                / ((specCnt (specNumKnots ((db.inputTransforms.length : Int) + a.degree)
                    a.degree) a.degree : Int) : ℚ)))
      ∧ (cvLayout (inputPoints db) db.degree db.periodic).knots.head?
          = some (-((a.degree : ℚ) - 1)
              / ((specCnt (specNumKnots ((db.inputTransforms.length : Int) + a.degree)
                  a.degree) a.degree : Int) : ℚ))
      ∧ (cvLayout (inputPoints db) db.degree db.periodic).knots.getLast?
          = some (1 + ((a.degree : ℚ) - 1)
              / ((specCnt (specNumKnots ((db.inputTransforms.length : Int) + a.degree)
                  a.degree) a.degree : Int) : ℚ))
      ∧ a.knots = (cvLayout (inputPoints db) db.degree db.periodic).knots.map
          (fun k => k * db.parameterRange))
    ∧ requestedCurve (computeCurve acceptAll scenarioS2 ())
        = some ⟨fivePoints ++ fivePoints.take 3,
            [-2 / 5, -1 / 5, 0, 1 / 5, 2 / 5, 3 / 5, 4 / 5, 1, 6 / 5, 7 / 5],
            3, Form.kPeriodic, false, false⟩ := by
  constructor
  · refine ⟨_, computeCurve_cv_request host db out hcv hn, ?_⟩
    have hlen := inputPoints_length db
    generalize inputPoints db = cvs at hlen
    rw [← hlen] at hd ⊢
    rw [hper, cvCurveArgs_periodic, cvLayout_periodic]
    have hle : min db.degree ((cvs.length : Int) - 1) ≤ (cvs.length : Int) - 1 := min_le_right _ _
    simp only [wrapped_length cvs _ hle]
    generalize min db.degree ((cvs.length : Int) - 1) = d at hd hle
    have hdn : ((d.toNat : Nat) : Int) = d := Int.toNat_of_nonneg (by omega)
    have hN : specNumKnots ((cvs.length : Int) + d) d = (cvs.length : Int) + d + d - 1 := by
      unfold specNumKnots; ring
    have hc : specCnt (specNumKnots ((cvs.length : Int) + d) d) d = (cvs.length : Int) := by
      unfold specCnt specNumKnots; ring
    have hcq : ((cvs.length : Int) : ℚ) ≠ 0 := by
      have : (cvs.length : Int) ≠ 0 := by omega
      exact_mod_cast this
    have e1 : ((cvs.length + d.toNat : Nat) : Int) + d - 1 = (cvs.length : Int) + d + d - 1 := by
      push_cast; omega
    have e2 : ((cvs.length + d.toNat : Nat) : Int) - d = (cvs.length : Int) := by
      push_cast; omega
    rw [hc, hN, e1, e2]
    refine ⟨trivial, trivial, rfl, ?_, fun i hi => periodicLayout_getElem? _ _ _ i hi, ?_, ?_, trivial⟩
    · rw [periodicLayout_length]; omega
    · rw [List.head?_eq_getElem?, periodicLayout_getElem? _ _ _ 0 (by push_cast; omega)]
      simp
    · rw [List.getLast?_eq_getElem?, periodicLayout_length,
        periodicLayout_getElem? _ _ _ _ (by omega)]
      have hcast : (((((cvs.length : Int) + d + d - 1).toNat - 1 : Nat) : Int))
          = (cvs.length : Int) + d + d - 2 := by omega
      have hq : (((((cvs.length : Int) + d + d - 1).toNat - 1 : Nat) : ℚ))
          = ((cvs.length : Int) : ℚ) + (d : ℚ) + (d : ℚ) - 2 := by
        exact_mod_cast hcast
      have hcq2 : (cvs.length : ℚ) ≠ 0 := by
        have : cvs.length ≠ 0 := by omega
        exact_mod_cast this
      rw [hq]
      congr 1
      push_cast
      field_simp
      ring
  · rw [computeCurve_cv_request acceptAll scenarioS2 () rfl (by decide), inputPoints_scenarioS2]
    have h5 : fivePoints.length = 5 := rfl
    rw [show scenarioS2.degree = 3 from rfl, show scenarioS2.periodic = true from rfl,
      show scenarioS2.parameterRange = 1 from rfl, cvCurveArgs_periodic]
    have h3 : (3 : Int).toNat = 3 := rfl
    have h10 : (10 : Int).toNat = 10 := rfl
    have h8 : (fivePoints ++ List.take 3 fivePoints).length = 8 := rfl
    norm_num [periodicLayout, List.range_succ, h3, h5, h8, h10]

/-- Witness of C4: scenario S2 on an accepting host. -/
theorem periodic_layout_reference_witness :
    scenarioS2.epCurve = false ∧ 2 ≤ scenarioS2.inputTransforms.length
    ∧ scenarioS2.periodic = true
    ∧ 1 ≤ min scenarioS2.degree ((scenarioS2.inputTransforms.length : Int) - 1)
    ∧ ∃ a : CreateArgs, requestedCurve (computeCurve acceptAll scenarioS2 ()) = some a
      ∧ a.form = Form.kPeriodic
      ∧ ((cvLayout (inputPoints scenarioS2) scenarioS2.degree scenarioS2.periodic).knots.length
          : Int)
          = specNumKnots ((scenarioS2.inputTransforms.length : Int) + a.degree) a.degree :=
  ⟨rfl, by decide, rfl, by decide,
    match (periodic_layout_reference acceptAll scenarioS2 () rfl (by decide) rfl
      (by decide)).1 with
    | ⟨a, h, _, hf, _, hk, _⟩ => ⟨a, h, hf, hk⟩⟩

theorem instanceFinished_ok (h : MStatusHandler) (name : String) (st : MStatus)
    (hs : st.code = 0) : h.instanceFinished name st = h := by
  simp [MStatusHandler.instanceFinished, hs]

theorem extractPoints_fold_fst_ok (elems : List ArrayElement) (status : MStatusHandler)
    (acc : List MPoint)
    (hok : ∀ e ∈ elems, e.jumpStatus.code = 0 ∧ e.valueStatus.code = 0) :
    (elems.foldl
      (fun (acc : MStatusHandler × List MPoint) e =>
        let status := acc.1.instanceFinished "inputTransformsHandle.jumpToElement" e.jumpStatus
        let status := status.instanceFinished "inputTransformsHandle.inputValue" e.valueStatus
        let mat := e.matrix
        (status, acc.2 ++ [MPoint.mk3 (mat 3 0) (mat 3 1) (mat 3 2)]))
      (status, acc)).1 = status := by
  induction elems generalizing acc with
  | nil => rfl
  | cons e es ih =>
    have he := hok e (List.mem_cons_self _ _)
    rw [List.foldl_cons]
    simp only [instanceFinished_ok _ _ _ he.1, instanceFinished_ok _ _ _ he.2]
    exact ih _ (fun e' he' => hok e' (List.mem_cons_of_mem _ he'))

theorem extractPoints_fst_ok (elems : List ArrayElement) (status : MStatusHandler)
    (hok : ∀ e ∈ elems, e.jumpStatus.code = 0 ∧ e.valueStatus.code = 0) :
    (extractPoints elems status).1 = status :=
  extractPoints_fold_fst_ok elems status [] hok

/-- The trace of a CV-mode run in which every read and the constructor succeed. -/
theorem computeCurve_cv_ok {Obj : Type} (host : Host Obj) (db : MDataBlock) (out : Obj)
    (hcv : db.epCurve = false) (hn : 2 ≤ db.inputTransforms.length)
    (hok : ∀ e ∈ db.inputTransforms, e.jumpStatus.code = 0 ∧ e.valueStatus.code = 0)
    (hacc : (host.create
      (cvCurveArgs (inputPoints db) db.degree db.periodic db.parameterRange) out).1.code = 0) :
    computeCurve host db out
      = ⟨MStatus.kSuccess,
          (host.create
            (cvCurveArgs (inputPoints db) db.degree db.periodic db.parameterRange) out).2,
          [Event.inputArrayValue, Event.inputValue Attr.degree, Event.inputValue Attr.periodic,
            Event.inputValue Attr.epCurve, Event.inputValue Attr.parameterRange,
            Event.create
              (cvCurveArgs (inputPoints db) db.degree db.periodic db.parameterRange)]⟩ := by
  have hlen : ¬ (extractPoints db.inputTransforms MStatusHandler.fresh).2.length < 2 := by
    have := inputPoints_length db
    unfold inputPoints at this
    omega
  unfold inputPoints at hacc
  unfold computeCurve
  simp only [fresh_perror, Bool.false_eq_true, if_false, hlen, hcv, List.nil_append,
    extractPoints_fst_ok _ _ hok, instanceFinished_ok _ _ _ hacc]
  rfl

theorem inputPoints_scenarioS3 :
    inputPoints scenarioS3 = [MPoint.mk3 0 0 0, MPoint.mk3 1 0 0] := by
  rfl

theorem inputPoints_threePointCubic :
    inputPoints threePointCubic = [MPoint.mk3 0 0 0, MPoint.mk3 1 0 0, MPoint.mk3 2 1 0] := by
  rfl

/-- C5 (degree clamp): in CV mode with at least two points, for every requested
degree the constructor is called with degree exactly `min degree (n - 1)`; when
the request exceeds `n - 1` the degree is exactly `n - 1`, and the run is an
ordinary successful one: if the reads and the constructor succeed, the status
is success, nothing is logged and the constructor is called once. Scenario S3
(2 points, degree 5, open) asks for degree 1 with knots `[0, 1]` on the two
points and succeeds; 3 points with degree 3 ask for degree 2. -/
theorem degree_clamp {Obj : Type} (host : Host Obj) (db : MDataBlock) (out : Obj)
    (hcv : db.epCurve = false) (hn : 2 ≤ db.inputTransforms.length) :
    (∃ a : CreateArgs, requestedCurve (computeCurve host db out) = some a
      ∧ a.degree = min db.degree ((db.inputTransforms.length : Int) - 1)
      ∧ ((db.inputTransforms.length : Int) - 1 < db.degree →
          a.degree = (db.inputTransforms.length : Int) - 1
          ∧ ((∀ e ∈ db.inputTransforms, e.jumpStatus.code = 0 ∧ e.valueStatus.code = 0) →
              (host.create a out).1.code = 0 →
              (computeCurve host db out).status = MStatus.kSuccess
              ∧ createCalls (computeCurve host db out).events = [a]
              ∧ ∀ msg : String, Event.logError msg ∉ (computeCurve host db out).events)))
    ∧ (requestedCurve (computeCurve acceptAll scenarioS3 ())
          = some ⟨[MPoint.mk3 0 0 0, MPoint.mk3 1 0 0], [0, 1], 1, Form.kOpen, false, false⟩
        ∧ (computeCurve acceptAll scenarioS3 ()).status = MStatus.kSuccess)
    ∧ (∃ b : CreateArgs, requestedCurve (computeCurve acceptAll threePointCubic ()) = some b
        ∧ b.degree = 2) := by
  refine ⟨⟨_, computeCurve_cv_request host db out hcv hn, ?_, ?_⟩, ⟨?_, ?_⟩, ?_⟩
  · rw [← inputPoints_length db]
    cases hp : db.periodic
    · rw [cvCurveArgs_open]
    · rw [cvCurveArgs_periodic]
  · intro hgt
    constructor
    · rw [← inputPoints_length db] at hgt ⊢
      cases hp : db.periodic
      · rw [cvCurveArgs_open]; exact min_eq_right (le_of_lt hgt)
      · rw [cvCurveArgs_periodic]; exact min_eq_right (le_of_lt hgt)
    · intro hok hacc
      rw [computeCurve_cv_ok host db out hcv hn hok hacc]
      refine ⟨rfl, by simp [createCalls], ?_⟩
      intro msg hmem
      simp at hmem
  · rw [computeCurve_cv_request acceptAll scenarioS3 () rfl (by decide), inputPoints_scenarioS3]
    rw [show scenarioS3.degree = 5 from rfl, show scenarioS3.periodic = false from rfl,
      show scenarioS3.parameterRange = 1 from rfl, cvCurveArgs_open]
    have h2 : (2 : Int).toNat = 2 := rfl
    norm_num [openLayout, List.range_succ, h2]
  · rw [computeCurve_cv_ok acceptAll scenarioS3 () rfl (by decide)
      (by intro e he; simp [scenarioS3, element, MStatus.kSuccess] at he ⊢; rcases he with rfl | rfl <;> simp)
      rfl]
  · refine ⟨_, computeCurve_cv_request acceptAll threePointCubic () rfl (by decide), ?_⟩
    rw [inputPoints_threePointCubic, show threePointCubic.periodic = false from rfl,
      cvCurveArgs_open]
    rfl

/-- Witness of C5: scenario S3 on an accepting host. -/
theorem degree_clamp_witness :
    scenarioS3.epCurve = false ∧ 2 ≤ scenarioS3.inputTransforms.length
    ∧ ∃ a : CreateArgs, requestedCurve (computeCurve acceptAll scenarioS3 ()) = some a
      ∧ a.degree = min scenarioS3.degree ((scenarioS3.inputTransforms.length : Int) - 1) :=
  ⟨rfl, by decide,
    match (degree_clamp acceptAll scenarioS3 () rfl (by decide)).1 with
    | ⟨a, h, hd, _⟩ => ⟨a, h, hd⟩⟩

/-- The open layout for degree `e + 1` and divisor `c + 1`, split into its
clamped ends and the interior knots. -/
theorem openLayout_split (e c : Nat) :
    openLayout ((e : Int) + 1) ((c : Int) + 1)
      = List.replicate (e + 1) (0 : ℚ)
        ++ ((List.range c).map (fun (i : Nat) => ((i : ℚ) + 1) / ((c : ℚ) + 1))
        ++ List.replicate (e + 1) (1 : ℚ)) := by
  have h1 : ((e : Int) + 1 - 1).toNat = e := by omega
  have h2 : ((c : Int) + 1 + 1).toNat = (c + 1) + 1 := by omega
  have hc : ((c : ℚ) + 1) ≠ 0 := by positivity
  unfold openLayout
  rw [h1, h2, List.range_succ_eq_map, List.range_succ, List.replicate_succ' e (0 : ℚ),
    List.replicate_succ (1 : ℚ) e]
  simp only [List.map_cons, List.map_append, List.map_map, List.map_nil, List.append_assoc,
    List.cons_append, List.nil_append, Nat.cast_zero, zero_div, Int.cast_add, Int.cast_natCast,
    Int.cast_one, Nat.cast_succ, Function.comp_def]
  rw [div_self hc]

theorem take_replicate_append (k : Nat) (x : ℚ) (l : List ℚ) :
    (List.replicate k x ++ l).take k = List.replicate k x := by
  rw [List.take_append_eq_append_take]
  simp

theorem drop_append_replicate (k : Nat) (x : ℚ) (l : List ℚ) :
    (l ++ List.replicate k x).drop ((l ++ List.replicate k x).length - k) = List.replicate k x := by
  rw [List.length_append, List.length_replicate, Nat.add_sub_cancel, List.drop_left]

/-- The scaled open layout for degree `e + 1` and divisor `c + 1`: `e + 1`
zeros, an interior, and `e + 1` copies of the parameter range. -/
theorem openLayout_scaled_split (e c : Nat) (r : ℚ) :
    (openLayout ((e : Int) + 1) ((c : Int) + 1)).map (fun k => k * r)
      = List.replicate (e + 1) (0 : ℚ)
        ++ (((List.range c).map (fun (i : Nat) => ((i : ℚ) + 1) / ((c : ℚ) + 1))).map
              (fun k => k * r)
        ++ List.replicate (e + 1) r) := by
  rw [openLayout_split]
  simp [List.map_replicate]

/-- C6 (open clamping): in an open CV-mode build with at least two points,
effective degree `d = min degree (n - 1)` at least 1 and a positive parameter
range `R`, the first `d` knots handed to the constructor are all 0 (in
particular the knot of index `d - 1` is 0), the last `d` knots are all `R`,
and `R` is the maximum knot. -/
theorem open_clamping {Obj : Type} (host : Host Obj) (db : MDataBlock) (out : Obj)
    (hcv : db.epCurve = false) (hn : 2 ≤ db.inputTransforms.length)
    (hper : db.periodic = false)
    (hd : 1 ≤ min db.degree ((db.inputTransforms.length : Int) - 1))
    (hR : 0 < db.parameterRange) :
    ∃ a : CreateArgs, requestedCurve (computeCurve host db out) = some a
      ∧ a.form = Form.kOpen
      ∧ a.degree = min db.degree ((db.inputTransforms.length : Int) - 1)
      ∧ a.knots.take a.degree.toNat = List.replicate a.degree.toNat (0 : ℚ)
      ∧ a.knots[a.degree.toNat - 1]? = some 0
      ∧ a.knots.drop (a.knots.length - a.degree.toNat)
          = List.replicate a.degree.toNat db.parameterRange
      ∧ (∀ k ∈ a.knots, k ≤ db.parameterRange)
      ∧ db.parameterRange ∈ a.knots := by
  refine ⟨_, computeCurve_cv_request host db out hcv hn, ?_⟩
  have hlen := inputPoints_length db
  generalize inputPoints db = cvs at hlen
  rw [← hlen] at hd ⊢
  rw [hper, cvCurveArgs_open]
  have hle : min db.degree ((cvs.length : Int) - 1) ≤ (cvs.length : Int) - 1 := min_le_right _ _
  generalize min db.degree ((cvs.length : Int) - 1) = d at hd hle
  obtain ⟨e, rfl⟩ : ∃ e : Nat, d = (e : Int) + 1 := ⟨(d - 1).toNat, by omega⟩
  obtain ⟨c, hc⟩ : ∃ c : Nat, (cvs.length : Int) - ((e : Int) + 1) = (c : Int) + 1 :=
    ⟨((cvs.length : Int) - ((e : Int) + 1) - 1).toNat, by omega⟩
  have he : ((e : Int) + 1).toNat = e + 1 := by omega
  simp only [hc, he, openLayout_scaled_split]
  refine ⟨trivial, trivial, take_replicate_append _ _ _, ?_, ?_, ?_, ?_⟩
  · rw [List.getElem?_append_left (by simp)]
    simp [List.getElem?_replicate]
  · rw [← List.append_assoc]
    exact drop_append_replicate _ _ _
  · intro k hk
    rcases List.mem_append.mp hk with h | h
    · rw [List.eq_of_mem_replicate h]; exact le_of_lt hR
    · rcases List.mem_append.mp h with h | h
      · obtain ⟨x, hx, rfl⟩ := List.mem_map.mp h
        obtain ⟨i, hi, rfl⟩ := List.mem_map.mp hx
        rw [List.mem_range] at hi
        have hc0 : (0 : ℚ) < (c : ℚ) + 1 := by positivity
        have hic : ((i : ℚ) + 1) / ((c : ℚ) + 1) ≤ 1 := by
          rw [div_le_one hc0]
          have : (i : ℚ) ≤ (c : ℚ) := by exact_mod_cast Nat.le_of_lt hi
          linarith
        calc ((i : ℚ) + 1) / ((c : ℚ) + 1) * db.parameterRange
            ≤ 1 * db.parameterRange := mul_le_mul_of_nonneg_right hic (le_of_lt hR)
          _ = db.parameterRange := one_mul _
      · rw [List.eq_of_mem_replicate h]
  · simp

/-- Witness of C6: scenario S1 on an accepting host. -/
theorem open_clamping_witness :
    scenarioS1.epCurve = false ∧ 2 ≤ scenarioS1.inputTransforms.length
    ∧ scenarioS1.periodic = false
    ∧ 1 ≤ min scenarioS1.degree ((scenarioS1.inputTransforms.length : Int) - 1)
    ∧ 0 < scenarioS1.parameterRange
    ∧ ∃ a : CreateArgs, requestedCurve (computeCurve acceptAll scenarioS1 ()) = some a
      ∧ a.knots.take a.degree.toNat = List.replicate a.degree.toNat (0 : ℚ)
      ∧ a.knots.drop (a.knots.length - a.degree.toNat)
          = List.replicate a.degree.toNat scenarioS1.parameterRange :=
  ⟨rfl, by decide, rfl, by decide, by decide,
    match open_clamping acceptAll scenarioS1 () rfl (by decide) rfl (by decide) (by decide) with
    | ⟨a, h, _, _, ht, _, hl, _⟩ => ⟨a, h, ht, hl⟩⟩

theorem scaled_periodicLayout_getElem? (d numKnots cnt : Int) (r : ℚ) (i : Nat) (x : ℚ)
    (hx : ((periodicLayout d numKnots cnt).map (fun k => k * r))[i]? = some x) :
    x = ((i : ℚ) - ((d : ℚ) - 1)) / (cnt : ℚ) * r := by
  have hi : i < ((periodicLayout d numKnots cnt).map (fun k => k * r)).length :=
    (List.getElem?_eq_some.mp hx).1
  rw [List.length_map, periodicLayout_length] at hi
  rw [List.getElem?_map, periodicLayout_getElem? d numKnots cnt i (by omega)] at hx
  simpa using hx.symm

/-- C7 (periodic spacing): in a periodic CV-mode build with at least two
points, effective degree `d = min degree (n - 1)` at least 1 and a positive
parameter range `R`, any two consecutive knots handed to the constructor differ
by exactly `R / cnt`, where `cnt = numKnots - 2 (d - 1) - 1` is the divisor of
the layout, equal to the number of points before the wrap. Stated over exact
rational arithmetic. -/
theorem periodic_spacing {Obj : Type} (host : Host Obj) (db : MDataBlock) (out : Obj)
    (hcv : db.epCurve = false) (hn : 2 ≤ db.inputTransforms.length)
    (hper : db.periodic = true)
    (hd : 1 ≤ min db.degree ((db.inputTransforms.length : Int) - 1))
    (_hR : 0 < db.parameterRange) :
    ∃ a : CreateArgs, requestedCurve (computeCurve host db out) = some a
      ∧ a.form = Form.kPeriodic
      ∧ specCnt (specNumKnots ((db.inputTransforms.length : Int) + a.degree) a.degree) a.degree
          = (db.inputTransforms.length : Int)
      ∧ ∀ (i : Nat) (x y : ℚ), a.knots[i]? = some x → a.knots[i + 1]? = some y →
          y - x = db.parameterRange
            / ((specCnt (specNumKnots ((db.inputTransforms.length : Int) + a.degree) a.degree)
                a.degree : Int) : ℚ) := by
  refine ⟨_, computeCurve_cv_request host db out hcv hn, ?_⟩
  have hlen := inputPoints_length db
  generalize inputPoints db = cvs at hlen
  rw [← hlen] at hd ⊢
  rw [hper, cvCurveArgs_periodic]
  have hle : min db.degree ((cvs.length : Int) - 1) ≤ (cvs.length : Int) - 1 := min_le_right _ _
  simp only [wrapped_length cvs _ hle]
  generalize min db.degree ((cvs.length : Int) - 1) = d at hd hle
  have hc : specCnt (specNumKnots ((cvs.length : Int) + d) d) d = (cvs.length : Int) := by
    unfold specCnt specNumKnots; ring
  have e2 : ((cvs.length + d.toNat : Nat) : Int) - d = (cvs.length : Int) := by
    push_cast; omega
  rw [hc, e2]
  refine ⟨trivial, rfl, ?_⟩
  intro i x y hx hy
  rw [scaled_periodicLayout_getElem? _ _ _ _ i x hx,
    scaled_periodicLayout_getElem? _ _ _ _ (i + 1) y hy]
  push_cast
  ring

/-- Witness of C7: scenario S2 on an accepting host. -/
theorem periodic_spacing_witness :
    scenarioS2.epCurve = false ∧ 2 ≤ scenarioS2.inputTransforms.length
    ∧ scenarioS2.periodic = true
    ∧ 1 ≤ min scenarioS2.degree ((scenarioS2.inputTransforms.length : Int) - 1)
    ∧ 0 < scenarioS2.parameterRange
    ∧ ∃ a : CreateArgs, requestedCurve (computeCurve acceptAll scenarioS2 ()) = some a
      ∧ ∀ (i : Nat) (x y : ℚ), a.knots[i]? = some x → a.knots[i + 1]? = some y →
          y - x = scenarioS2.parameterRange
            / ((specCnt (specNumKnots ((scenarioS2.inputTransforms.length : Int) + a.degree)
                a.degree) a.degree : Int) : ℚ) :=
  ⟨rfl, by decide, rfl, by decide, by decide,
    match periodic_spacing acceptAll scenarioS2 () rfl (by decide) rfl (by decide) (by decide) with
    | ⟨a, h, _, _, hk⟩ => ⟨a, h, hk⟩⟩

/-- C8 (periodic CV wrap): in CV mode with periodic set and at least two
points, with `d = min degree (n - 1)`, the test `n >= d + 1` holds and the
constructor is called with form Periodic, degree `d` and the original `n`
points followed by copies of the first `d` points in order: `n + d` CVs whose
first `n` entries are the original points. For the 5 points of scenario S2 and
degree 3 the list has 8 entries. -/
theorem periodic_cv_wrap {Obj : Type} (host : Host Obj) (db : MDataBlock) (out : Obj)
    (hcv : db.epCurve = false) (hn : 2 ≤ db.inputTransforms.length)
    (hper : db.periodic = true) :
    (∃ a : CreateArgs, requestedCurve (computeCurve host db out) = some a
      ∧ a.form = Form.kPeriodic
      ∧ a.degree = min db.degree ((db.inputTransforms.length : Int) - 1)
      ∧ (db.inputTransforms.length : Int) ≥ a.degree + 1
      ∧ a.cvs = inputPoints db ++ (inputPoints db).take a.degree.toNat
      ∧ (0 ≤ a.degree → (a.cvs.length : Int) = (db.inputTransforms.length : Int) + a.degree)
      ∧ a.cvs.take db.inputTransforms.length = inputPoints db)
    ∧ (∃ b : CreateArgs, requestedCurve (computeCurve acceptAll scenarioS2 ()) = some b
      ∧ b.cvs.length = 8) := by
  constructor
  · refine ⟨_, computeCurve_cv_request host db out hcv hn, ?_⟩
    have hlen := inputPoints_length db
    generalize inputPoints db = cvs at hlen
    rw [← hlen]
    rw [hper, cvCurveArgs_periodic]
    have hle : min db.degree ((cvs.length : Int) - 1) ≤ (cvs.length : Int) - 1 := min_le_right _ _
    refine ⟨rfl, rfl, ?_, rfl, ?_, ?_⟩
    · show (cvs.length : Int) ≥ min db.degree ((cvs.length : Int) - 1) + 1
      omega
    · intro h0
      show ((cvs ++ cvs.take (min db.degree ((cvs.length : Int) - 1)).toNat).length : Int)
        = (cvs.length : Int) + min db.degree ((cvs.length : Int) - 1)
      rw [wrapped_length cvs _ hle]
      have h0 : 0 ≤ min db.degree ((cvs.length : Int) - 1) := h0
      push_cast
      omega
    · exact List.take_left _ _
  · refine ⟨_, computeCurve_cv_request acceptAll scenarioS2 () rfl (by decide), ?_⟩
    rw [inputPoints_scenarioS2, show scenarioS2.periodic = true from rfl, cvCurveArgs_periodic]
    rfl

/-- Witness of C8: scenario S2 on a rejecting host. -/
theorem periodic_cv_wrap_witness :
    scenarioS2.epCurve = false ∧ 2 ≤ scenarioS2.inputTransforms.length
    ∧ scenarioS2.periodic = true
    ∧ ∃ a : CreateArgs, requestedCurve (computeCurve rejectAll scenarioS2 ()) = some a
      ∧ a.form = Form.kPeriodic
      ∧ a.cvs = inputPoints scenarioS2 ++ (inputPoints scenarioS2).take a.degree.toNat :=
  ⟨rfl, by decide, rfl,
    match (periodic_cv_wrap rejectAll scenarioS2 () rfl (by decide) rfl).1 with
    | ⟨a, h, hf, _, _, hc, _⟩ => ⟨a, h, hf, hc⟩⟩

/-- C9 (parameter range linearity): in CV mode with at least two points and a
requested degree of at least 1, for either periodic flag and every parameter
range `r`, the knots handed to the constructor are, element for element, the
knots of the same build with parameter range 1, each multiplied by `r`; the CV
list, the degree and the form do not depend on `r`. -/
theorem parameter_range_linearity {Obj : Type} (host : Host Obj) (db : MDataBlock) (out : Obj)
    (hcv : db.epCurve = false) (hn : 2 ≤ db.inputTransforms.length) (_hdeg : 1 ≤ db.degree) :
    ∃ a a1 : CreateArgs, requestedCurve (computeCurve host db out) = some a
      ∧ requestedCurve (computeCurve host (db.withParameterRange 1) out) = some a1
      ∧ a.knots = a1.knots.map (fun k => k * db.parameterRange)
      ∧ a.knots.length = a1.knots.length
      ∧ (∀ i : Nat, a.knots[i]? = (a1.knots[i]?).map (fun k => k * db.parameterRange))
      ∧ a.cvs = a1.cvs ∧ a.degree = a1.degree ∧ a.form = a1.form := by
  have hkey : ∀ r : ℚ, (cvCurveArgs (inputPoints db) db.degree db.periodic r)
      = ⟨(cvLayout (inputPoints db) db.degree db.periodic).cvs,
          (cvLayout (inputPoints db) db.degree db.periodic).knots.map (fun k => k * r),
          (cvLayout (inputPoints db) db.degree db.periodic).degree,
          if (cvLayout (inputPoints db) db.degree db.periodic).periodic then Form.kPeriodic
            else Form.kOpen, false, false⟩ := by
    intro r
    unfold cvCurveArgs
    simp [scaleKnots_eq_map]
  refine ⟨_, _, computeCurve_cv_request host db out hcv hn,
    computeCurve_cv_request host (db.withParameterRange 1) out hcv hn, ?_⟩
  have hpts : inputPoints (db.withParameterRange 1) = inputPoints db := rfl
  rw [hpts, show (db.withParameterRange 1).degree = db.degree from rfl,
    show (db.withParameterRange 1).periodic = db.periodic from rfl,
    show (db.withParameterRange 1).parameterRange = 1 from rfl, hkey, hkey]
  simp

/-- Witness of C9: scenario S2 with parameter range 2 on an accepting host. -/
theorem parameter_range_linearity_witness :
    scenarioS2Scaled.epCurve = false ∧ 2 ≤ scenarioS2Scaled.inputTransforms.length
    ∧ 1 ≤ scenarioS2Scaled.degree
    ∧ ∃ a a1 : CreateArgs, requestedCurve (computeCurve acceptAll scenarioS2Scaled ()) = some a
      ∧ requestedCurve (computeCurve acceptAll (scenarioS2Scaled.withParameterRange 1) ())
          = some a1
      ∧ a.knots = a1.knots.map (fun k => k * scenarioS2Scaled.parameterRange) :=
  ⟨rfl, by decide, by decide,
    match parameter_range_linearity acceptAll scenarioS2Scaled () rfl (by decide) (by decide) with
    | ⟨a, a1, h, h1, hk, _⟩ => ⟨a, a1, h, h1, hk⟩⟩

theorem createPlaceholderCurve_eq {Obj : Type} (host : Host Obj) (out : Obj) :
    createPlaceholderCurve host out
      = ⟨(MStatusHandler.fresh.instanceFinished "MFnNurbsCurve::create"
            (host.create placeholderArgs out).1).get,
          (host.create placeholderArgs out).2,
          [Event.create placeholderArgs]
            ++ ((MStatusHandler.fresh.instanceFinished "MFnNurbsCurve::create"
                  (host.create placeholderArgs out).1).perror).2⟩ := rfl

theorem perror_events_no_call (h : MStatusHandler) :
    createCalls h.perror.2 = [] ∧ attrReads h.perror.2 = []
      ∧ ∀ a : CreateEPArgs, Event.createWithEditPoints a ∉ h.perror.2 := by
  unfold MStatusHandler.perror
  split <;> simp [createCalls, attrReads]

theorem fresh_instanceFinished_code (name : String) (st : MStatus) :
    (MStatusHandler.fresh.instanceFinished name st).get.code = st.code := by
  unfold MStatusHandler.instanceFinished MStatusHandler.get
  by_cases h : st.code = 0
  · simp [h, MStatusHandler.fresh, MStatus.kSuccess]
  · simp [h, MStatusHandler.fresh, MStatus.kSuccess]

/-- C10 (placeholder totality): when the input yields 0 or 1 points,
`computeCurve` calls the constructor exactly once, for a degree-1, open,
non-rational, non-2D curve on two CVs at the origin with knots `[0, 1]`; it
never calls the edit-point constructor and reads no configuration attribute,
so the whole run is the same for every value of `epCurve`, `degree`, `periodic`
and `parameterRange`; and the returned status is success whenever that
construction succeeds. -/
theorem placeholder_totality {Obj : Type} (host : Host Obj) (db : MDataBlock) (out : Obj)
    (hn : db.inputTransforms.length < 2) :
    createCalls (computeCurve host db out).events
        = [⟨[MPoint.origin, MPoint.origin], [0, 1], 1, Form.kOpen, false, false⟩]
      ∧ (∀ a : CreateEPArgs, Event.createWithEditPoints a ∉ (computeCurve host db out).events)
      ∧ attrReads (computeCurve host db out).events = []
      ∧ (∀ (degree : Int) (periodic epCurve : Bool) (parameterRange : ℚ),
          computeCurve host ⟨db.inputTransforms, degree, periodic, epCurve, parameterRange⟩ out
            = computeCurve host db out)
      ∧ ((host.create ⟨[MPoint.origin, MPoint.origin], [0, 1], 1, Form.kOpen, false, false⟩
            out).1.code = 0 →
          (computeCurve host db out).status = MStatus.kSuccess)
      ∧ (computeCurve host db out).status.code
          = (host.create ⟨[MPoint.origin, MPoint.origin], [0, 1], 1, Form.kOpen, false, false⟩
              out).1.code := by
  have hev := perror_events_no_call
    (MStatusHandler.fresh.instanceFinished "MFnNurbsCurve::create"
      (host.create placeholderArgs out).1)
  refine ⟨?_, ?_, ?_, ?_, ?_, ?_⟩
  · rw [computeCurve_placeholder host db out hn, createPlaceholderCurve_eq]
    have h1 : createCalls ([Event.inputArrayValue] ++ ([Event.create placeholderArgs]
        ++ ((MStatusHandler.fresh.instanceFinished "MFnNurbsCurve::create"
              (host.create placeholderArgs out).1).perror).2))
        = [placeholderArgs] ++ createCalls
            ((MStatusHandler.fresh.instanceFinished "MFnNurbsCurve::create"
              (host.create placeholderArgs out).1).perror).2 := by
      simp [createCalls]
    show createCalls ([Event.inputArrayValue] ++ ([Event.create placeholderArgs]
        ++ ((MStatusHandler.fresh.instanceFinished "MFnNurbsCurve::create"
              (host.create placeholderArgs out).1).perror).2)) = [placeholderArgs]
    rw [h1, hev.1]
    rfl
  · intro a
    rw [computeCurve_placeholder host db out hn, createPlaceholderCurve_eq]
    show Event.createWithEditPoints a ∉ [Event.inputArrayValue] ++ ([Event.create placeholderArgs]
        ++ ((MStatusHandler.fresh.instanceFinished "MFnNurbsCurve::create"
              (host.create placeholderArgs out).1).perror).2)
    have := hev.2.2 a
    simp [this]
  · rw [computeCurve_placeholder host db out hn, createPlaceholderCurve_eq]
    have h1 : attrReads ([Event.inputArrayValue] ++ ([Event.create placeholderArgs]
        ++ ((MStatusHandler.fresh.instanceFinished "MFnNurbsCurve::create"
              (host.create placeholderArgs out).1).perror).2))
        = attrReads
            ((MStatusHandler.fresh.instanceFinished "MFnNurbsCurve::create"
              (host.create placeholderArgs out).1).perror).2 := by
      simp [attrReads]
    show attrReads ([Event.inputArrayValue] ++ ([Event.create placeholderArgs]
        ++ ((MStatusHandler.fresh.instanceFinished "MFnNurbsCurve::create"
              (host.create placeholderArgs out).1).perror).2)) = []
    rw [h1, hev.2.1]
  · intro degree periodic epCurve parameterRange
    rw [computeCurve_placeholder host db out hn,
      computeCurve_placeholder host ⟨db.inputTransforms, degree, periodic, epCurve,
        parameterRange⟩ out hn]
  · intro hacc
    rw [computeCurve_placeholder host db out hn, createPlaceholderCurve_eq]
    show (MStatusHandler.fresh.instanceFinished "MFnNurbsCurve::create"
      (host.create placeholderArgs out).1).get = MStatus.kSuccess
    have hacc2 : (host.create placeholderArgs out).1.code = 0 := hacc
    rw [instanceFinished_ok _ _ _ hacc2]
    rfl
  · rw [computeCurve_placeholder host db out hn, createPlaceholderCurve_eq]
    exact fresh_instanceFinished_code _ _

/-- Witness of C10: scenario S5 (no input point) on an accepting host. -/
theorem placeholder_totality_witness :
    scenarioS5.inputTransforms.length < 2
    ∧ createCalls (computeCurve acceptAll scenarioS5 ()).events
        = [⟨[MPoint.origin, MPoint.origin], [0, 1], 1, Form.kOpen, false, false⟩]
    ∧ (computeCurve acceptAll scenarioS5 ()).status = MStatus.kSuccess :=
  ⟨by decide, (placeholder_totality acceptAll scenarioS5 () (by decide)).1,
    (placeholder_totality acceptAll scenarioS5 () (by decide)).2.2.2.2.1 rfl⟩

/-! ## Status handler facts -/

theorem instanceFinished_status_code_ne (h : MStatusHandler) (name : String) (st : MStatus)
    (hs : st.code ≠ 0) : (h.instanceFinished name st).status.code ≠ 0 := by
  unfold MStatusHandler.instanceFinished
  by_cases h0 : h.status.code = 0
  · simp [h0, hs]
  · simp [h0]

theorem instanceFinished_status_code_keep (h : MStatusHandler) (name : String) (st : MStatus)
    (hs : h.status.code ≠ 0) : h.instanceFinished name st = h := by
  simp [MStatusHandler.instanceFinished, hs]

theorem instanceFinished_code_zero (h : MStatusHandler) (name : String) (st : MStatus)
    (hz : (h.instanceFinished name st).status.code = 0) : h.status.code = 0 ∧ st.code = 0 := by
  by_cases h0 : h.status.code = 0
  · refine ⟨h0, ?_⟩
    by_contra hs
    exact instanceFinished_status_code_ne h name st hs hz
  · rw [instanceFinished_status_code_keep h name st h0] at hz
    exact absurd hz h0

theorem perror_of_code_zero (h : MStatusHandler) (hz : h.status.code = 0) :
    h.perror = (false, []) := by
  simp [MStatusHandler.perror, MStatus.isSuccess, hz]

theorem perror_of_code_ne (h : MStatusHandler) (hz : h.status.code ≠ 0) :
    h.perror = (true, [Event.logError h.getError]) := by
  simp [MStatusHandler.perror, MStatus.isSuccess, hz]

theorem extractPoints_fold_fst_keep (elems : List ArrayElement) (status : MStatusHandler)
    (acc : List MPoint) (hs : status.status.code ≠ 0) :
    (elems.foldl
      (fun (acc : MStatusHandler × List MPoint) e =>
        let status := acc.1.instanceFinished "inputTransformsHandle.jumpToElement" e.jumpStatus
        let status := status.instanceFinished "inputTransformsHandle.inputValue" e.valueStatus
        let mat := e.matrix
        (status, acc.2 ++ [MPoint.mk3 (mat 3 0) (mat 3 1) (mat 3 2)]))
      (status, acc)).1 = status := by
  induction elems generalizing acc with
  | nil => rfl
  | cons e es ih =>
    rw [List.foldl_cons]
    simp only [instanceFinished_status_code_keep _ _ _ hs]
    exact ih _

theorem extractPoints_fold_fst_fail (elems : List ArrayElement) (status : MStatusHandler)
    (acc : List MPoint)
    (hfail : ∃ e ∈ elems, e.jumpStatus.code ≠ 0 ∨ e.valueStatus.code ≠ 0) :
    (elems.foldl
      (fun (acc : MStatusHandler × List MPoint) e =>
        let status := acc.1.instanceFinished "inputTransformsHandle.jumpToElement" e.jumpStatus
        let status := status.instanceFinished "inputTransformsHandle.inputValue" e.valueStatus
        let mat := e.matrix
        (status, acc.2 ++ [MPoint.mk3 (mat 3 0) (mat 3 1) (mat 3 2)]))
      (status, acc)).1.status.code ≠ 0 := by
  induction elems generalizing status acc with
  | nil =>
    obtain ⟨e, he, _⟩ := hfail
    simp at he
  | cons e es ih =>
    rw [List.foldl_cons]
    by_cases hk : ((status.instanceFinished "inputTransformsHandle.jumpToElement"
        e.jumpStatus).instanceFinished "inputTransformsHandle.inputValue"
        e.valueStatus).status.code = 0
    · have h1 := instanceFinished_code_zero _ _ _ hk
      have h2 := instanceFinished_code_zero _ _ _ h1.1
      obtain ⟨e', he', hbad⟩ := hfail
      rcases List.mem_cons.mp he' with rfl | hin
      · rcases hbad with hb | hb
        · exact absurd h2.2 hb
        · exact absurd h1.2 hb
      · exact ih _ _ ⟨e', hin, hbad⟩
    · rw [extractPoints_fold_fst_keep es _ _ hk]
      exact hk

theorem extractPoints_fst_fail (elems : List ArrayElement)
    (hfail : ∃ e ∈ elems, e.jumpStatus.code ≠ 0 ∨ e.valueStatus.code ≠ 0) :
    (extractPoints elems MStatusHandler.fresh).1.status.code ≠ 0 :=
  extractPoints_fold_fst_fail elems MStatusHandler.fresh [] hfail

/-! ## The three paths of `computeCurve` -/

/-- The CV-mode path of `computeCurve`, with at least two points. -/
theorem computeCurve_cv_eq {Obj : Type} (host : Host Obj) (db : MDataBlock) (out : Obj)
    (hcv : db.epCurve = false) (hn : 2 ≤ db.inputTransforms.length) :
    computeCurve host db out
      = if (((extractPoints db.inputTransforms MStatusHandler.fresh).1.instanceFinished
            "MFnNurbsCurve::create"
            (host.create (cvCurveArgs (inputPoints db) db.degree db.periodic db.parameterRange)
              out).1).perror).1 then
          ⟨(createPlaceholderCurve host
              (host.create (cvCurveArgs (inputPoints db) db.degree db.periodic db.parameterRange)
                out).2).status,
            (createPlaceholderCurve host
              (host.create (cvCurveArgs (inputPoints db) db.degree db.periodic db.parameterRange)
                out).2).outputCurve,
            [Event.inputArrayValue, Event.inputValue Attr.degree, Event.inputValue Attr.periodic,
              Event.inputValue Attr.epCurve, Event.inputValue Attr.parameterRange,
              Event.create (cvCurveArgs (inputPoints db) db.degree db.periodic db.parameterRange)]
            ++ (((extractPoints db.inputTransforms MStatusHandler.fresh).1.instanceFinished
                "MFnNurbsCurve::create"
                (host.create
                  (cvCurveArgs (inputPoints db) db.degree db.periodic db.parameterRange)
                  out).1).perror).2
            ++ (createPlaceholderCurve host
              (host.create (cvCurveArgs (inputPoints db) db.degree db.periodic db.parameterRange)
                out).2).events⟩
        else
          ⟨((extractPoints db.inputTransforms MStatusHandler.fresh).1.instanceFinished
              "MFnNurbsCurve::create"
              (host.create (cvCurveArgs (inputPoints db) db.degree db.periodic db.parameterRange)
                out).1).get,
            (host.create (cvCurveArgs (inputPoints db) db.degree db.periodic db.parameterRange)
              out).2,
            [Event.inputArrayValue, Event.inputValue Attr.degree, Event.inputValue Attr.periodic,
              Event.inputValue Attr.epCurve, Event.inputValue Attr.parameterRange,
              Event.create (cvCurveArgs (inputPoints db) db.degree db.periodic db.parameterRange)]
            ++ (((extractPoints db.inputTransforms MStatusHandler.fresh).1.instanceFinished
                "MFnNurbsCurve::create"
                (host.create
                  (cvCurveArgs (inputPoints db) db.degree db.periodic db.parameterRange)
                  out).1).perror).2⟩ := by
  have hlen : ¬ (extractPoints db.inputTransforms MStatusHandler.fresh).2.length < 2 := by
    have := inputPoints_length db
    unfold inputPoints at this
    omega
  unfold computeCurve inputPoints
  simp only [fresh_perror, Bool.false_eq_true, if_false, hlen, hcv, List.nil_append]
  split <;> simp

/-- The EP-mode path of `computeCurve`, with at least two points. -/
theorem computeCurve_ep_eq {Obj : Type} (host : Host Obj) (db : MDataBlock) (out : Obj)
    (hep : db.epCurve = true) (hn : 2 ≤ db.inputTransforms.length) :
    computeCurve host db out
      = ⟨((extractPoints db.inputTransforms MStatusHandler.fresh).1.instanceFinished
            "MFnNurbsCurve::createWithEditPoints"
            (host.createWithEditPoints
              ⟨if db.periodic then inputPoints db ++ [(inputPoints db).getD 0 MPoint.origin]
                else inputPoints db,
               min db.degree 10, if db.periodic then Form.kPeriodic else Form.kOpen,
               false, false, true⟩ out).1).get,
          (host.createWithEditPoints
              ⟨if db.periodic then inputPoints db ++ [(inputPoints db).getD 0 MPoint.origin]
                else inputPoints db,
               min db.degree 10, if db.periodic then Form.kPeriodic else Form.kOpen,
               false, false, true⟩ out).2,
          [Event.inputArrayValue, Event.inputValue Attr.degree, Event.inputValue Attr.periodic,
            Event.inputValue Attr.epCurve,
            Event.createWithEditPoints
              ⟨if db.periodic then inputPoints db ++ [(inputPoints db).getD 0 MPoint.origin]
                else inputPoints db,
               min db.degree 10, if db.periodic then Form.kPeriodic else Form.kOpen,
               false, false, true⟩]
          ++ (((extractPoints db.inputTransforms MStatusHandler.fresh).1.instanceFinished
            "MFnNurbsCurve::createWithEditPoints"
            (host.createWithEditPoints
              ⟨if db.periodic then inputPoints db ++ [(inputPoints db).getD 0 MPoint.origin]
                else inputPoints db,
               min db.degree 10, if db.periodic then Form.kPeriodic else Form.kOpen,
               false, false, true⟩ out).1).perror).2⟩ := by
  have hlen : ¬ (extractPoints db.inputTransforms MStatusHandler.fresh).2.length < 2 := by
    have := inputPoints_length db
    unfold inputPoints at this
    omega
  have hge : (extractPoints db.inputTransforms MStatusHandler.fresh).2.length ≥ 1 := by omega
  unfold computeCurve inputPoints
  simp only [fresh_perror, Bool.false_eq_true, if_false, hlen, hep, List.nil_append, if_true]
  cases hp : db.periodic <;> simp [hge]

/-! ## Facts about `compute` -/

theorem createCalls_append (xs ys : List Event) :
    createCalls (xs ++ ys) = createCalls xs ++ createCalls ys := by
  simp [createCalls, List.filterMap_append]

theorem createCalls_perror (h : MStatusHandler) : createCalls h.perror.2 = [] :=
  (perror_events_no_call h).1

theorem createPlaceholderCurve_createCalls {Obj : Type} (host : Host Obj) (out : Obj) :
    createCalls (createPlaceholderCurve host out).events = [placeholderArgs] := by
  rw [createPlaceholderCurve_events, createCalls_append, createCalls_perror]
  simp [createCalls]

theorem createPlaceholderCurve_status_code {Obj : Type} (host : Host Obj) (out : Obj) :
    (createPlaceholderCurve host out).status.code = (host.create placeholderArgs out).1.code := by
  rw [createPlaceholderCurve_eq]
  exact fresh_instanceFinished_code _ _

theorem createPlaceholderCurve_outputCurve {Obj : Type} (host : Host Obj) (out : Obj) :
    (createPlaceholderCurve host out).outputCurve = (host.create placeholderArgs out).2 := rfl

/-- The two ways `compute` ends, by the status of its handler after
`computeCurve`. -/
theorem compute_eq {Obj : Type} (host : Host Obj) (handle : OutputHandle Obj) (db : MDataBlock) :
    compute host handle db
      = if (((MStatusHandler.fresh.instanceFinished "dataBlock.outputValue"
              handle.outputValueStatus).instanceFinished "computeCurve"
              (computeCurve host db handle.object).status).perror).1 then
          ⟨((MStatusHandler.fresh.instanceFinished "dataBlock.outputValue"
              handle.outputValueStatus).instanceFinished "computeCurve"
              (computeCurve host db handle.object).status).get, none, false,
            (computeCurve host db handle.object).events
              ++ (((MStatusHandler.fresh.instanceFinished "dataBlock.outputValue"
                handle.outputValueStatus).instanceFinished "computeCurve"
                (computeCurve host db handle.object).status).perror).2⟩
        else
          ⟨(((MStatusHandler.fresh.instanceFinished "dataBlock.outputValue"
              handle.outputValueStatus).instanceFinished "computeCurve"
              (computeCurve host db handle.object).status).instanceFinished
              "outputCurveHandle.set" handle.setStatus).get,
            some (computeCurve host db handle.object).outputCurve, true,
            (computeCurve host db handle.object).events
              ++ (((MStatusHandler.fresh.instanceFinished "dataBlock.outputValue"
                handle.outputValueStatus).instanceFinished "computeCurve"
                (computeCurve host db handle.object).status).perror).2
              ++ ((((MStatusHandler.fresh.instanceFinished "dataBlock.outputValue"
                handle.outputValueStatus).instanceFinished "computeCurve"
                (computeCurve host db handle.object).status).instanceFinished
                "outputCurveHandle.set" handle.setStatus).perror).2⟩ := rfl

theorem compute_createCalls {Obj : Type} (host : Host Obj) (handle : OutputHandle Obj)
    (db : MDataBlock) :
    createCalls (compute host handle db).events
      = createCalls (computeCurve host db handle.object).events := by
  rw [compute_eq]
  split <;> simp [createCalls_append, createCalls_perror]

/-- When `computeCurve` fails, `compute` returns a failure without calling
`outputCurveHandle.set`. -/
theorem compute_of_computeCurve_failure {Obj : Type} (host : Host Obj)
    (handle : OutputHandle Obj) (db : MDataBlock)
    (hfail : (computeCurve host db handle.object).status.code ≠ 0) :
    (compute host handle db).status.code ≠ 0 ∧ (compute host handle db).setCall = none
      ∧ (compute host handle db).setClean = false := by
  have hne := instanceFinished_status_code_ne
    (MStatusHandler.fresh.instanceFinished "dataBlock.outputValue" handle.outputValueStatus)
    "computeCurve" _ hfail
  rw [compute_eq, perror_of_code_ne _ hne]
  exact ⟨hne, rfl, rfl⟩

/-- When `compute` returns success, `computeCurve` succeeded and its object was
passed to `outputCurveHandle.set`. -/
theorem compute_success {Obj : Type} (host : Host Obj) (handle : OutputHandle Obj)
    (db : MDataBlock) (hok : (compute host handle db).status.code = 0) :
    (compute host handle db).setCall = some (computeCurve host db handle.object).outputCurve
      ∧ (compute host handle db).setClean = true
      ∧ (computeCurve host db handle.object).status.code = 0
      ∧ handle.outputValueStatus.code = 0 ∧ handle.setStatus.code = 0 := by
  rw [compute_eq] at hok ⊢
  by_cases hz : ((MStatusHandler.fresh.instanceFinished "dataBlock.outputValue"
      handle.outputValueStatus).instanceFinished "computeCurve"
      (computeCurve host db handle.object).status).status.code = 0
  · rw [perror_of_code_zero _ hz] at hok ⊢
    simp only [Bool.false_eq_true, if_false] at hok ⊢
    have h3 := instanceFinished_code_zero _ _ _ hok
    have h1 := instanceFinished_code_zero _ _ _ hz
    have h0 := instanceFinished_code_zero _ _ _ h1.1
    exact ⟨trivial, trivial, h1.2, h0.2, h3.2⟩
  · rw [perror_of_code_ne _ hz] at hok
    exact absurd hok hz

/-- When `computeCurve` returns success, its object is the one a successful
constructor call wrote. -/
theorem computeCurve_success_object {Obj : Type} (host : Host Obj) (db : MDataBlock) (out : Obj)
    (hok : (computeCurve host db out).status.code = 0) :
    (∃ (a : CreateArgs) (o : Obj), Event.create a ∈ (computeCurve host db out).events
        ∧ (host.create a o).1.code = 0
        ∧ (computeCurve host db out).outputCurve = (host.create a o).2)
    ∨ (∃ (a : CreateEPArgs) (o : Obj),
        Event.createWithEditPoints a ∈ (computeCurve host db out).events
        ∧ (host.createWithEditPoints a o).1.code = 0
        ∧ (computeCurve host db out).outputCurve = (host.createWithEditPoints a o).2) := by
  by_cases hn : db.inputTransforms.length < 2
  · left
    rw [computeCurve_placeholder host db out hn] at hok ⊢
    refine ⟨placeholderArgs, out, ?_, ?_, rfl⟩
    · rw [createPlaceholderCurve_events]; simp
    · rw [← createPlaceholderCurve_status_code]; exact hok
  · have hn2 : 2 ≤ db.inputTransforms.length := by omega
    cases hep : db.epCurve with
    | true =>
      right
      rw [computeCurve_ep_eq host db out hep hn2] at hok ⊢
      exact ⟨_, out, by simp, (instanceFinished_code_zero _ _ _ hok).2, rfl⟩
    | false =>
      left
      rw [computeCurve_cv_eq host db out hep hn2] at hok ⊢
      split at hok
      · next hp =>
        rw [if_pos hp]
        refine ⟨placeholderArgs, _, ?_, ?_, rfl⟩
        · show Event.create placeholderArgs ∈ _ ++ _ ++ _
          rw [createPlaceholderCurve_events]; simp
        · rw [← createPlaceholderCurve_status_code]; exact hok
      · next hp =>
        rw [if_neg hp]
        exact ⟨_, out, by simp, (instanceFinished_code_zero _ _ _ hok).2, rfl⟩

theorem computeCurve_cv_createCalls_fallback {Obj : Type} (host : Host Obj) (db : MDataBlock)
    (out : Obj) (hcv : db.epCurve = false) (hn : 2 ≤ db.inputTransforms.length)
    (hne : ((extractPoints db.inputTransforms MStatusHandler.fresh).1.instanceFinished
      "MFnNurbsCurve::create"
      (host.create (cvCurveArgs (inputPoints db) db.degree db.periodic db.parameterRange)
        out).1).status.code ≠ 0) :
    createCalls (computeCurve host db out).events
        = [cvCurveArgs (inputPoints db) db.degree db.periodic db.parameterRange, placeholderArgs]
      ∧ (computeCurve host db out).status
        = (createPlaceholderCurve host
            (host.create (cvCurveArgs (inputPoints db) db.degree db.periodic db.parameterRange)
              out).2).status
      ∧ (computeCurve host db out).outputCurve
        = (createPlaceholderCurve host
            (host.create (cvCurveArgs (inputPoints db) db.degree db.periodic db.parameterRange)
              out).2).outputCurve
      ∧ loggedErrors (computeCurve host db out).events ≠ [] := by
  rw [computeCurve_cv_eq host db out hcv hn, perror_of_code_ne _ hne]
  simp only [if_true]
  refine ⟨?_, trivial, trivial, ?_⟩
  · rw [createCalls_append, createPlaceholderCurve_createCalls]
    simp [createCalls]
  · simp [loggedErrors]

/-- When the host rejects the placeholder, `createPlaceholderCurve` returns the
status of that call. -/
theorem createPlaceholderCurve_status_of_failure {Obj : Type} (host : Host Obj) (out : Obj)
    (hfail : (host.create placeholderArgs out).1.code ≠ 0) :
    (createPlaceholderCurve host out).status = (host.create placeholderArgs out).1 := by
  rw [createPlaceholderCurve_eq]
  simp [MStatusHandler.instanceFinished, MStatusHandler.fresh, MStatus.kSuccess,
    MStatusHandler.get, hfail]

/-- In CV mode and for fewer than two points, a failing `computeCurve` is one
whose last constructor call was the placeholder, and that call failed: the call
made on the object handed in when there are fewer than two points, and on the
object left by the requested construction otherwise. `computeCurve` returns the
status of that call. -/
theorem computeCurve_failure_is_placeholder {Obj : Type} (host : Host Obj) (db : MDataBlock)
    (out : Obj) (hmode : db.epCurve = false ∨ db.inputTransforms.length < 2)
    (hfail : (computeCurve host db out).status.code ≠ 0) :
    (createCalls (computeCurve host db out).events).getLast? = some placeholderArgs
      ∧ (host.create placeholderArgs
          (if db.inputTransforms.length < 2 then out
            else (host.create
              (cvCurveArgs (inputPoints db) db.degree db.periodic db.parameterRange)
              out).2)).1.code ≠ 0
      ∧ (computeCurve host db out).status
          = (host.create placeholderArgs
              (if db.inputTransforms.length < 2 then out
                else (host.create
                  (cvCurveArgs (inputPoints db) db.degree db.periodic db.parameterRange)
                  out).2)).1 := by
  by_cases hn : db.inputTransforms.length < 2
  · rw [if_pos hn]
    rw [computeCurve_placeholder host db out hn] at hfail ⊢
    have hfail2 : (host.create placeholderArgs out).1.code ≠ 0 := by
      rw [← createPlaceholderCurve_status_code]; exact hfail
    refine ⟨?_, hfail2, createPlaceholderCurve_status_of_failure host out hfail2⟩
    rw [createCalls_append, createPlaceholderCurve_createCalls]
    simp [createCalls]
  · rw [if_neg hn]
    have hn2 : 2 ≤ db.inputTransforms.length := by omega
    have hcv : db.epCurve = false := by
      rcases hmode with h | h
      · exact h
      · exact absurd h hn
    by_cases hz : ((extractPoints db.inputTransforms MStatusHandler.fresh).1.instanceFinished
        "MFnNurbsCurve::create"
        (host.create (cvCurveArgs (inputPoints db) db.degree db.periodic db.parameterRange)
          out).1).status.code = 0
    · rw [computeCurve_cv_eq host db out hcv hn2, perror_of_code_zero _ hz] at hfail
      exact absurd hz hfail
    · have hfb := computeCurve_cv_createCalls_fallback host db out hcv hn2 hz
      rw [hfb.2.1, createPlaceholderCurve_status_code] at hfail
      rw [hfb.1, hfb.2.1]
      exact ⟨rfl, hfail, createPlaceholderCurve_status_of_failure host _ hfail⟩

/-- Counterexample of C11: on an empty slot with no input point, when the host
rejects the placeholder, `compute` returns a failure and nothing has been set
on the output handle. -/
theorem output_slot_left_empty :
    emptySlot.current = none
      ∧ (compute rejectAll emptySlot scenarioS5).status.code ≠ 0
      ∧ (compute rejectAll emptySlot scenarioS5).setCall = none
      ∧ createCalls (compute rejectAll emptySlot scenarioS5).events = [placeholderArgs] := by
  refine ⟨rfl, ?_, ?_, ?_⟩
  · decide
  · rfl
  · rfl

/-- C11, amended (output slot): whenever `compute(outputCurve)` returns
success, `outputCurveHandle.set` has been called with the curve object, and
that object was written by a constructor call that succeeded (the requested
curve or the placeholder). In CV mode and for fewer than two points, a failed
array read or a failed construction is answered by constructing the
placeholder, which is then the last constructor call; and if `compute` fails
although acquiring and setting the handle succeed, it is the placeholder
construction of this run that failed (the call made on the object handed to
`computeCurve` when there are fewer than two points, and on the object left by
the requested construction otherwise), `compute` returns the status of that
call, which is the status `computeCurve` returned, and nothing is set on the
handle. -/
theorem output_slot_set_on_success {Obj : Type} (host : Host Obj) (handle : OutputHandle Obj)
    (db : MDataBlock) :
    ((compute host handle db).status.code = 0 →
        (compute host handle db).setCall
            = some (computeCurve host db handle.object).outputCurve
        ∧ ((∃ (a : CreateArgs) (o : Obj), Event.create a ∈ (compute host handle db).events
              ∧ (host.create a o).1.code = 0
              ∧ (computeCurve host db handle.object).outputCurve = (host.create a o).2)
          ∨ (∃ (a : CreateEPArgs) (o : Obj),
              Event.createWithEditPoints a ∈ (compute host handle db).events
              ∧ (host.createWithEditPoints a o).1.code = 0
              ∧ (computeCurve host db handle.object).outputCurve
                  = (host.createWithEditPoints a o).2)))
    ∧ ((db.epCurve = false ∨ db.inputTransforms.length < 2) →
        ((∃ e ∈ db.inputTransforms, e.jumpStatus.code ≠ 0 ∨ e.valueStatus.code ≠ 0)
          ∨ (host.create (cvCurveArgs (inputPoints db) db.degree db.periodic db.parameterRange)
              handle.object).1.code ≠ 0
          ∨ db.inputTransforms.length < 2) →
        (createCalls (compute host handle db).events).getLast? = some placeholderArgs)
    ∧ ((db.epCurve = false ∨ db.inputTransforms.length < 2) →
        (compute host handle db).status.code ≠ 0 →
        handle.outputValueStatus.code = 0 → handle.setStatus.code = 0 →
        (compute host handle db).setCall = none
        ∧ (createCalls (compute host handle db).events).getLast? = some placeholderArgs
        ∧ (host.create placeholderArgs
            (if db.inputTransforms.length < 2 then handle.object
              else (host.create
                (cvCurveArgs (inputPoints db) db.degree db.periodic db.parameterRange)
                handle.object).2)).1.code ≠ 0
        ∧ (compute host handle db).status
            = (host.create placeholderArgs
                (if db.inputTransforms.length < 2 then handle.object
                  else (host.create
                    (cvCurveArgs (inputPoints db) db.degree db.periodic db.parameterRange)
                    handle.object).2)).1
        ∧ (compute host handle db).status = (computeCurve host db handle.object).status
        ∧ (compute host handle db).setClean = false) := by
  refine ⟨?_, ?_, ?_⟩
  · intro hok
    have hs := compute_success host handle db hok
    refine ⟨hs.1, ?_⟩
    have hev : ∀ e : Event, e ∈ (computeCurve host db handle.object).events →
        e ∈ (compute host handle db).events := by
      intro e he
      rw [compute_eq]
      split <;> simp [he]
    rcases computeCurve_success_object host db handle.object hs.2.2.1 with
      ⟨a, o, hmem, hc, ho⟩ | ⟨a, o, hmem, hc, ho⟩
    · exact Or.inl ⟨a, o, hev _ hmem, hc, ho⟩
    · exact Or.inr ⟨a, o, hev _ hmem, hc, ho⟩
  · intro hmode hfail
    rw [compute_createCalls]
    by_cases hn : db.inputTransforms.length < 2
    · rw [computeCurve_placeholder host db handle.object hn, createCalls_append,
        createPlaceholderCurve_createCalls]
      simp [createCalls]
    · have hn2 : 2 ≤ db.inputTransforms.length := by omega
      have hcv : db.epCurve = false := by
        rcases hmode with h | h
        · exact h
        · exact absurd h hn
      have hne : ((extractPoints db.inputTransforms MStatusHandler.fresh).1.instanceFinished
          "MFnNurbsCurve::create"
          (host.create (cvCurveArgs (inputPoints db) db.degree db.periodic db.parameterRange)
            handle.object).1).status.code ≠ 0 := by
        rcases hfail with hr | hc | hlt
        · rw [instanceFinished_status_code_keep _ _ _ (extractPoints_fst_fail _ hr)]
          exact extractPoints_fst_fail _ hr
        · exact instanceFinished_status_code_ne _ _ _ hc
        · exact absurd hlt hn
      rw [(computeCurve_cv_createCalls_fallback host db handle.object hcv hn2 hne).1]
      rfl
  · intro hmode hfail hov hset
    have hcc : (computeCurve host db handle.object).status.code ≠ 0 := by
      intro hz
      apply hfail
      rw [compute_eq]
      have h1 : ((MStatusHandler.fresh.instanceFinished "dataBlock.outputValue"
          handle.outputValueStatus).instanceFinished "computeCurve"
          (computeCurve host db handle.object).status) = MStatusHandler.fresh := by
        rw [instanceFinished_ok _ _ _ hov, instanceFinished_ok _ _ _ hz]
      rw [h1, instanceFinished_ok _ _ _ hset]
      rfl
    have hp := computeCurve_failure_is_placeholder host db handle.object hmode hcc
    have hst : (compute host handle db).status
        = (computeCurve host db handle.object).status := by
      have hne := instanceFinished_status_code_ne
        (MStatusHandler.fresh.instanceFinished "dataBlock.outputValue"
          handle.outputValueStatus)
        "computeCurve" _ hcc
      rw [compute_eq, perror_of_code_ne _ hne, instanceFinished_ok _ _ _ hov]
      simp [MStatusHandler.instanceFinished, MStatusHandler.fresh, MStatus.kSuccess,
        MStatusHandler.get, hcc]
    refine ⟨(compute_of_computeCurve_failure host handle db hcc).2.1, ?_, hp.2.1, ?_, hst,
      (compute_of_computeCurve_failure host handle db hcc).2.2⟩
    · rw [compute_createCalls]
      exact hp.1
    · rw [hst]
      exact hp.2.2

/-- Witness of C11: scenario S5 on an empty slot, with an accepting host (the
object is set) and with a host that rejects every construction (`compute`
returns the status of the rejected placeholder call). -/
theorem output_slot_set_on_success_witness :
    (compute acceptAll emptySlot scenarioS5).status.code = 0
      ∧ (compute acceptAll emptySlot scenarioS5).setCall
          = some (computeCurve acceptAll scenarioS5 emptySlot.object).outputCurve
      ∧ (scenarioS5.epCurve = false ∨ scenarioS5.inputTransforms.length < 2)
      ∧ (compute rejectAll emptySlot scenarioS5).status.code ≠ 0
      ∧ emptySlot.outputValueStatus.code = 0 ∧ emptySlot.setStatus.code = 0
      ∧ (compute rejectAll emptySlot scenarioS5).status
          = (rejectAll.create placeholderArgs
              (if scenarioS5.inputTransforms.length < 2 then emptySlot.object
                else (rejectAll.create
                  (cvCurveArgs (inputPoints scenarioS5) scenarioS5.degree scenarioS5.periodic
                    scenarioS5.parameterRange)
                  emptySlot.object).2)).1
      ∧ (compute rejectAll emptySlot scenarioS5).status = hostFailure :=
  ⟨by decide,
    ((output_slot_set_on_success acceptAll emptySlot scenarioS5).1 (by decide)).1,
    Or.inr (by decide), by decide, rfl, rfl,
    ((output_slot_set_on_success rejectAll emptySlot scenarioS5).2.2 (Or.inr (by decide))
      (by decide) rfl rfl).2.2.2.1,
    by decide⟩

/-- C12 (evaluation at the failing input): scenario S4 in EP mode on a host
that rejects the edit-point construction. The error is logged, but no
placeholder is requested, `computeCurve` returns the failure, and `compute`
returns it without setting the output handle. -/
theorem ep_failure_without_placeholder :
    scenarioS4.epCurve = true ∧ 2 ≤ scenarioS4.inputTransforms.length
      ∧ (editPointCalls (computeCurve rejectAll scenarioS4 ()).events).length = 1
      ∧ createCalls (computeCurve rejectAll scenarioS4 ()).events = []
      ∧ loggedErrors (computeCurve rejectAll scenarioS4 ()).events
          = ["MFnNurbsCurve::createWithEditPoints: rejected"]
      ∧ (computeCurve rejectAll scenarioS4 ()).status = hostFailure
      ∧ (compute rejectAll emptySlot scenarioS4).status.code ≠ 0
      ∧ (compute rejectAll emptySlot scenarioS4).setCall = none := by
  have h := computeCurve_ep_eq rejectAll scenarioS4 () rfl (by decide)
  refine ⟨rfl, by decide, ?_, ?_, ?_, ?_, ?_, ?_⟩
  · rw [h]; rfl
  · rw [h]; rfl
  · rw [h]; rfl
  · rw [h]; rfl
  · exact (compute_of_computeCurve_failure rejectAll emptySlot scenarioS4
      (by rw [h]; decide)).1
  · exact (compute_of_computeCurve_failure rejectAll emptySlot scenarioS4
      (by rw [h]; decide)).2.1

/-- C13 (CV-mode fallback): in CV mode with at least two points, when
`MFnNurbsCurve::create` fails, the error is logged, `createPlaceholderCurve` is
run on the same output object, and `computeCurve` returns the status and the
object of that run: success when the placeholder construction succeeds, the
status of the placeholder construction when it fails. The constructor calls
are the requested curve, then the placeholder. -/
theorem cv_failure_falls_back {Obj : Type} (host : Host Obj) (db : MDataBlock) (out : Obj)
    (hcv : db.epCurve = false) (hn : 2 ≤ db.inputTransforms.length)
    (hfail : (host.create
      (cvCurveArgs (inputPoints db) db.degree db.periodic db.parameterRange) out).1.code ≠ 0) :
    createCalls (computeCurve host db out).events
        = [cvCurveArgs (inputPoints db) db.degree db.periodic db.parameterRange,
            placeholderArgs]
      ∧ (computeCurve host db out).status
        = (createPlaceholderCurve host
            (host.create (cvCurveArgs (inputPoints db) db.degree db.periodic db.parameterRange)
              out).2).status
      ∧ (computeCurve host db out).outputCurve
        = (createPlaceholderCurve host
            (host.create (cvCurveArgs (inputPoints db) db.degree db.periodic db.parameterRange)
              out).2).outputCurve
      ∧ loggedErrors (computeCurve host db out).events ≠ []
      ∧ ((host.create placeholderArgs
            (host.create (cvCurveArgs (inputPoints db) db.degree db.periodic db.parameterRange)
              out).2).1.code = 0 →
          (computeCurve host db out).status = MStatus.kSuccess)
      ∧ ((host.create placeholderArgs
            (host.create (cvCurveArgs (inputPoints db) db.degree db.periodic db.parameterRange)
              out).2).1.code ≠ 0 →
          (computeCurve host db out).status
            = (host.create placeholderArgs
                (host.create
                  (cvCurveArgs (inputPoints db) db.degree db.periodic db.parameterRange)
                  out).2).1) := by
  have hne := instanceFinished_status_code_ne
    (extractPoints db.inputTransforms MStatusHandler.fresh).1 "MFnNurbsCurve::create" _ hfail
  have hfb := computeCurve_cv_createCalls_fallback host db out hcv hn hne
  refine ⟨hfb.1, hfb.2.1, hfb.2.2.1, hfb.2.2.2, ?_, ?_⟩
  · intro hz
    rw [hfb.2.1, createPlaceholderCurve_eq]
    show (MStatusHandler.fresh.instanceFinished "MFnNurbsCurve::create" _).get = MStatus.kSuccess
    rw [instanceFinished_ok _ _ _ hz]
    rfl
  · intro hnz
    rw [hfb.2.1, createPlaceholderCurve_eq]
    show (MStatusHandler.fresh.instanceFinished "MFnNurbsCurve::create" _).get = _
    simp [MStatusHandler.instanceFinished, MStatusHandler.get, MStatusHandler.fresh,
      MStatus.kSuccess, hnz]

/-- Witness of C13: scenario S1 on a host that rejects every construction. -/
theorem cv_failure_falls_back_witness :
    scenarioS1.epCurve = false ∧ 2 ≤ scenarioS1.inputTransforms.length
      ∧ (rejectAll.create
          (cvCurveArgs (inputPoints scenarioS1) scenarioS1.degree scenarioS1.periodic
            scenarioS1.parameterRange) ()).1.code ≠ 0
      ∧ createCalls (computeCurve rejectAll scenarioS1 ()).events
          = [cvCurveArgs (inputPoints scenarioS1) scenarioS1.degree scenarioS1.periodic
              scenarioS1.parameterRange, placeholderArgs] :=
  ⟨rfl, by decide, by decide,
    (cv_failure_falls_back rejectAll scenarioS1 () rfl (by decide) (by decide)).1⟩

/-- Counterexample of C14: a single input element whose `jumpToArrayElement`
fails, on an accepting host and an empty slot. `compute` returns success, the
placeholder is constructed and it is set on the output handle. -/
theorem read_failure_not_surfaced :
    (∃ e ∈ oneUnreadable.inputTransforms, e.jumpStatus.code ≠ 0)
      ∧ (compute acceptAll emptySlot oneUnreadable).status.code = 0
      ∧ createCalls (compute acceptAll emptySlot oneUnreadable).events = [placeholderArgs]
      ∧ (compute acceptAll emptySlot oneUnreadable).setCall = some () := by
  refine ⟨⟨unreadable 0 0 0 0, by simp [oneUnreadable], by decide⟩, ?_, ?_, ?_⟩
  · decide
  · rfl
  · rfl

/-- C14, amended (failed array read): when reading an element of the
transform array fails, in EP mode with at least two points `computeCurve` and
`compute` return a failure, no placeholder is constructed and nothing is set
on the output handle; in CV mode with at least two points the error is
logged, the placeholder is constructed after the requested curve and the
status of `computeCurve` is that of the placeholder construction; with fewer
than two points the placeholder is constructed and the status of
`computeCurve` is that of the placeholder construction. -/
theorem read_failure_behaviour {Obj : Type} (host : Host Obj) (handle : OutputHandle Obj)
    (db : MDataBlock)
    (hread : ∃ e ∈ db.inputTransforms, e.jumpStatus.code ≠ 0 ∨ e.valueStatus.code ≠ 0) :
    (db.epCurve = true → 2 ≤ db.inputTransforms.length →
        (computeCurve host db handle.object).status.code ≠ 0
        ∧ (compute host handle db).status.code ≠ 0
        ∧ createCalls (compute host handle db).events = []
        ∧ (compute host handle db).setCall = none)
    ∧ (db.epCurve = false → 2 ≤ db.inputTransforms.length →
        createCalls (compute host handle db).events
            = [cvCurveArgs (inputPoints db) db.degree db.periodic db.parameterRange,
                placeholderArgs]
        ∧ loggedErrors (computeCurve host db handle.object).events ≠ []
        ∧ (computeCurve host db handle.object).status.code
            = (host.create placeholderArgs
                (host.create
                  (cvCurveArgs (inputPoints db) db.degree db.periodic db.parameterRange)
                  handle.object).2).1.code)
    ∧ (db.inputTransforms.length < 2 →
        createCalls (compute host handle db).events = [placeholderArgs]
        ∧ (computeCurve host db handle.object).status.code
            = (host.create placeholderArgs handle.object).1.code) := by
  have hst := extractPoints_fst_fail db.inputTransforms hread
  refine ⟨?_, ?_, ?_⟩
  · intro hep hn
    have hcc : (computeCurve host db handle.object).status.code ≠ 0 := by
      rw [computeCurve_ep_eq host db handle.object hep hn]
      show (MStatusHandler.instanceFinished _ _ _).status.code ≠ 0
      rw [instanceFinished_status_code_keep _ _ _ hst]
      exact hst
    have hc := compute_of_computeCurve_failure host handle db hcc
    refine ⟨hcc, hc.1, ?_, hc.2.1⟩
    rw [compute_createCalls, computeCurve_ep_eq host db handle.object hep hn]
    show createCalls (_ ++ _) = []
    rw [createCalls_append, createCalls_perror]
    simp [createCalls]
  · intro hcv hn
    have hne : ((extractPoints db.inputTransforms MStatusHandler.fresh).1.instanceFinished
        "MFnNurbsCurve::create"
        (host.create (cvCurveArgs (inputPoints db) db.degree db.periodic db.parameterRange)
          handle.object).1).status.code ≠ 0 := by
      rw [instanceFinished_status_code_keep _ _ _ hst]
      exact hst
    have hfb := computeCurve_cv_createCalls_fallback host db handle.object hcv hn hne
    refine ⟨?_, hfb.2.2.2, ?_⟩
    · rw [compute_createCalls]; exact hfb.1
    · rw [hfb.2.1, createPlaceholderCurve_status_code]
  · intro hn
    refine ⟨?_, ?_⟩
    · rw [compute_createCalls, computeCurve_placeholder host db handle.object hn,
        createCalls_append, createPlaceholderCurve_createCalls]
      simp [createCalls]
    · rw [computeCurve_placeholder host db handle.object hn]
      exact createPlaceholderCurve_status_code host handle.object

/-- Witness of C14: scenario S4 with an unreadable element, in EP mode. -/
theorem read_failure_behaviour_witness :
    (∃ e ∈ scenarioS4Unreadable.inputTransforms,
        e.jumpStatus.code ≠ 0 ∨ e.valueStatus.code ≠ 0)
      ∧ scenarioS4Unreadable.epCurve = true
      ∧ 2 ≤ scenarioS4Unreadable.inputTransforms.length
      ∧ (compute acceptAll emptySlot scenarioS4Unreadable).status.code ≠ 0
      ∧ createCalls (compute acceptAll emptySlot scenarioS4Unreadable).events = []
      ∧ (compute acceptAll emptySlot scenarioS4Unreadable).setCall = none :=
  ⟨⟨unreadable 1 1 0 0, by simp [scenarioS4Unreadable], Or.inl (by decide)⟩, rfl, by decide,
    ((read_failure_behaviour acceptAll emptySlot scenarioS4Unreadable
      ⟨unreadable 1 1 0 0, by simp [scenarioS4Unreadable], Or.inl (by decide)⟩).1 rfl
      (by decide)).2⟩

/-! ## The status aggregator -/

theorem recordAll_nil (h : MStatusHandler) : h.recordAll [] = h := rfl

theorem recordAll_cons (h : MStatusHandler) (c : String × MStatus)
    (cs : List (String × MStatus)) :
    h.recordAll (c :: cs) = (h.instanceFinished c.1 c.2).recordAll cs := rfl

theorem recordAll_keep (h : MStatusHandler) (calls : List (String × MStatus))
    (hs : h.status.code ≠ 0) : h.recordAll calls = h := by
  induction calls with
  | nil => rfl
  | cons c cs ih => rw [recordAll_cons, instanceFinished_status_code_keep _ _ _ hs, ih]

theorem fresh_instanceFinished_fail (name : String) (st : MStatus) (hs : st.code ≠ 0) :
    MStatusHandler.fresh.instanceFinished name st = ⟨st, name⟩ := by
  simp [MStatusHandler.instanceFinished, MStatusHandler.fresh, MStatus.kSuccess, hs]

/-- Folding calls into a fresh handler keeps the first failing call, if any. -/
theorem recordAll_fresh (calls : List (String × MStatus)) :
    MStatusHandler.fresh.recordAll calls
      = match calls.find? (fun c => !c.2.isSuccess) with
        | some c => ⟨c.2, c.1⟩
        | none => MStatusHandler.fresh := by
  induction calls with
  | nil => rfl
  | cons c cs ih =>
    rw [recordAll_cons]
    by_cases hc : c.2.code = 0
    · rw [instanceFinished_ok _ _ _ hc, ih]
      simp [List.find?_cons, MStatus.isSuccess, hc]
    · rw [fresh_instanceFinished_fail _ _ hc, recordAll_keep _ _ hc]
      simp [List.find?_cons, MStatus.isSuccess, hc]

theorem getError_eq_empty_iff (h : MStatusHandler) :
    h.getError = "" ↔ h.status.isSuccess = true := by
  unfold MStatusHandler.getError
  by_cases hs : h.status.isSuccess = true
  · simp [hs]
  · simp only [hs, Bool.false_eq_true, if_false, iff_false]
    split
    · intro he
      have := congrArg String.length he
      simp only [String.length_append] at this
      have h2 : ": ".length = 2 := by decide
      have h0 : "".length = 0 := by decide
      omega
    · intro he
      have := congrArg String.length he
      simp only [String.length_append] at this
      have h7 : " failed".length = 7 := by decide
      have h0 : "".length = 0 := by decide
      omega

theorem recordAll_append (h : MStatusHandler) (xs ys : List (String × MStatus)) :
    h.recordAll (xs ++ ys) = (h.recordAll xs).recordAll ys := by
  simp [MStatusHandler.recordAll, List.foldl_append]

theorem recordAll_all_ok (h : MStatusHandler) (calls : List (String × MStatus))
    (hok : ∀ c ∈ calls, c.2.isSuccess = true) : h.recordAll calls = h := by
  induction calls with
  | nil => rfl
  | cons c cs ih =>
    have hc : c.2.code = 0 := by
      have := hok c (List.mem_cons_self _ _)
      simpa [MStatus.isSuccess] using this
    rw [recordAll_cons, instanceFinished_ok _ _ _ hc]
    exact ih (fun c' hc' => hok c' (List.mem_cons_of_mem _ hc'))

theorem recordAll_first_failure (before after : List (String × MStatus)) (c : String × MStatus)
    (hok : ∀ b ∈ before, b.2.isSuccess = true) (hc : c.2.isSuccess = false) :
    MStatusHandler.fresh.recordAll (before ++ c :: after) = ⟨c.2, c.1⟩ := by
  have hcode : c.2.code ≠ 0 := by
    intro h0
    simp [MStatus.isSuccess, h0] at hc
  rw [recordAll_append, recordAll_all_ok _ _ hok, recordAll_cons,
    fresh_instanceFinished_fail _ _ hcode, recordAll_keep _ _ hcode]

/-- C15 (first failure wins): for every sequence of labelled statuses folded
into a fresh MStatusHandler, `get()` is success exactly when every recorded
status is success (and is then `kSuccess`); otherwise, with `c` the first
non-success call of the sequence, `get()` is the status of `c` and
`getError()` is built from the label of `c`, whatever follows `c`;
`perror()` returns true exactly when `get()` is not success, and `getError()`
is the empty string exactly when `get()` is success. -/
theorem first_failure_wins (calls : List (String × MStatus)) :
    ((MStatusHandler.fresh.recordAll calls).get.isSuccess = true
        ↔ ∀ c ∈ calls, c.2.isSuccess = true)
    ∧ ((∀ c ∈ calls, c.2.isSuccess = true) →
        (MStatusHandler.fresh.recordAll calls).get = MStatus.kSuccess)
    ∧ (∀ (before after : List (String × MStatus)) (c : String × MStatus),
        calls = before ++ c :: after → (∀ b ∈ before, b.2.isSuccess = true) →
        c.2.isSuccess = false →
        (MStatusHandler.fresh.recordAll calls).get = c.2
        ∧ (MStatusHandler.fresh.recordAll calls).getError
            = (if c.2.errorString.length > 0 then c.1 ++ ": " ++ c.2.errorString
                else c.1 ++ " failed"))
    ∧ ((MStatusHandler.fresh.recordAll calls).perror.1 = true
        ↔ (MStatusHandler.fresh.recordAll calls).get.isSuccess = false)
    ∧ ((MStatusHandler.fresh.recordAll calls).getError = ""
        ↔ (MStatusHandler.fresh.recordAll calls).get.isSuccess = true) := by
  refine ⟨?_, ?_, ?_, ?_, ?_⟩
  · constructor
    · intro hs c hc
      by_contra hbad
      have hfalse : c.2.isSuccess = false := by simpa using hbad
      rw [recordAll_fresh] at hs
      cases hf : calls.find? (fun c => !c.2.isSuccess) with
      | none =>
        have := List.find?_eq_none.mp hf c hc
        simp [hfalse] at this
      | some d =>
        rw [hf] at hs
        have hd := List.find?_some hf
        simp only [MStatusHandler.get] at hs
        simp [hs] at hd
    · intro hall
      rw [recordAll_all_ok _ _ hall]
      rfl
  · intro hall
    rw [recordAll_all_ok _ _ hall]
    rfl
  · intro before after c hcalls hok hc
    rw [hcalls, recordAll_first_failure before after c hok hc]
    refine ⟨rfl, ?_⟩
    simp [MStatusHandler.getError, hc]
  · unfold MStatusHandler.perror MStatusHandler.get
    cases hs : (MStatusHandler.fresh.recordAll calls).status.isSuccess <;> simp
  · exact getError_eq_empty_iff _

/-- Witness of C15: a success, then two different failures. -/
theorem first_failure_wins_witness :
    (MStatusHandler.fresh.recordAll
        [("first", MStatus.kSuccess), ("second", ⟨1, ""⟩), ("third", ⟨2, "late"⟩)]).get
        = ⟨1, ""⟩
      ∧ (MStatusHandler.fresh.recordAll
        [("first", MStatus.kSuccess), ("second", ⟨1, ""⟩), ("third", ⟨2, "late"⟩)]).getError
        = "second failed" :=
  have h := (first_failure_wins
    [("first", MStatus.kSuccess), ("second", ⟨1, ""⟩), ("third", ⟨2, "late"⟩)]).2.2.1
    [("first", MStatus.kSuccess)] [("third", ⟨2, "late"⟩)] ("second", ⟨1, ""⟩) rfl
    (by decide) rfl
  ⟨h.1, h.2⟩

/-! ## Dependence on the input -/

theorem extractPoints_fold_congr (elems elems' : List ArrayElement) (status : MStatusHandler)
    (acc : List MPoint)
    (h : elems.map (fun e => (readStatuses e, translationRow e))
      = elems'.map (fun e => (readStatuses e, translationRow e))) :
    elems.foldl
      (fun (acc : MStatusHandler × List MPoint) e =>
        let status := acc.1.instanceFinished "inputTransformsHandle.jumpToElement" e.jumpStatus
        let status := status.instanceFinished "inputTransformsHandle.inputValue" e.valueStatus
        let mat := e.matrix
        (status, acc.2 ++ [MPoint.mk3 (mat 3 0) (mat 3 1) (mat 3 2)]))
      (status, acc)
    = elems'.foldl
      (fun (acc : MStatusHandler × List MPoint) e =>
        let status := acc.1.instanceFinished "inputTransformsHandle.jumpToElement" e.jumpStatus
        let status := status.instanceFinished "inputTransformsHandle.inputValue" e.valueStatus
        let mat := e.matrix
        (status, acc.2 ++ [MPoint.mk3 (mat 3 0) (mat 3 1) (mat 3 2)]))
      (status, acc) := by
  induction elems generalizing elems' status acc with
  | nil =>
    cases elems' with
    | nil => rfl
    | cons e' es' => simp at h
  | cons e es ih =>
    cases elems' with
    | nil => simp at h
    | cons e' es' =>
      simp only [List.map_cons, List.cons.injEq, Prod.mk.injEq, readStatuses,
        translationRow] at h
      obtain ⟨⟨⟨hj, hv⟩, h0, h1, h2⟩, hrest⟩ := h
      simp only [List.foldl_cons, hj, hv, h0, h1, h2]
      exact ih es' _ _ hrest

theorem extractPoints_congr (elems elems' : List ArrayElement) (status : MStatusHandler)
    (hrows : elems.map translationRow = elems'.map translationRow)
    (hst : elems.map readStatuses = elems'.map readStatuses) :
    extractPoints elems status = extractPoints elems' status := by
  apply extractPoints_fold_congr
  have hlen : elems.length = elems'.length := by
    simpa using congrArg List.length hrows
  apply List.ext_getElem (by simp [hlen])
  intro i h1 h2
  simp only [List.length_map] at h1 h2
  have hr := congrArg (fun l => l[i]?) hrows
  have hs := congrArg (fun l => l[i]?) hst
  simp only [List.getElem?_map, List.getElem?_eq_getElem h1, List.getElem?_eq_getElem h2,
    Option.map_some', Option.some.injEq] at hr hs
  simp [hr, hs]

theorem computeCurve_congr {Obj : Type} (host : Host Obj) (db db' : MDataBlock) (out : Obj)
    (hext : extractPoints db.inputTransforms MStatusHandler.fresh
      = extractPoints db'.inputTransforms MStatusHandler.fresh)
    (hdeg : db.degree = db'.degree) (hper : db.periodic = db'.periodic)
    (hep : db.epCurve = db'.epCurve) (hr : db.parameterRange = db'.parameterRange) :
    computeCurve host db out = computeCurve host db' out := by
  unfold computeCurve
  simp only [hext, hdeg, hper, hep, hr]

theorem inputPoints_congr (db db' : MDataBlock)
    (hrows : db.inputTransforms.map translationRow = db'.inputTransforms.map translationRow) :
    inputPoints db = inputPoints db' := by
  rw [inputPoints_eq_map, inputPoints_eq_map]
  have h := congrArg (List.map (fun (t : ℚ × ℚ × ℚ) => MPoint.mk3 t.1 t.2.1 t.2.2)) hrows
  simpa [List.map_map, Function.comp_def, translationRow] using h

theorem hostCalls_append (xs ys : List Event) :
    hostCalls (xs ++ ys) = hostCalls xs ++ hostCalls ys := by
  simp [hostCalls, List.filter_append]

theorem hostCalls_perror (h : MStatusHandler) : hostCalls h.perror.2 = [] := by
  unfold MStatusHandler.perror
  split <;> simp [hostCalls]

theorem createPlaceholderCurve_hostCalls {Obj : Type} (host : Host Obj) (out : Obj) :
    hostCalls (createPlaceholderCurve host out).events = [Event.create placeholderArgs] := by
  rw [createPlaceholderCurve_events, hostCalls_append, hostCalls_perror]
  simp [hostCalls]

/-- The constructor calls of `computeCurve`: the first request, possibly
followed by the placeholder. -/
theorem computeCurve_hostCalls {Obj : Type} (host : Host Obj) (db : MDataBlock) (out : Obj) :
    hostCalls (computeCurve host db out).events
        = [firstRequest (inputPoints db) db.degree db.periodic db.epCurve db.parameterRange]
    ∨ hostCalls (computeCurve host db out).events
        = [firstRequest (inputPoints db) db.degree db.periodic db.epCurve db.parameterRange,
            Event.create placeholderArgs] := by
  by_cases hn : db.inputTransforms.length < 2
  · left
    have hlen : (inputPoints db).length < 2 := by rw [inputPoints_length]; exact hn
    rw [computeCurve_placeholder host db out hn, hostCalls_append,
      createPlaceholderCurve_hostCalls]
    simp [hostCalls, firstRequest, hlen]
  · have hn2 : 2 ≤ db.inputTransforms.length := by omega
    have hlen : ¬ (inputPoints db).length < 2 := by rw [inputPoints_length]; exact hn
    cases hep : db.epCurve with
    | true =>
      left
      rw [computeCurve_ep_eq host db out hep hn2]
      show hostCalls (_ ++ _) = _
      rw [hostCalls_append, hostCalls_perror]
      simp [hostCalls, firstRequest, hlen]
    | false =>
      rw [computeCurve_cv_eq host db out hep hn2]
      split
      · right
        show hostCalls (_ ++ _ ++ _) = _
        rw [hostCalls_append, hostCalls_append, hostCalls_perror,
          createPlaceholderCurve_hostCalls]
        simp [hostCalls, firstRequest, hlen]
      · left
        show hostCalls (_ ++ _) = _
        rw [hostCalls_append, hostCalls_perror]
        simp [hostCalls, firstRequest, hlen]

/-- C16 (gap tolerance and translation-only sensitivity): the `i`-th extracted
point is `(M[3,0], M[3,1], M[3,2])` of the `i`-th physical element, in stored
order; every constructor call of `computeCurve` is either the first request,
which is a function of the point list and the configuration, or the constant
placeholder. Hence two inputs with the same translation rows in the same order
and the same configuration, whatever their logical indices and their other
matrix entries, extract the same points and make the same first request (CVs,
knots, degree and form); when their read statuses agree too, the whole run is
the same. -/
theorem gap_tolerance {Obj : Type} (host : Host Obj) (db db' : MDataBlock) (out : Obj)
    (hrows : db.inputTransforms.map translationRow = db'.inputTransforms.map translationRow)
    (hdeg : db.degree = db'.degree) (hper : db.periodic = db'.periodic)
    (hep : db.epCurve = db'.epCurve) (hr : db.parameterRange = db'.parameterRange) :
    (∀ (i : Nat) (e : ArrayElement), db.inputTransforms[i]? = some e →
        (inputPoints db)[i]? = some (MPoint.mk3 (e.matrix 3 0) (e.matrix 3 1) (e.matrix 3 2)))
    ∧ (inputPoints db).length = db.inputTransforms.length
    ∧ (hostCalls (computeCurve host db out).events).head?
        = some (firstRequest (inputPoints db) db.degree db.periodic db.epCurve
            db.parameterRange)
    ∧ (∀ e ∈ hostCalls (computeCurve host db out).events,
        e = firstRequest (inputPoints db) db.degree db.periodic db.epCurve db.parameterRange
        ∨ e = Event.create placeholderArgs)
    ∧ inputPoints db = inputPoints db'
    ∧ (hostCalls (computeCurve host db out).events).head?
        = (hostCalls (computeCurve host db' out).events).head?
    ∧ (db.inputTransforms.map readStatuses = db'.inputTransforms.map readStatuses →
        computeCurve host db out = computeCurve host db' out) := by
  have hhead : ∀ d : MDataBlock, (hostCalls (computeCurve host d out).events).head?
      = some (firstRequest (inputPoints d) d.degree d.periodic d.epCurve d.parameterRange) := by
    intro d
    rcases computeCurve_hostCalls host d out with h | h <;> rw [h] <;> rfl
  have hpts := inputPoints_congr db db' hrows
  refine ⟨?_, inputPoints_length db, hhead db, ?_, hpts, ?_, ?_⟩
  · intro i e he
    rw [inputPoints_eq_map, List.getElem?_map, he]
    rfl
  · intro e he
    rcases computeCurve_hostCalls host db out with h | h <;> rw [h] at he <;> simp at he
    · exact Or.inl he
    · exact he
  · rw [hhead db, hhead db', hpts, hdeg, hper, hep, hr]
  · intro hst
    exact computeCurve_congr host db db' out
      (extractPoints_congr _ _ _ hrows hst) hdeg hper hep hr

theorem translationRow_element (i : Nat) (x y z : ℚ) :
    translationRow (element i x y z) = (x, y, z) := rfl

theorem translationRow_skewed (i : Nat) (s1 s2 : MStatus) (x y z : ℚ) :
    translationRow ⟨i, s1, s2, skewed x y z⟩ = (x, y, z) := rfl

theorem scenarioS6_rows :
    scenarioS6Sparse.inputTransforms.map translationRow
      = scenarioS6Dense.inputTransforms.map translationRow := by
  simp only [scenarioS6Sparse, scenarioS6Dense, List.map_cons, List.map_nil,
    translationRow_element, translationRow_skewed]

theorem scenarioS6_statuses :
    scenarioS6Sparse.inputTransforms.map readStatuses
      = scenarioS6Dense.inputTransforms.map readStatuses :=
  (rfl : scenarioS6Sparse.inputTransforms.map readStatuses
      = [(MStatus.kSuccess, MStatus.kSuccess), (MStatus.kSuccess, MStatus.kSuccess),
          (MStatus.kSuccess, MStatus.kSuccess)]).trans
    (rfl : [(MStatus.kSuccess, MStatus.kSuccess), (MStatus.kSuccess, MStatus.kSuccess),
          (MStatus.kSuccess, MStatus.kSuccess)]
      = scenarioS6Dense.inputTransforms.map readStatuses)

theorem scenarioS6_config :
    scenarioS6Sparse.degree = scenarioS6Dense.degree
      ∧ scenarioS6Sparse.periodic = scenarioS6Dense.periodic
      ∧ scenarioS6Sparse.epCurve = scenarioS6Dense.epCurve
      ∧ scenarioS6Sparse.parameterRange = scenarioS6Dense.parameterRange :=
  ⟨(rfl : scenarioS6Sparse.degree = 3).trans (rfl : (3 : Int) = scenarioS6Dense.degree),
    (rfl : scenarioS6Sparse.periodic = false).trans (rfl : false = scenarioS6Dense.periodic),
    (rfl : scenarioS6Sparse.epCurve = false).trans (rfl : false = scenarioS6Dense.epCurve),
    (rfl : scenarioS6Sparse.parameterRange = 1).trans
      (rfl : (1 : ℚ) = scenarioS6Dense.parameterRange)⟩

/-- Witness of C16: the sparse and the dense input of scenario S6. -/
theorem gap_tolerance_witness :
    scenarioS6Sparse.inputTransforms.map translationRow
        = scenarioS6Dense.inputTransforms.map translationRow
      ∧ scenarioS6Sparse.inputTransforms.map (fun e => e.logicalIndex) = [0, 2, 7]
      ∧ inputPoints scenarioS6Sparse = inputPoints scenarioS6Dense
      ∧ computeCurve acceptAll scenarioS6Sparse () = computeCurve acceptAll scenarioS6Dense () :=
  ⟨scenarioS6_rows, rfl,
    (gap_tolerance acceptAll scenarioS6Sparse scenarioS6Dense () scenarioS6_rows
      scenarioS6_config.1 scenarioS6_config.2.1 scenarioS6_config.2.2.1
      scenarioS6_config.2.2.2).2.2.2.2.1,
    (gap_tolerance acceptAll scenarioS6Sparse scenarioS6Dense () scenarioS6_rows
      scenarioS6_config.1 scenarioS6_config.2.1 scenarioS6_config.2.2.1
      scenarioS6_config.2.2.2).2.2.2.2.2.2 scenarioS6_statuses⟩

/-! ## EP mode -/

theorem editPointCalls_append (xs ys : List Event) :
    editPointCalls (xs ++ ys) = editPointCalls xs ++ editPointCalls ys := by
  unfold editPointCalls
  exact List.filterMap_append _ _ _

theorem editPointCalls_perror (h : MStatusHandler) : editPointCalls h.perror.2 = [] := by
  unfold MStatusHandler.perror
  split
  · rfl
  · rfl

/-- The edit-point calls of an EP-mode run with at least two points. -/
theorem computeCurve_ep_calls {Obj : Type} (host : Host Obj) (db : MDataBlock) (out : Obj)
    (hep : db.epCurve = true) (hn : 2 ≤ db.inputTransforms.length) :
    editPointCalls (computeCurve host db out).events
      = [⟨if db.periodic then inputPoints db ++ [(inputPoints db).getD 0 MPoint.origin]
            else inputPoints db,
          min db.degree 10, if db.periodic then Form.kPeriodic else Form.kOpen,
          false, false, true⟩] := by
  rw [computeCurve_ep_eq host db out hep hn]
  show editPointCalls (_ ++ _) = _
  rw [editPointCalls_append, editPointCalls_perror]
  rfl

/-- C17 (EP periodic closing): in EP mode with at least two points the
edit-point constructor is called once, with `uniformParam = true`,
`create2D = false` and `createRational = false`. With periodic set, the point
list is the extracted list followed by a copy of its first point (`n + 1`
entries, the first `n` unchanged) and the form is Periodic; otherwise the list
is passed unchanged with form Open. For the 4 points of scenario S4 the
periodic list has 5 entries. -/
theorem ep_periodic_closing {Obj : Type} (host : Host Obj) (db : MDataBlock) (out : Obj)
    (hep : db.epCurve = true) (hn : 2 ≤ db.inputTransforms.length) :
    (∃ a : CreateEPArgs, editPointCalls (computeCurve host db out).events = [a]
      ∧ a.uniformParam = true ∧ a.create2D = false ∧ a.createRational = false
      ∧ (db.periodic = true →
          (∃ p : MPoint, (inputPoints db)[0]? = some p ∧ a.eps = inputPoints db ++ [p])
          ∧ a.eps.length = db.inputTransforms.length + 1
          ∧ a.eps.take db.inputTransforms.length = inputPoints db
          ∧ a.form = Form.kPeriodic)
      ∧ (db.periodic = false → a.eps = inputPoints db ∧ a.form = Form.kOpen))
    ∧ (∃ b : CreateEPArgs, editPointCalls (computeCurve acceptAll scenarioS4 ()).events = [b]
      ∧ b.eps.length = 5 ∧ b.form = Form.kPeriodic ∧ b.uniformParam = true) := by
  constructor
  · refine ⟨_, computeCurve_ep_calls host db out hep hn, rfl, rfl, rfl, ?_, ?_⟩
    · intro hp
      have hlen := inputPoints_length db
      generalize inputPoints db = pts at hlen
      rw [← hlen]
      simp only [hp, if_true]
      cases pts with
      | nil => simp at hlen; omega
      | cons p ps =>
        refine ⟨⟨p, by simp, by simp⟩, by simp, ?_, trivial⟩
        exact List.take_left _ _
    · intro hp
      simp [hp]
  · refine ⟨_, computeCurve_ep_calls acceptAll scenarioS4 () rfl (by decide), ?_, rfl, rfl⟩
    rfl

/-- Witness of C17: scenario S4 on an accepting host. -/
theorem ep_periodic_closing_witness :
    scenarioS4.epCurve = true ∧ 2 ≤ scenarioS4.inputTransforms.length
      ∧ ∃ a : CreateEPArgs, editPointCalls (computeCurve acceptAll scenarioS4 ()).events = [a]
        ∧ a.uniformParam = true ∧ a.create2D = false ∧ a.createRational = false :=
  ⟨rfl, by decide,
    match (ep_periodic_closing acceptAll scenarioS4 () rfl (by decide)).1 with
    | ⟨a, h, hu, h2, hr, _⟩ => ⟨a, h, hu, h2, hr⟩⟩

/-- C18 (EP degree clamp): in EP mode with at least two points, for every
requested degree the edit-point constructor is called with degree exactly
`min degree 10`, so never more than 10; the point count plays no part: two
points with degree 5 are passed on with degree 5. -/
theorem ep_degree_clamp {Obj : Type} (host : Host Obj) (db : MDataBlock) (out : Obj)
    (hep : db.epCurve = true) (hn : 2 ≤ db.inputTransforms.length) :
    (∃ a : CreateEPArgs, editPointCalls (computeCurve host db out).events = [a]
      ∧ a.degree = min db.degree 10 ∧ a.degree ≤ 10)
    ∧ (∃ b : CreateEPArgs, editPointCalls (computeCurve acceptAll twoPointEP ()).events = [b]
      ∧ b.degree = 5 ∧ (twoPointEP.inputTransforms.length : Int) - 1 < b.degree) := by
  constructor
  · exact ⟨_, computeCurve_ep_calls host db out hep hn, rfl, min_le_right _ _⟩
  · refine ⟨_, computeCurve_ep_calls acceptAll twoPointEP () rfl (by decide), ?_, ?_⟩
    · show min twoPointEP.degree 10 = 5
      decide
    · show (twoPointEP.inputTransforms.length : Int) - 1 < min twoPointEP.degree 10
      decide

/-- Witness of C18: two edit points with degree 5. -/
theorem ep_degree_clamp_witness :
    twoPointEP.epCurve = true ∧ 2 ≤ twoPointEP.inputTransforms.length
      ∧ ∃ a : CreateEPArgs, editPointCalls (computeCurve acceptAll twoPointEP ()).events = [a]
        ∧ a.degree = min twoPointEP.degree 10 ∧ a.degree ≤ 10 :=
  ⟨rfl, by decide, (ep_degree_clamp acceptAll twoPointEP () rfl (by decide)).1⟩

/-! ## Safety of the CV-mode block -/

theorem knotDivisor_open (cvs : List MPoint) (degree : Int) :
    knotDivisor cvs degree false
      = (cvs.length : Int) - min degree ((cvs.length : Int) - 1) := by
  unfold knotDivisor
  simp only [Bool.false_eq_true, if_false]
  ring

theorem knotDivisor_periodic (cvs : List MPoint) (degree : Int) :
    knotDivisor cvs degree true
      = ((cvs ++ cvs.take (min degree ((cvs.length : Int) - 1)).toNat).length : Int)
          - min degree ((cvs.length : Int) - 1) := by
  unfold knotDivisor
  generalize hd : min degree ((cvs.length : Int) - 1) = d
  have hle : d ≤ (cvs.length : Int) - 1 := by rw [← hd]; exact min_le_right _ _
  have hge : (cvs.length : Int) ≥ d + 1 := by omega
  have hnat : d.toNat ≤ cvs.length := by omega
  simp only [if_true, hge]
  rw [forLoop_wrap cvs d hnat]
  ring

/-- C22 (no downgrade): in CV mode with periodic set and at least two points,
for every integer degree the clamped degree `d = min degree (n - 1)` passes the
test `n >= d + 1`, so the layout keeps the periodic flag, the first `d` points
are appended and the constructor is called with form Periodic. -/
theorem periodic_never_downgraded {Obj : Type} (host : Host Obj) (db : MDataBlock) (out : Obj)
    (hcv : db.epCurve = false) (hn : 2 ≤ db.inputTransforms.length)
    (hper : db.periodic = true) :
    (db.inputTransforms.length : Int)
        ≥ min db.degree ((db.inputTransforms.length : Int) - 1) + 1
      ∧ (cvLayout (inputPoints db) db.degree db.periodic).periodic = true
      ∧ (cvLayout (inputPoints db) db.degree db.periodic).cvs
          = inputPoints db
            ++ (inputPoints db).take
                (min db.degree ((db.inputTransforms.length : Int) - 1)).toNat
      ∧ ∃ a : CreateArgs, requestedCurve (computeCurve host db out) = some a
          ∧ a.form = Form.kPeriodic
          ∧ a.cvs = (cvLayout (inputPoints db) db.degree db.periodic).cvs := by
  have hlen := inputPoints_length db
  refine ⟨?_, ?_, ?_, _, computeCurve_cv_request host db out hcv hn, ?_, ?_⟩
  · have := min_le_right db.degree ((db.inputTransforms.length : Int) - 1)
    omega
  · rw [hper, cvLayout_periodic]
  · rw [hper, cvLayout_periodic, hlen]
  · rw [hper, cvCurveArgs_periodic]
  · rw [hper, cvCurveArgs_periodic, cvLayout_periodic]

/-- Witness of C22: scenario S2 on an accepting host. -/
theorem periodic_never_downgraded_witness :
    scenarioS2.epCurve = false ∧ 2 ≤ scenarioS2.inputTransforms.length
      ∧ scenarioS2.periodic = true
      ∧ (cvLayout (inputPoints scenarioS2) scenarioS2.degree scenarioS2.periodic).periodic = true
      ∧ ∃ a : CreateArgs, requestedCurve (computeCurve acceptAll scenarioS2 ()) = some a
          ∧ a.form = Form.kPeriodic :=
  ⟨rfl, by decide, rfl,
    (periodic_never_downgraded acceptAll scenarioS2 () rfl (by decide) rfl).2.1,
    match (periodic_never_downgraded acceptAll scenarioS2 () rfl (by decide) rfl).2.2.2 with
    | ⟨a, h, hf, _⟩ => ⟨a, h, hf⟩⟩

/-- C23 (the knot divisor is never zero): in CV mode with at least two points
and any integer degree, the divisor `cnt = numKnots - 2 (d - 1) - 1` the knots
are divided by is positive. In the open layout the knots are the open layout
over `cnt = n - d`, which is at least 1; in the periodic layout they are the
periodic layout over `cnt`, and when `d` is at least 1, `cnt` is the number `n`
of points before the wrap, at least 2. -/
theorem knot_divisor_nonzero {Obj : Type} (host : Host Obj) (db : MDataBlock) (out : Obj)
    (hcv : db.epCurve = false) (hn : 2 ≤ db.inputTransforms.length) :
    ∃ a : CreateArgs, requestedCurve (computeCurve host db out) = some a
      ∧ a.degree = min db.degree ((db.inputTransforms.length : Int) - 1)
      ∧ 0 < knotDivisor (inputPoints db) db.degree db.periodic
      ∧ knotDivisor (inputPoints db) db.degree db.periodic ≠ 0
      ∧ (db.periodic = false →
          (cvLayout (inputPoints db) db.degree db.periodic).knots
              = openLayout a.degree (knotDivisor (inputPoints db) db.degree db.periodic)
          ∧ knotDivisor (inputPoints db) db.degree db.periodic
              = (db.inputTransforms.length : Int) - a.degree
          ∧ 1 ≤ (db.inputTransforms.length : Int) - a.degree)
      ∧ (db.periodic = true →
          (cvLayout (inputPoints db) db.degree db.periodic).knots
              = periodicLayout a.degree
                  (specNumKnots ((cvLayout (inputPoints db) db.degree db.periodic).cvs.length)
                    a.degree)
                  (knotDivisor (inputPoints db) db.degree db.periodic)
          ∧ (1 ≤ a.degree →
              knotDivisor (inputPoints db) db.degree db.periodic
                  = (db.inputTransforms.length : Int)
              ∧ 2 ≤ (db.inputTransforms.length : Int))) := by
  refine ⟨_, computeCurve_cv_request host db out hcv hn, ?_⟩
  have hlen := inputPoints_length db
  generalize inputPoints db = cvs at hlen
  rw [← hlen]
  have hn2 : 2 ≤ cvs.length := by omega
  have hle : min db.degree ((cvs.length : Int) - 1) ≤ (cvs.length : Int) - 1 := min_le_right _ _
  cases hp : db.periodic with
  | false =>
    rw [cvCurveArgs_open, cvLayout_open, knotDivisor_open]
    refine ⟨rfl, by omega, by omega, fun _ => ⟨rfl, rfl, ?_⟩, fun h => absurd h (by simp)⟩
    show 1 ≤ (cvs.length : Int) - min db.degree ((cvs.length : Int) - 1)
    omega
  | true =>
    rw [cvCurveArgs_periodic, cvLayout_periodic, knotDivisor_periodic]
    have hw := wrapped_length cvs _ hle
    refine ⟨rfl, ?_, ?_, fun h => absurd h (by simp), fun _ => ⟨?_, ?_⟩⟩
    · rw [hw]; push_cast; omega
    · rw [hw]; push_cast; omega
    · show periodicLayout _ _ _ = periodicLayout _ _ _
      congr 1
      unfold specNumKnots
      ring
    · intro h1
      have h1' : 1 ≤ min db.degree ((cvs.length : Int) - 1) := h1
      rw [hw]
      constructor
      · push_cast; omega
      · omega

/-- Witness of C23: scenario S2 on an accepting host. -/
theorem knot_divisor_nonzero_witness :
    scenarioS2.epCurve = false ∧ 2 ≤ scenarioS2.inputTransforms.length
      ∧ ∃ a : CreateArgs, requestedCurve (computeCurve acceptAll scenarioS2 ()) = some a
          ∧ knotDivisor (inputPoints scenarioS2) scenarioS2.degree scenarioS2.periodic ≠ 0 :=
  ⟨rfl, by decide,
    match knot_divisor_nonzero acceptAll scenarioS2 () rfl (by decide) with
    | ⟨a, h, _, _, hz, _⟩ => ⟨a, h, hz⟩⟩

/-- C24 (the parameter range is the parameter domain): in CV mode with at
least two points and effective degree `d = min degree (n - 1)` at least 1, for
either layout and every parameter range `R`, the knots `K` handed to the
constructor satisfy `K[d - 1] = 0` and `K[|K| - d] = R`. -/
theorem parameter_domain {Obj : Type} (host : Host Obj) (db : MDataBlock) (out : Obj)
    (hcv : db.epCurve = false) (hn : 2 ≤ db.inputTransforms.length)
    (hd : 1 ≤ min db.degree ((db.inputTransforms.length : Int) - 1)) :
    ∃ a : CreateArgs, requestedCurve (computeCurve host db out) = some a
      ∧ a.degree = min db.degree ((db.inputTransforms.length : Int) - 1)
      ∧ a.form = (if db.periodic then Form.kPeriodic else Form.kOpen)
      ∧ a.knots[a.degree.toNat - 1]? = some 0
      ∧ a.knots[a.knots.length - a.degree.toNat]? = some db.parameterRange := by
  refine ⟨_, computeCurve_cv_request host db out hcv hn, ?_⟩
  have hlen := inputPoints_length db
  generalize inputPoints db = cvs at hlen
  rw [← hlen] at hd ⊢
  have hle : min db.degree ((cvs.length : Int) - 1) ≤ (cvs.length : Int) - 1 := min_le_right _ _
  cases hp : db.periodic with
  | false =>
    rw [cvCurveArgs_open]
    generalize min db.degree ((cvs.length : Int) - 1) = d at hd hle
    obtain ⟨e, rfl⟩ : ∃ e : Nat, d = (e : Int) + 1 := ⟨(d - 1).toNat, by omega⟩
    obtain ⟨c, hc⟩ : ∃ c : Nat, (cvs.length : Int) - ((e : Int) + 1) = (c : Int) + 1 :=
      ⟨((cvs.length : Int) - ((e : Int) + 1) - 1).toNat, by omega⟩
    have he : ((e : Int) + 1).toNat = e + 1 := by omega
    simp only [hc, he, openLayout_scaled_split]
    refine ⟨trivial, rfl, ?_, ?_⟩
    · rw [List.getElem?_append_left (by simp)]
      simp [List.getElem?_replicate]
    · have hl : (List.replicate (e + 1) (0 : ℚ)
          ++ (((List.range c).map (fun (i : Nat) => ((i : ℚ) + 1) / ((c : ℚ) + 1))).map
                (fun k => k * db.parameterRange)
            ++ List.replicate (e + 1) db.parameterRange)).length - (e + 1)
          = (e + 1) + c := by
        simp
        omega
      rw [hl, List.getElem?_append_right (by simp), List.getElem?_append_right (by simp)]
      simp [List.getElem?_replicate]
  | true =>
    rw [cvCurveArgs_periodic]
    have hw := wrapped_length cvs _ hle
    generalize min db.degree ((cvs.length : Int) - 1) = d at hd hle hw
    have hn2 : 2 ≤ cvs.length := by omega
    have hcq : (cvs.length : ℚ) ≠ 0 := by
      have : cvs.length ≠ 0 := by omega
      exact_mod_cast this
    have e1 : ((cvs.length + d.toNat : Nat) : Int) + d - 1 = (cvs.length : Int) + d + d - 1 := by
      push_cast; omega
    have e2 : ((cvs.length + d.toNat : Nat) : Int) - d = (cvs.length : Int) := by
      push_cast; omega
    simp only [hw, e1, e2, if_true]
    refine ⟨trivial, trivial, ?_, ?_⟩
    · rw [List.getElem?_map, periodicLayout_getElem? _ _ _ _ (by omega)]
      have hq : ((d.toNat - 1 : Nat) : ℚ) = (d : ℚ) - 1 := by
        have : ((d.toNat - 1 : Nat) : Int) = d - 1 := by omega
        exact_mod_cast this
      simp [hq]
    · rw [List.length_map, periodicLayout_length, List.getElem?_map,
        periodicLayout_getElem? _ _ _ _ (by omega)]
      have hq : ((((cvs.length : Int) + d + d - 1).toNat - d.toNat : Nat) : ℚ)
          = (cvs.length : ℚ) + (d : ℚ) - 1 := by
        have : ((((cvs.length : Int) + d + d - 1).toNat - d.toNat : Nat) : Int)
            = (cvs.length : Int) + d - 1 := by omega
        exact_mod_cast this
      simp only [hq, Option.map_some', Option.some.injEq, Int.cast_natCast]
      field_simp

/-- Witness of C24: scenario S2 with parameter range 2 on an accepting host. -/
theorem parameter_domain_witness :
    scenarioS2Scaled.epCurve = false ∧ 2 ≤ scenarioS2Scaled.inputTransforms.length
      ∧ 1 ≤ min scenarioS2Scaled.degree ((scenarioS2Scaled.inputTransforms.length : Int) - 1)
      ∧ ∃ a : CreateArgs, requestedCurve (computeCurve acceptAll scenarioS2Scaled ()) = some a
          ∧ a.knots[a.degree.toNat - 1]? = some 0
          ∧ a.knots[a.knots.length - a.degree.toNat]? = some scenarioS2Scaled.parameterRange :=
  ⟨rfl, by decide, by decide,
    match parameter_domain acceptAll scenarioS2Scaled () rfl (by decide) (by decide) with
    | ⟨a, h, _, _, h0, hR⟩ => ⟨a, h, h0, hR⟩⟩

end zCreateCurve

namespace MayaUtils

/-- C19 (evaluation at the failing input): of eleven calls made since plugin
load, the first with the stem `a1` and the eleventh with the stem `a`, both
return the name `a11`. -/
theorem unique_name_collision :
    (namesSinceLoad collidingStems)[0]? = some "a11"
      ∧ (namesSinceLoad collidingStems)[10]? = some "a11"
      ∧ collidingStems[0]? = some "a1" ∧ collidingStems[10]? = some "a" := by
  decide

/-- C21 (evaluation at the failing input): for the fractional frame rates the
pair returned is frames per second, `24000/1001` for `k23_976FPS` (and
likewise for `k29_97FPS`, `k47_952FPS`, `k59_94FPS`; `30/1` for `k29_97DF`),
while every other unit is given in seconds per unit, `1/24` for `k24FPS`,
`3600/1` for `kHours`, `1/1000` for `kMilliseconds`. The denominator is
positive for every unit. -/
theorem time_unit_fractional_rates_inverted :
    TimeUnitToRational MTimeUnit.k23_976FPS = (24000, 1001)
      ∧ TimeUnitToRational MTimeUnit.k23_976FPS ≠ (1001, 24000)
      ∧ TimeUnitToRational MTimeUnit.k29_97FPS = (30000, 1001)
      ∧ TimeUnitToRational MTimeUnit.k47_952FPS = (48000, 1001)
      ∧ TimeUnitToRational MTimeUnit.k59_94FPS = (60000, 1001)
      ∧ TimeUnitToRational MTimeUnit.k29_97DF = (30, 1)
      ∧ TimeUnitToRational MTimeUnit.k24FPS = (1, 24)
      ∧ TimeUnitToRational MTimeUnit.k30FPS = (1, 30)
      ∧ TimeUnitToRational MTimeUnit.kHours = (3600, 1)
      ∧ TimeUnitToRational MTimeUnit.kMinutes = (60, 1)
      ∧ TimeUnitToRational MTimeUnit.kSeconds = (1, 1)
      ∧ TimeUnitToRational MTimeUnit.kMilliseconds = (1, 1000)
      ∧ ∀ unit : MTimeUnit, 0 < (TimeUnitToRational unit).2 := by
  refine ⟨rfl, by decide, rfl, rfl, rfl, rfl, rfl, rfl, rfl, rfl, rfl, rfl, ?_⟩
  intro unit
  cases unit <;> first | decide | exact Int.one_pos

end MayaUtils

namespace Helpers

/-! ## Characters and `lowercase` -/

theorem toLower_of_not_upper (c : Char) (h : ¬ (c.toNat ≥ 65 ∧ c.toNat ≤ 90)) :
    c.toLower = c := by
  simp [Char.toLower, h]

theorem toLower_ofNat_upper (n : Nat) (h1 : 65 ≤ n) (h2 : n ≤ 90) :
    (Char.ofNat n).toLower.toLower = (Char.ofNat n).toLower
      ∧ (Char.ofNat n).toLower ≠ '<' := by
  interval_cases n <;> decide

theorem toLower_idem (c : Char) : c.toLower.toLower = c.toLower := by
  by_cases h : c.toNat ≥ 65 ∧ c.toNat ≤ 90
  · have := (toLower_ofNat_upper c.toNat h.1 h.2).1
    rwa [Char.ofNat_toNat] at this
  · rw [toLower_of_not_upper c h, toLower_of_not_upper c h]

theorem lowercase_idem (s : List Char) : lowercase (lowercase s) = lowercase s := by
  simp [lowercase, List.map_map, Function.comp_def, toLower_idem]

theorem lowercase_length (s : List Char) : (lowercase s).length = s.length := by
  simp [lowercase]

/-! ## `find` -/

theorem substituteLoop_succ_some (fuel : Nat) (p value lp : List Char) (pos : Nat)
    (h : find (lowercase p) lp = some pos) :
    substituteLoop (fuel + 1) p value lp
      = substituteLoop fuel (p.take pos ++ value ++ p.drop (pos + lp.length)) value lp := by
  simp [substituteLoop, h]

theorem SubstituteString_cons (fuel : Nat) (p : List Char) (it : List Char × List Char)
    (rest : List (List Char × List Char)) :
    SubstituteString fuel p (it :: rest)
      = (substituteLoop fuel p it.2 ("<".toList ++ lowercase it.1 ++ ">".toList)).bind
          (fun q => SubstituteString fuel q rest) := by
  rw [SubstituteString, lowercase_idem]
  cases substituteLoop fuel p it.2 ("<".toList ++ lowercase it.1 ++ ">".toList) <;> rfl

/-- C25 (evaluation at the failing input): with the map `a -> <a>` and the
pattern `<a>`, no number of iterations of the inner loop is enough: every
iteration finds the placeholder at position 0 and replaces it by itself. -/
theorem substitute_string_never_returns :
    ∀ fuel : Nat,
      SubstituteString fuel "<a>".toList [("a".toList, "<a>".toList)] = none := by
  have hloop : ∀ fuel : Nat,
      substituteLoop fuel "<a>".toList "<a>".toList "<a>".toList = none := by
    intro fuel
    induction fuel with
    | zero => rfl
    | succ fuel ih =>
      have hf : find (lowercase "<a>".toList) "<a>".toList = some 0 := by decide
      rw [substituteLoop_succ_some fuel _ _ _ 0 hf]
      exact ih
  intro fuel
  rw [SubstituteString_cons]
  have hlp : "<".toList ++ lowercase ("a".toList, "<a>".toList).1 ++ ">".toList
      = "<a>".toList := by decide
  rw [hlp]
  show (substituteLoop fuel "<a>".toList "<a>".toList "<a>".toList).bind _ = none
  rw [hloop fuel]
  rfl

/-! ## `split` -/

theorem takeWhile_split (c : Char) (t : List Char) :
    (c ∉ t ∧ t.takeWhile (fun x => x != c) = t)
    ∨ (∃ rest : List Char, t = t.takeWhile (fun x => x != c) ++ c :: rest
        ∧ c ∉ t.takeWhile (fun x => x != c)) := by
  induction t with
  | nil => left; simp
  | cons a t ih =>
    by_cases ha : a = c
    · right
      subst ha
      exact ⟨t, by simp, by simp⟩
    · have hne : (a != c) = true := by simpa using ha
      rcases ih with ⟨hnot, htake⟩ | ⟨rest, hsplit, hnot⟩
      · left
        refine ⟨?_, ?_⟩
        · simp only [List.mem_cons, not_or]
          exact ⟨fun h => ha h.symm, hnot⟩
        · rw [List.takeWhile_cons, hne]
          simp [htake]
      · right
        refine ⟨rest, ?_, ?_⟩
        · rw [List.takeWhile_cons, hne]
          simp only [if_true, List.cons_append]
          rw [← hsplit]
        · rw [List.takeWhile_cons, hne]
          simp only [if_true, List.mem_cons, not_or]
          exact ⟨fun h => ha h.symm, hnot⟩

theorem consRun_append (result : List (List Char)) (r : List Char) (rs : List (List Char)) :
    (if r.length > 0 then result ++ [r] else result) ++ rs = result ++ consRun r rs := by
  unfold consRun
  cases r with
  | nil => simp
  | cons a r => simp

/-- The loop of `split` started at `startpos` appends the runs of the rest of
the string. -/
theorem splitLoop_spec (source : List Char) (delim : Char) (fuel : Nat) :
    ∀ (startpos : Nat) (result : List (List Char)), startpos ≤ source.length →
      source.length - startpos < fuel →
      ∃ rs, Runs delim (source.drop startpos) rs
        ∧ splitLoop fuel source delim startpos result = some (result ++ rs) := by
  induction fuel with
  | zero => intro startpos result _ h; omega
  | succ fuel ih =>
    intro startpos result hle hfuel
    have hlen : (source.drop startpos).length = source.length - startpos := List.length_drop _ _
    rcases takeWhile_split delim (source.drop startpos) with ⟨hnot, htake⟩ | ⟨rest, hsplit, hnot⟩
    · refine ⟨consRun (source.drop startpos) [], Runs.last _ hnot, ?_⟩
      have hfind : findChar source delim startpos = none := by
        simp [findChar, htake]
      have htk : (source.drop startpos).take (source.length - startpos) = source.drop startpos := by
        rw [← hlen]; exact List.take_length _
      simp only [splitLoop, hfind, htk]
      rw [if_neg (by omega), ← consRun_append, hlen]
      simp
    · have hlt : ((source.drop startpos).takeWhile (fun x => x != delim)).length
          < (source.drop startpos).length := by
        conv_rhs => rw [hsplit]
        simp
      have hfind : findChar source delim startpos
          = some (startpos + ((source.drop startpos).takeWhile (fun x => x != delim)).length) := by
        unfold findChar
        simp only
        rw [if_pos hlt]
      generalize hr : (source.drop startpos).takeWhile (fun x => x != delim) = r at *
      have hlen2 : source.length - startpos = r.length + 1 + rest.length := by
        rw [← hlen, hsplit]; simp; omega
      have hdrop : source.drop (startpos + r.length + 1) = rest := by
        have : source.drop (startpos + r.length + 1)
            = (source.drop startpos).drop (r.length + 1) := by
          rw [List.drop_drop]; congr 1; try omega
        rw [this, hsplit, List.drop_append_eq_append_drop]
        simp
      have htk : (source.drop startpos).take r.length = r := by
        rw [hsplit]; simp
      obtain ⟨rs, hruns, hloop⟩ := ih (startpos + r.length + 1)
        (if r.length > 0 then result ++ [r] else result) (by omega) (by omega)
      rw [hdrop] at hruns
      refine ⟨consRun r rs, ?_, ?_⟩
      · rw [hsplit]; exact Runs.cut r rest rs hnot hruns
      · simp only [splitLoop, hfind, Nat.add_sub_cancel_left, htk]
        rw [if_pos (by omega), hloop, consRun_append]

theorem runs_elements (delim : Char) (s : List Char) (rs : List (List Char))
    (h : Runs delim s rs) : ∀ r ∈ rs, r ≠ [] ∧ delim ∉ r := by
  induction h with
  | last t hnot =>
    intro r hr
    unfold consRun at hr
    split at hr
    · simp at hr
    · next hne =>
      simp only [List.mem_singleton] at hr
      subst hr
      exact ⟨hne, hnot⟩
  | cut r' rest rs hnot _ ih =>
    intro r hr
    unfold consRun at hr
    split at hr
    · exact ih r hr
    · next hne =>
      rcases List.mem_cons.mp hr with rfl | hin
      · exact ⟨hne, hnot⟩
      · exact ih r hin

theorem consRun_flatten (r : List Char) (rs : List (List Char)) :
    (consRun r rs).flatten = r ++ rs.flatten := by
  unfold consRun
  split
  · next h => simp [h]
  · simp

theorem filter_of_not_mem (delim : Char) (t : List Char) (h : delim ∉ t) :
    t.filter (fun x => x != delim) = t := by
  rw [List.filter_eq_self]
  intro a ha
  have : a ≠ delim := fun hd => h (hd ▸ ha)
  simpa using this

theorem runs_flatten (delim : Char) (s : List Char) (rs : List (List Char))
    (h : Runs delim s rs) : rs.flatten = s.filter (fun x => x != delim) := by
  induction h with
  | last t hnot => rw [consRun_flatten, filter_of_not_mem delim t hnot]; simp
  | cut r rest rs hnot _ ih =>
    rw [consRun_flatten, ih, List.filter_append, filter_of_not_mem delim r hnot]
    simp

theorem runs_only_delimiters (delim : Char) (s : List Char) (rs : List (List Char))
    (h : Runs delim s rs) (hall : ∀ x ∈ s, x = delim) : rs = [] := by
  induction h with
  | last t hnot =>
    cases t with
    | nil => rfl
    | cons a t =>
      exact absurd (hall a (List.mem_cons_self _ _) ▸ List.mem_cons_self a t) hnot
  | cut r rest rs hnot _ ih =>
    have hrest : rs = [] := ih (fun x hx => hall x (by simp [hx]))
    cases r with
    | nil => simpa [consRun] using hrest
    | cons a r =>
      have ha : a = delim := hall a (by simp)
      exact absurd (ha ▸ List.mem_cons_self a r) hnot

theorem append_cons_cancel (delim : Char) :
    ∀ (r r' rest rest' : List Char), delim ∉ r → delim ∉ r' →
      r ++ delim :: rest = r' ++ delim :: rest' → r = r' ∧ rest = rest' := by
  intro r
  induction r with
  | nil =>
    intro r' rest rest' _ hr' h
    cases r' with
    | nil => simpa using h
    | cons a r' =>
      simp only [List.nil_append, List.cons_append, List.cons.injEq] at h
      exact absurd (h.1 ▸ List.mem_cons_self a r') hr'
  | cons a r ih =>
    intro r' rest rest' hr hr' h
    cases r' with
    | nil =>
      simp only [List.nil_append, List.cons_append, List.cons.injEq] at h
      exact absurd (h.1 ▸ List.mem_cons_self a r) hr
    | cons b r' =>
      simp only [List.cons_append, List.cons.injEq] at h
      have := ih r' rest rest' (fun hm => hr (List.mem_cons_of_mem _ hm))
        (fun hm => hr' (List.mem_cons_of_mem _ hm)) h.2
      exact ⟨by rw [h.1, this.1], this.2⟩

/-- A string has one list of runs only. -/
theorem runs_unique (delim : Char) (s : List Char) (xs ys : List (List Char))
    (hx : Runs delim s xs) (hy : Runs delim s ys) : xs = ys := by
  induction hx generalizing ys with
  | last t hnot =>
    cases hy with
    | last _ _ => rfl
    | cut r rest rs hr _ => exact absurd (by simp) hnot
  | cut r rest rs hnot _ ih =>
    generalize hs : r ++ delim :: rest = s at hy
    cases hy with
    | last _ hnot' => exact absurd (hs ▸ (by simp)) hnot'
    | cut r' rest' rs' hr' hrest' =>
      obtain ⟨h1, h2⟩ := append_cons_cancel delim r r' rest rest' hnot hr' hs
      subst h1 h2
      rw [ih rs' hrest']


/-- Every run is bounded on both sides by a delimiter or by an end of the
string. -/
theorem runs_maximal (delim : Char) (s : List Char) (rs : List (List Char))
    (h : Runs delim s rs) :
    ∀ r ∈ rs, ∃ before after : List Char, s = before ++ r ++ after
      ∧ (before = [] ∨ ∃ b, before = b ++ [delim])
      ∧ (after = [] ∨ ∃ a, after = delim :: a) := by
  induction h with
  | last t hnot =>
    intro r hr
    unfold consRun at hr
    split at hr
    · simp at hr
    · simp only [List.mem_singleton] at hr
      subst hr
      exact ⟨[], [], by simp, Or.inl rfl, Or.inl rfl⟩
  | cut r' rest rs hnot _ ih =>
    have hrest : ∀ r ∈ rs, ∃ before after : List Char, r' ++ delim :: rest = before ++ r ++ after
        ∧ (before = [] ∨ ∃ b, before = b ++ [delim])
        ∧ (after = [] ∨ ∃ a, after = delim :: a) := by
      intro r hr
      obtain ⟨before, after, hs, hb, ha⟩ := ih r hr
      refine ⟨r' ++ delim :: before, after, by rw [hs]; simp, Or.inr ?_, ha⟩
      rcases hb with rfl | ⟨b, rfl⟩
      · exact ⟨r', rfl⟩
      · exact ⟨r' ++ delim :: b, by simp⟩
    intro r hr
    unfold consRun at hr
    split at hr
    · exact hrest r hr
    · rcases List.mem_cons.mp hr with rfl | hin
      · exact ⟨[], delim :: rest, by simp, Or.inl rfl, Or.inr ⟨rest, rfl⟩⟩
      · exact hrest r hin

theorem split_runs (source : List Char) (delim : Char) (result0 : List (List Char))
    (fuel : Nat) (hfuel : source.length < fuel) :
    ∃ rs, split fuel source delim result0 = some rs ∧ Runs delim source rs := by
  cases source with
  | nil =>
    refine ⟨[], rfl, ?_⟩
    have := @Runs.last delim [] (by simp)
    simpa [consRun] using this
  | cons a source =>
    obtain ⟨rs, hruns, hloop⟩ := splitLoop_spec (a :: source) delim fuel 0 [] (Nat.zero_le _)
      (by simpa using hfuel)
    refine ⟨rs, ?_, by simpa using hruns⟩
    simp only [split, clear, List.isEmpty_cons]
    simpa using hloop

/-- C26: given enough iterations for the length of `source`, `split` returns,
whatever `result` held before the call, and what it returns is the list of runs
of `source`: the string cut at every delimiter, with the empty pieces dropped.
No element is empty or contains the delimiter, every element is bounded on each
side by a delimiter or an end of `source`, the elements concatenated are
`source` without its delimiters, the result is empty when `source` holds only
delimiters (or nothing), and no other list is a list of runs of `source`. -/
theorem split_maximal_runs (source : List Char) (delim : Char)
    (result0 : List (List Char)) (fuel : Nat) (hfuel : source.length < fuel) :
    ∃ rs, split fuel source delim result0 = some rs
      ∧ Runs delim source rs
      ∧ (∀ r ∈ rs, r ≠ [] ∧ delim ∉ r)
      ∧ (∀ r ∈ rs, ∃ before after : List Char, source = before ++ r ++ after
          ∧ (before = [] ∨ ∃ b, before = b ++ [delim])
          ∧ (after = [] ∨ ∃ a, after = delim :: a))
      ∧ rs.flatten = source.filter (fun x => x != delim)
      ∧ ((∀ x ∈ source, x = delim) → rs = [])
      ∧ (∀ ys, Runs delim source ys → ys = rs) := by
  obtain ⟨rs, hsplit, hruns⟩ := split_runs source delim result0 fuel hfuel
  exact ⟨rs, hsplit, hruns, runs_elements delim source rs hruns,
    runs_maximal delim source rs hruns, runs_flatten delim source rs hruns,
    runs_only_delimiters delim source rs hruns,
    fun ys hys => runs_unique delim source ys rs hys hruns⟩

/-- The string `a,b,,c` split at commas, with a result vector that held an
element before the call, gives `a`, `b`, `c`. -/
theorem split_maximal_runs_witness :
    ("a,b,,c".toList.length < 7)
      ∧ split 7 "a,b,,c".toList (Char.ofNat 44) ["old".toList]
          = some ["a".toList, "b".toList, "c".toList]
      ∧ ∃ rs, split 7 "a,b,,c".toList (Char.ofNat 44) ["old".toList] = some rs
          ∧ Runs (Char.ofNat 44) "a,b,,c".toList rs
          ∧ (∀ r ∈ rs, r ≠ [] ∧ (Char.ofNat 44) ∉ r)
          ∧ (∀ r ∈ rs, ∃ before after : List Char, "a,b,,c".toList = before ++ r ++ after
              ∧ (before = [] ∨ ∃ b, before = b ++ [Char.ofNat 44])
              ∧ (after = [] ∨ ∃ a, after = Char.ofNat 44 :: a))
          ∧ rs.flatten = "a,b,,c".toList.filter (fun x => x != Char.ofNat 44)
          ∧ ((∀ x ∈ "a,b,,c".toList, x = Char.ofNat 44) → rs = [])
          ∧ (∀ ys, Runs (Char.ofNat 44) "a,b,,c".toList ys → ys = rs) :=
  ⟨by decide, by decide,
    split_maximal_runs "a,b,,c".toList (Char.ofNat 44) ["old".toList] 7 (by decide)⟩

/-! ## `escapeMel` -/

theorem escapeMel_foldl (s : List Char) : ∀ acc : List Char,
    s.foldl (fun result c => result ++ escapeChar c) acc = acc ++ escapeMel s := by
  induction s with
  | nil => intro acc; simp [escapeMel]
  | cons c s ih =>
    intro acc
    simp only [escapeMel, List.foldl_cons, List.nil_append]
    rw [ih (acc ++ escapeChar c), ih (escapeChar c), List.append_assoc]

theorem escapeMel_nil : escapeMel [] = [] := rfl

theorem escapeMel_cons (c : Char) (s : List Char) :
    escapeMel (c :: s) = escapeChar c ++ escapeMel s := by
  have := escapeMel_foldl s (escapeChar c)
  simpa [escapeMel] using this

theorem escapeMel_append (s t : List Char) :
    escapeMel (s ++ t) = escapeMel s ++ escapeMel t := by
  induction s with
  | nil => simp [escapeMel_nil]
  | cons c s ih => simp [escapeMel_cons, ih]

/-- Shape of the text written for one character: the character itself when it
is none of the four special ones, a backslash and a second character otherwise. -/
theorem escapeChar_shape (c : Char) :
    (escapeChar c = [c] ∧ c ≠ quoteChar ∧ c ≠ backslashChar ∧ c ≠ newlineChar ∧ c ≠ tabChar)
    ∨ (∃ y, escapeChar c = [backslashChar, y] ∧ y ≠ newlineChar ∧ y ≠ tabChar
        ∧ (y = quoteChar → c = quoteChar)) := by
  unfold escapeChar
  by_cases h1 : c = quoteChar
  · right; exact ⟨quoteChar, by rw [if_pos h1], by decide, by decide, fun _ => h1⟩
  by_cases h2 : c = backslashChar
  · right
    exact ⟨backslashChar, by rw [if_neg h1, if_pos h2], by decide, by decide,
      fun h => absurd h (by decide)⟩
  by_cases h3 : c = newlineChar
  · right
    exact ⟨'n', by rw [if_neg h1, if_neg h2, if_pos h3], by decide, by decide,
      fun h => absurd h (by decide)⟩
  by_cases h4 : c = tabChar
  · right
    exact ⟨'t', by rw [if_neg h1, if_neg h2, if_neg h3, if_pos h4], by decide, by decide,
      fun h => absurd h (by decide)⟩
  left
  exact ⟨by rw [if_neg h1, if_neg h2, if_neg h3, if_neg h4], h1, h2, h3, h4⟩

theorem unescapeMel_escapeChar (c : Char) (rest : List Char) :
    unescapeMel (escapeChar c ++ rest) = c :: unescapeMel rest := by
  unfold escapeChar
  by_cases h1 : c = quoteChar
  · subst h1; simp [unescapeMel]
  by_cases h2 : c = backslashChar
  · subst h2
    have : backslashChar ≠ quoteChar := by decide
    simp [unescapeMel, this]
  by_cases h3 : c = newlineChar
  · subst h3
    have a1 : newlineChar ≠ quoteChar := by decide
    have a2 : newlineChar ≠ backslashChar := by decide
    have a3 : 'n' ≠ quoteChar := by decide
    have a4 : 'n' ≠ backslashChar := by decide
    simp [unescapeMel, a1, a2, a3, a4]
  by_cases h4 : c = tabChar
  · subst h4
    have a1 : tabChar ≠ quoteChar := by decide
    have a2 : tabChar ≠ backslashChar := by decide
    have a3 : tabChar ≠ newlineChar := by decide
    have a4 : 't' ≠ quoteChar := by decide
    have a5 : 't' ≠ backslashChar := by decide
    have a6 : 't' ≠ 'n' := by decide
    simp [unescapeMel, a1, a2, a3, a4, a5, a6]
  simp only [h1, h2, h3, h4, if_false, List.singleton_append]
  cases rest with
  | nil => simp [unescapeMel]
  | cons d rest => simp [unescapeMel, h2]

/-- Decoding the escape pairs from left to right gives the string back. -/
theorem unescapeMel_escapeMel (s : List Char) : unescapeMel (escapeMel s) = s := by
  induction s with
  | nil => simp [escapeMel_nil, unescapeMel]
  | cons c s ih => rw [escapeMel_cons, unescapeMel_escapeChar, ih]

theorem escapeMel_no_control (s : List Char) :
    ∀ x ∈ escapeMel s, x ≠ newlineChar ∧ x ≠ tabChar := by
  induction s with
  | nil => intro x hx; simp [escapeMel_nil] at hx
  | cons c s ih =>
    intro x hx
    rw [escapeMel_cons, List.mem_append] at hx
    rcases hx with hx | hx
    · rcases escapeChar_shape c with ⟨hc, _, _, h3, h4⟩ | ⟨y, hc, hy1, hy2, _⟩
      · rw [hc, List.mem_singleton] at hx
        subst hx
        exact ⟨h3, h4⟩
      · rw [hc] at hx
        simp only [List.mem_cons, List.mem_singleton, List.not_mem_nil, or_false] at hx
        rcases hx with rfl | rfl
        · exact ⟨by decide, by decide⟩
        · exact ⟨hy1, hy2⟩
    · exact ih x hx

/-- Every double quote of the output is the second character of the pair
written for a double quote of the input. -/
theorem escapeMel_quote (s : List Char) : ∀ a b : List Char,
    escapeMel s = a ++ quoteChar :: b →
    ∃ pre post : List Char, s = pre ++ quoteChar :: post
      ∧ a = escapeMel pre ++ [backslashChar] ∧ b = escapeMel post := by
  induction s with
  | nil => intro a b h; simp [escapeMel_nil] at h
  | cons c s ih =>
    intro a b h
    rw [escapeMel_cons] at h
    have hbq : backslashChar ≠ quoteChar := by decide
    have lift : ∀ (a' : List Char) (front : List Char), escapeChar c = front →
        escapeMel s = a' ++ quoteChar :: b → a = front ++ a' →
        ∃ pre post : List Char, c :: s = pre ++ quoteChar :: post
          ∧ a = escapeMel pre ++ [backslashChar] ∧ b = escapeMel post := by
      intro a' front hfront hs ha
      obtain ⟨pre, post, hs', ha', hb'⟩ := ih a' b hs
      refine ⟨c :: pre, post, by rw [hs']; rfl, ?_, hb'⟩
      rw [ha, ha', escapeMel_cons, hfront, List.append_assoc]
    rcases escapeChar_shape c with ⟨hc, h1, _, _, _⟩ | ⟨y, hc, _, _, hy⟩
    · rw [hc] at h
      cases a with
      | nil =>
        simp only [List.singleton_append, List.nil_append, List.cons.injEq] at h
        exact absurd h.1 h1
      | cons x a' =>
        simp only [List.singleton_append, List.cons_append, List.cons.injEq] at h
        exact lift a' [c] hc h.2 (by rw [h.1]; rfl)
    · rw [hc] at h
      cases a with
      | nil =>
        simp only [List.cons_append, List.nil_append, List.cons.injEq] at h
        exact absurd h.1 hbq
      | cons x a' =>
        simp only [List.cons_append, List.nil_append, List.cons.injEq] at h
        obtain ⟨hx, h⟩ := h
        cases a' with
        | nil =>
          simp only [List.nil_append, List.cons.injEq] at h
          have hcq : c = quoteChar := hy h.1
          refine ⟨[], s, by rw [hcq]; rfl, by rw [← hx]; rfl, h.2.symm⟩
        | cons x' a'' =>
          simp only [List.cons_append, List.cons.injEq] at h
          exact lift a'' [backslashChar, y] hc h.2 (by rw [← hx, ← h.1]; rfl)

/-- C27: `escapeMel` is injective, its output holds no newline and no tab,
every double quote of the output directly follows the backslash of the pair
written for a double quote of the input, and decoding the four pairs from left
to right gives the input back. -/
theorem escape_mel_decodable (s : List Char) :
    (∀ t : List Char, escapeMel s = escapeMel t → s = t)
      ∧ (∀ x ∈ escapeMel s, x ≠ newlineChar ∧ x ≠ tabChar)
      ∧ (∀ a b : List Char, escapeMel s = a ++ quoteChar :: b →
          ∃ pre post : List Char, s = pre ++ quoteChar :: post
            ∧ a = escapeMel pre ++ [backslashChar] ∧ b = escapeMel post)
      ∧ unescapeMel (escapeMel s) = s := by
  refine ⟨?_, escapeMel_no_control s, escapeMel_quote s, unescapeMel_escapeMel s⟩
  intro t h
  rw [← unescapeMel_escapeMel s, h, unescapeMel_escapeMel]

/-- A string holding each of the four special characters is escaped to four
pairs and decoded back. -/
theorem escape_mel_decodable_witness :
    escapeMel ['a', quoteChar, backslashChar, newlineChar, tabChar, 'n']
        = ['a', backslashChar, quoteChar, backslashChar, backslashChar,
            backslashChar, 'n', backslashChar, 't', 'n']
      ∧ unescapeMel ['a', backslashChar, quoteChar, backslashChar, backslashChar,
            backslashChar, 'n', backslashChar, 't', 'n']
        = ['a', quoteChar, backslashChar, newlineChar, tabChar, 'n']
      ∧ (∀ t : List Char,
          escapeMel ['a', quoteChar, backslashChar, newlineChar, tabChar, 'n'] = escapeMel t →
          ['a', quoteChar, backslashChar, newlineChar, tabChar, 'n'] = t) :=
  ⟨by decide, by decide,
    (escape_mel_decodable ['a', quoteChar, backslashChar, newlineChar, tabChar, 'n']).1⟩

end Helpers
